import Mathlib

/-!
Verification of the markdown-diff-preview core against its specification.

Strings are modelled as `List Char` (`Str`), the underlying data of a
JavaScript string.  Each definition is a direct translation of the
corresponding TypeScript function; JavaScript `Set`/`Map` objects are
modelled as `Finset`/association lists with the same update semantics.
-/

namespace MDP

abbrev Str := List Char

/-- JavaScript whitespace class `\s` (ASCII part, which is all the code relies on). -/
def isWs (c : Char) : Bool :=
  c = ' ' || c = '\t' || c = '\n' || c = '\r' || c = '\x0b' || c = '\x0c'

/-- `String.prototype.trim`. -/
def jsTrim (s : Str) : Str :=
  ((s.dropWhile isWs).reverse.dropWhile isWs).reverse

/-- `String.prototype.startsWith`. -/
def sw (p s : Str) : Bool := p.isPrefixOf s

/-- `String.prototype.split('\n')`. -/
def splitNl : Str → List Str
  | [] => [[]]
  | c :: cs =>
    if c = '\n' then [] :: splitNl cs
    else
      match splitNl cs with
      | r :: rs => (c :: r) :: rs
      | [] => [[c]]

/-- `Array.prototype.join(sep)`. -/
def joinSep (sep : Str) : List Str → Str
  | [] => []
  | [x] => x
  | x :: xs => x ++ sep ++ joinSep sep xs

def isDigitCh (c : Char) : Bool := '0' ≤ c && c ≤ '9'

/-- Split a leading run of decimal digits from the rest (`\d+` maximal munch). -/
def takeDigits : Str → Str × Str
  | [] => ([], [])
  | c :: cs =>
    if isDigitCh c then
      let (d, r) := takeDigits cs
      (c :: d, r)
    else ([], c :: cs)

/-- Numeric value of a digit string (`parseInt(_, 10)` on an all-digit string). -/
def digitsToNat (s : Str) : Nat :=
  s.foldl (fun a c => a * 10 + (c.toNat - 48)) 0

/-- Decimal rendering, fuelled so that it reduces structurally; the fuel in
`natToStr` always suffices since `n / 10 < n` for `n ≥ 10`. -/
def natToStrAux : Nat → Nat → Str
  | 0, _ => []
  | fuel + 1, n =>
    if n < 10 then [Char.ofNat (48 + n)]
    else natToStrAux fuel (n / 10) ++ [Char.ofNat (48 + n % 10)]

/-- Decimal rendering of a natural number (JS number-to-string for naturals). -/
def natToStr (n : Nat) : Str := natToStrAux (n + 1) n

/-- Substring test (`String.prototype.includes`). -/
def containsSub (s pat : Str) : Bool := decide (pat <:+: s)

/-- First index of `pat` in `s`, `String.prototype.indexOf` (for nonempty `pat`). -/
def idxOf : Str → Str → Option Nat
  | _, [] => some 0
  | [], _ :: _ => none
  | c :: cs, pat =>
    if pat.isPrefixOf (c :: cs) then some 0
    else (idxOf cs pat).map (· + 1)

/-- Number of (possibly overlapping) occurrences of a nonempty pattern. -/
def countOccur (pat : Str) : Str → Nat
  | [] => if pat = [] then 0 else 0
  | c :: cs => (if pat.isPrefixOf (c :: cs) then 1 else 0) + countOccur pat cs

/-! ## Diff data model (src/core/types.ts) -/

inductive ChangeType | added | removed | context
deriving DecidableEq, Repr

structure DiffChange where
  type : ChangeType
  lineNumber : Nat
  oldLineNumber : Option Nat
  content : Str
deriving DecidableEq, Repr

structure DiffHunk where
  oldStart : Nat
  oldLines : Nat
  newStart : Nat
  newLines : Nat
  changes : List DiffChange
deriving DecidableEq, Repr

structure FileDiff where
  filePath : Str
  isNew : Bool
  isDeleted : Bool
  hunks : List DiffHunk
  addedLines : Finset Nat
  removedLines : List (Nat × Str)
deriving DecidableEq

/-- `Map.prototype.set`: replace the value at an existing key, else append. -/
def mapSet (k : Nat) (v : Str) : List (Nat × Str) → List (Nat × Str)
  | [] => [(k, v)]
  | (k', v') :: rest =>
    if k' = k then (k, v) :: rest else (k', v') :: mapSet k v rest

/-- `Map.prototype.get`. -/
def mapGet (k : Nat) : List (Nat × Str) → Option Str
  | [] => none
  | (k', v) :: rest => if k' = k then some v else mapGet k rest

/-! ## Comment-marker helpers (src/core/diffParser.ts lines 8-22) -/

/-- Length of a `<!--comment:\d+-->` token at the head of the list, if present. -/
def markerLen (l : Str) : Option Nat :=
  if sw "<!--comment:".data l then
    let (d, r) := takeDigits (l.drop 12)
    if d ≠ [] ∧ sw "-->".data r then some (12 + d.length + 3) else none
  else none

/-- Fuelled scan deleting every `<!--comment:\d+-->` token; each step consumes
at least one character, so fuel `l.length` always suffices. -/
def deleteMarkersF : Nat → Str → Str
  | 0, l => l
  | _ + 1, [] => []
  | fuel + 1, c :: cs =>
    match markerLen (c :: cs) with
    | some k => deleteMarkersF fuel ((c :: cs).drop k)
    | none => c :: deleteMarkersF fuel cs

/-- `line.replace(/<!--comment:\d+-->/g, '')`: delete every marker token. -/
def deleteMarkers (l : Str) : Str := deleteMarkersF l.length l

/-- `stripCommentMarkers` from src/core/diffParser.ts. -/
def stripCommentMarkers (line : Str) : Str :=
  jsTrim (deleteMarkers line)

/-- `isOnlyCommentMarkerDiff` from src/core/diffParser.ts. -/
def isOnlyCommentMarkerDiff (oldLine newLine : Str) : Bool :=
  stripCommentMarkers oldLine = stripCommentMarkers newLine

/-! ## parseDiff (src/core/diffParser.ts lines 24-148) -/

/-- Parse the hunk header regex `^@@ -(\d+)(?:,(\d+))? \+(\d+)(?:,(\d+))? @@`;
returns `(oldStart, oldLines, newStart, newLines)` with the `|| '1'` defaults. -/
def matchHunkHeader (l : Str) : Option (Nat × Nat × Nat × Nat) :=
  if sw "@@ -".data l then
    let r0 := l.drop 4
    let (d1, r1) := takeDigits r0
    if d1 = [] then none else
    let (d2, r2) :=
      match r1 with
      | ',' :: rest =>
        let (d, r) := takeDigits rest
        if d = [] then (none, r1) else (some d, r)
      | _ => (none, r1)
    match r2 with
    | ' ' :: '+' :: r3 =>
      let (d3, r4) := takeDigits r3
      if d3 = [] then none else
      let (d4, r5) :=
        match r4 with
        | ',' :: rest =>
          let (d, r) := takeDigits rest
          if d = [] then (none, r4) else (some d, r)
        | _ => (none, r4)
      if sw " @@".data r5 then
        some (digitsToNat d1, digitsToNat (d2.getD ['1']),
              digitsToNat d3, digitsToNat (d4.getD ['1']))
      else none
    | _ => none
  else none

structure ParseState where
  hunksDone : List DiffHunk
  currentHunk : Option DiffHunk
  newLineNumber : Nat
  oldLineNumber : Nat
  pendingRemovals : List Str
  addedLines : Finset Nat
  removedLines : List (Nat × Str)
  removalInsertPoint : Nat
deriving DecidableEq

def initParseState : ParseState :=
  ⟨[], none, 0, 0, [], ∅, [], 0⟩

/-- One iteration of the `for (const line of lines)` loop in `parseDiff`. -/
def parseDiffStep (st : ParseState) (line : Str) : ParseState :=
  match matchHunkHeader line with
  | some (os, ol, ns, nl) =>
    { hunksDone := st.hunksDone ++ st.currentHunk.toList
      currentHunk := some ⟨os, ol, ns, nl, []⟩
      newLineNumber := ns
      oldLineNumber := os
      pendingRemovals := []
      addedLines := st.addedLines
      removedLines :=
        if st.pendingRemovals ≠ [] ∧ st.removalInsertPoint > 0 then
          mapSet st.removalInsertPoint (joinSep ['\n'] st.pendingRemovals)
            st.removedLines
        else st.removedLines
      removalInsertPoint := ns }
  | none =>
    match st.currentHunk with
    | none => st
    | some h =>
      if sw "+".data line ∧ ¬ sw "+++".data line then
        if st.pendingRemovals ≠ [] ∧
            isOnlyCommentMarkerDiff (st.pendingRemovals.getLast!) (line.drop 1) then
          { st with
            currentHunk := some { h with changes := h.changes ++
              [⟨ChangeType.context, st.newLineNumber, some st.oldLineNumber,
                stripCommentMarkers (line.drop 1)⟩] }
            pendingRemovals := st.pendingRemovals.dropLast
            oldLineNumber := st.oldLineNumber + 1
            removalInsertPoint := st.newLineNumber + 1
            newLineNumber := st.newLineNumber + 1 }
        else
          { st with
            currentHunk := some { h with changes := h.changes ++
              [⟨ChangeType.added, st.newLineNumber, none, line.drop 1⟩] }
            addedLines := insert st.newLineNumber st.addedLines
            removedLines :=
              if st.pendingRemovals ≠ [] then
                mapSet st.removalInsertPoint (joinSep ['\n'] st.pendingRemovals)
                  st.removedLines
              else st.removedLines
            pendingRemovals := []
            removalInsertPoint := st.newLineNumber + 1
            newLineNumber := st.newLineNumber + 1 }
      else if sw "-".data line ∧ ¬ sw "---".data line then
        { st with
          currentHunk := some { h with changes := h.changes ++
            [⟨ChangeType.removed, st.newLineNumber, some st.oldLineNumber,
              line.drop 1⟩] }
          pendingRemovals := st.pendingRemovals ++ [line.drop 1]
          oldLineNumber := st.oldLineNumber + 1 }
      else if sw " ".data line ∨ line = [] then
        { st with
          currentHunk := some { h with changes := h.changes ++
            [⟨ChangeType.context, st.newLineNumber, some st.oldLineNumber,
              if sw " ".data line then line.drop 1 else line⟩] }
          removedLines :=
            if st.pendingRemovals ≠ [] then
              mapSet st.removalInsertPoint (joinSep ['\n'] st.pendingRemovals)
                st.removedLines
            else st.removedLines
          pendingRemovals := []
          newLineNumber := st.newLineNumber + 1
          oldLineNumber := st.oldLineNumber + 1
          removalInsertPoint := st.newLineNumber + 1 }
      else st

/-- `parseDiff` from src/core/diffParser.ts. -/
def parseDiff (filePath : Str) (diffOutput : Str) : FileDiff :=
  let st := (splitNl diffOutput).foldl parseDiffStep initParseState
  let rl :=
    if st.pendingRemovals ≠ [] ∧ st.removalInsertPoint > 0 then
      mapSet st.removalInsertPoint (joinSep ['\n'] st.pendingRemovals) st.removedLines
    else st.removedLines
  { filePath := filePath
    isNew := false
    isDeleted := false
    hunks := st.hunksDone ++ st.currentHunk.toList
    addedLines := st.addedLines
    removedLines := rl }

/-- All `added`-typed change line numbers across a hunk list, in order. -/
def hunksAdded (hs : List DiffHunk) : List Nat :=
  (hs.map fun h => (h.changes.filter fun c => c.type == ChangeType.added).map
    (·.lineNumber)).flatten

/-- The hunks of a parse state, completed ones followed by the open one. -/
def ParseState.allHunks (st : ParseState) : List DiffHunk :=
  st.hunksDone ++ st.currentHunk.toList

/-! ## Comment data model (src/core/types.ts) -/

inductive Author | user | ai
deriving DecidableEq, Repr

inductive PlanStatus | pending | approved | rejected
deriving DecidableEq, Repr

inductive ResponseStatus | draft | final
deriving DecidableEq, Repr

inductive TargetType | inline | block
deriving DecidableEq, Repr

structure CommentThreadItem where
  id : Str
  author : Author
  content : Str
  timestamp : Str
deriving DecidableEq, Repr

structure CommentPlan where
  content : Str
  status : PlanStatus
  editable : Bool
deriving DecidableEq, Repr

structure CommentResponse where
  content : Str
  status : ResponseStatus
  editable : Bool
deriving DecidableEq, Repr

structure CommentTarget where
  type : TargetType
  line : Nat
  text : Option Str
  position : Option Nat
  element : Option Str
deriving DecidableEq, Repr

structure Comment where
  id : Nat
  target : CommentTarget
  thread : List CommentThreadItem
  plan : Option CommentPlan
  response : Option CommentResponse
deriving DecidableEq, Repr

/-- `CommentsData`: a JS object mapping stringified ids to comments,
modelled as an insertion-ordered association list. -/
abbrev CommentsData := List (Str × Comment)

/-- JS object property lookup on an association list. -/
def objGet (m : CommentsData) (k : Str) : Option Comment :=
  match m with
  | [] => none
  | (k', v) :: rest => if k' = k then some v else objGet rest k

/-! ## commentParser (second document of src/markdownRenderer.ts) -/

/-- A `<!--comment:(\d+)-->` token at the head: its numeric id and the rest. -/
def markerAt (l : Str) : Option (Nat × Str) :=
  if sw "<!--comment:".data l then
    let (d, r) := takeDigits (l.drop 12)
    if d ≠ [] ∧ sw "-->".data r then some (digitsToNat d, r.drop 3) else none
  else none

/-- Global scan of the inline regex `/<!--comment:(\d+)-->/g`; fuel
`l.length` always suffices since every step consumes a character. -/
def inlineMarkersF : Nat → Str → List Nat
  | 0, _ => []
  | _ + 1, [] => []
  | fuel + 1, c :: cs =>
    match markerAt (c :: cs) with
    | some (v, rest) => v :: inlineMarkersF fuel rest
    | none => inlineMarkersF fuel cs

/-- `extractCommentMarkers` from src/commentParser: all inline matches, plus
the start-of-line block match appended again when the line begins with a
marker. -/
def extractCommentMarkers (line : Str) : List Nat :=
  let ms := inlineMarkersF line.length line
  match markerAt line with
  | some (v, _) => ms ++ [v]
  | none => ms

/-- Helper for `extractCommentMarkersByLine`: 1-indexed line numbers. -/
def markersByLineAux : Nat → List Str → List (Nat × List Nat)
  | _, [] => []
  | i, l :: ls =>
    let ms := extractCommentMarkers l
    if ms ≠ [] then (i + 1, ms) :: markersByLineAux (i + 1) ls
    else markersByLineAux (i + 1) ls

/-- `extractCommentMarkersByLine` from src/commentParser. -/
def extractCommentMarkersByLine (markdown : Str) : List (Nat × List Nat) :=
  markersByLineAux 0 (splitNl markdown)

/-- `Map.prototype.get` on the marker map. -/
def markersGet (k : Nat) : List (Nat × List Nat) → Option (List Nat)
  | [] => none
  | (k', v) :: rest => if k' = k then some v else markersGet k rest

/-- `getCommentsForLine` from src/commentParser. -/
def getCommentsForLine (lineNumber : Nat) (commentsData : Option CommentsData)
    (commentMarkers : List (Nat × List Nat)) : List Comment :=
  match commentsData with
  | none => []
  | some cd =>
    ((markersGet lineNumber commentMarkers).getD []).filterMap
      (fun i => objGet cd (natToStr i))

/-- `hasPlan` from src/commentParser. -/
def hasPlan (c : Comment) : Bool := c.plan.isSome

/-- `hasResponse` from src/commentParser. -/
def hasResponse (c : Comment) : Bool := c.response.isSome

/-- `getCommentStatus` from src/commentParser. -/
def getCommentStatus (c : Comment) : Str :=
  if hasResponse c then "has-response".data
  else if hasPlan c then "has-plan".data
  else if c.thread.length > 0 then "active".data
  else "pending-plan".data

/-! ## JSON (model of the host `JSON.parse` / `JSON.stringify`) -/

/-- JSON values.  Numbers keep their source lexeme: the code under
verification never uses a numeric value, only object shape. -/
inductive JVal where
  | jnull
  | jbool (b : Bool)
  | jnum (lexeme : Str)
  | jstr (s : Str)
  | jarr (items : List JVal)
  | jobj (fields : List (Str × JVal))

/-- JSON whitespace (`ws` in RFC 8259). -/
def isJWs (c : Char) : Bool := c = ' ' || c = '\t' || c = '\n' || c = '\r'

def skipJWs (s : Str) : Str := s.dropWhile isJWs

/-- One JSON string-literal character (after the opening quote); handles the
escapes of RFC 8259 (`\uXXXX` is kept as its four hex digits). -/
def parseJStrF : Nat → Str → Option (Str × Str)
  | 0, _ => none
  | _ + 1, [] => none
  | fuel + 1, c :: cs =>
    if c = '"' then some ([], cs)
    else if c = '\\' then
      match cs with
      | [] => none
      | e :: cs' =>
        let dec : Option Char :=
          if e = '"' then some '"'
          else if e = '\\' then some '\\'
          else if e = '/' then some '/'
          else if e = 'b' then some '\x08'
          else if e = 'f' then some '\x0c'
          else if e = 'n' then some '\n'
          else if e = 'r' then some '\r'
          else if e = 't' then some '\t'
          else none
        match dec with
        | some d => (parseJStrF fuel cs').map (fun (r, rest) => (d :: r, rest))
        | none =>
          if e = 'u' then
            let hex := cs'.take 4
            if hex.length = 4 ∧ hex.all (fun h => isDigitCh h ||
                ('a' ≤ h && h ≤ 'f') || ('A' ≤ h && h ≤ 'F')) then
              (parseJStrF fuel (cs'.drop 4)).map (fun (r, rest) => (hex ++ r, rest))
            else none
          else none
    else (parseJStrF fuel cs).map (fun (r, rest) => (c :: r, rest))

/-- A JSON number lexeme `-?(0|[1-9]\d*)(\.\d+)?([eE][+-]?\d+)?`. -/
def parseJNum (s : Str) : Option (Str × Str) :=
  let (neg, s1) := match s with
    | '-' :: r => (['-'], r)
    | _ => (([] : Str), s)
  match takeDigits s1 with
  | ([], _) => none
  | (int, s2) =>
    if int.length > 1 ∧ int.head? = some '0' then none
    else
      let (frac, s3) := match s2 with
        | '.' :: r =>
          match takeDigits r with
          | ([], _) => (none, s2)
                | (ds, r') => (some ('.' :: ds), r')
        | _ => (none, s2)
      match frac with
      | none =>
        if s2.head? = some '.' then none
        else finishExp (neg ++ int) s2
      | some f => finishExp (neg ++ int ++ f) s3
where
  finishExp (lex : Str) (s : Str) : Option (Str × Str) :=
    match s with
    | 'e' :: r => expTail lex ['e'] r
    | 'E' :: r => expTail lex ['E'] r
    | _ => some (lex, s)
  expTail (lex pre : Str) (r : Str) : Option (Str × Str) :=
    let (sgn, r1) := match r with
      | '+' :: rr => (['+'], rr)
      | '-' :: rr => (['-'], rr)
      | _ => (([] : Str), r)
    match takeDigits r1 with
    | ([], _) => none
    | (ds, r2) => some (lex ++ pre ++ sgn ++ ds, r2)

mutual

/-- Parse one JSON value (modelling `JSON.parse`'s grammar); fuel bounds
recursion depth and always suffices at `s.length + 1`. -/
def parseJVal : Nat → Str → Option (JVal × Str)
  | 0, _ => none
  | fuel + 1, s0 =>
    match skipJWs s0 with
    | [] => none
    | c :: cs =>
      if c = 'n' then
        if sw "ull".data cs then some (.jnull, cs.drop 3) else none
      else if c = 't' then
        if sw "rue".data cs then some (.jbool true, cs.drop 3) else none
      else if c = 'f' then
        if sw "alse".data cs then some (.jbool false, cs.drop 4) else none
      else if c = '"' then
        (parseJStrF (c :: cs).length cs).map (fun (str, r) => (.jstr str, r))
      else if c = '[' then
        match skipJWs cs with
        | ']' :: r => some (.jarr [], r)
        | _ => (parseJArrItems fuel cs).map (fun (xs, r) => (.jarr xs, r))
      else if c = '\x7b' then
        match skipJWs cs with
        | '\x7d' :: r => some (.jobj [], r)
        | _ => (parseJObjFields fuel cs).map (fun (fs, r) => (.jobj fs, r))
      else
        (parseJNum (c :: cs)).map (fun (lex, r) => (.jnum lex, r))

/-- Comma-separated array items up to `]`. -/
def parseJArrItems : Nat → Str → Option (List JVal × Str)
  | 0, _ => none
  | fuel + 1, s =>
    match parseJVal fuel s with
    | none => none
    | some (v, r) =>
      match skipJWs r with
      | ',' :: r' =>
        (parseJArrItems fuel r').map (fun (xs, rr) => (v :: xs, rr))
      | ']' :: r' => some ([v], r')
      | _ => none

/-- Comma-separated `"key": value` fields up to the closing brace. -/
def parseJObjFields : Nat → Str → Option (List (Str × JVal) × Str)
  | 0, _ => none
  | fuel + 1, s =>
    match skipJWs s with
    | '"' :: cs =>
      match parseJStrF (cs.length + 1) cs with
      | none => none
      | some (key, r) =>
        match skipJWs r with
        | ':' :: r' =>
          match parseJVal fuel r' with
          | none => none
          | some (v, r2) =>
            match skipJWs r2 with
            | ',' :: r3 =>
              (parseJObjFields fuel r3).map (fun (fs, rr) => ((key, v) :: fs, rr))
            | '\x7d' :: r3 => some ([(key, v)], r3)
            | _ => none
        | _ => none
    | _ => none

end

/-- `JSON.parse`, modelled: parse one value and require only trailing
whitespace after it. -/
def jsonParse (s : Str) : Option JVal :=
  match parseJVal (s.length + 1) s with
  | some (v, rest) => if skipJWs rest = [] then some v else none
  | none => none

/-- JS property read on a parsed JSON object (`JSON.parse` keeps the last of
duplicate keys, so the lookup prefers the rightmost binding). -/
def jGet (fields : List (Str × JVal)) (k : Str) : Option JVal :=
  match fields with
  | [] => none
  | (k', v) :: rest =>
    match jGet rest k with
    | some r => some r
    | none => if k' = k then some v else none

/-- JS property write (assign, overwriting the rightmost duplicate if any,
else appending). -/
def jSet (fields : List (Str × JVal)) (k : Str) (v : JVal) :
    List (Str × JVal) :=
  if (jGet fields k).isSome then
    (fields.reverse.replaceF
      (fun (k', _) => if k' = k then some (k, v) else none)).reverse
  else fields ++ [(k, v)]

/-! ## parseCommentsData (src/commentParser) -/

/-- Try the regex `<!--\s*COMMENTS-DATA\s*([\s\S]*?)\s*-->` anchored at the
head of `l`.  Returns the full match length and the raw text between the
header and the first `-->` (the lazy capture differs from it only by
whitespace, which the caller trims away). -/
def cdMatchAt (l : Str) : Option (Nat × Str) :=
  if sw "<!--".data l then
    let afterBang := l.drop 4
    let a := afterBang.dropWhile isWs
    if sw "COMMENTS-DATA".data a then
      let body := a.drop 13
      match idxOf body "-->".data with
      | some j =>
        some (4 + (afterBang.length - a.length) + 13 + j + 3, body.take j)
      | none => none
    else none
  else none

/-- Leftmost match of the COMMENTS-DATA block regex: start index, full match
length, and raw capture. -/
def findCDAux : Nat → Str → Nat → Option (Nat × Nat × Str)
  | 0, _, _ => none
  | _ + 1, [], _ => none
  | fuel + 1, c :: cs, pos =>
    match cdMatchAt (c :: cs) with
    | some (len, cap) => some (pos, len, cap)
    | none => findCDAux fuel cs (pos + 1)

def findCD (md : Str) : Option (Nat × Nat × Str) :=
  findCDAux (md.length + 1) md 0

/-- `parseCommentsData` from src/commentParser: locate the block, trim the
captured body, `JSON.parse` it, and require a plain (non-array, non-null)
object.  (`!match[1]` and `!jsonStr` both collapse into the emptiness test on
the trimmed capture.) -/
def parseCommentsData (markdown : Str) : Option (List (Str × JVal)) :=
  match findCD markdown with
  | none => none
  | some (_, _, cap) =>
    if jsTrim cap = [] then none
    else
      match jsonParse (jsTrim cap) with
      | some (JVal.jobj fields) => some fields
      | some _ => none
      | none => none

/-! ## isTableRow (src/markdownRenderer.ts lines 268-302 and the identical
copy inside renderMarkdownWithDiff in src/core) -/

/-- `/^[-*+]\s/` or `/^\d+\.\s/` on an already-trimmed line. -/
def isListLike (t : Str) : Bool :=
  (match t with
   | c :: d :: _ => (c = '-' || c = '*' || c = '+') && isWs d
   | _ => false) ||
  (match takeDigits t with
   | ([], _) => false
   | (_, '.' :: d :: _) => isWs d
   | (_, _) => false)

/-- Count `|` characters not nested inside `[...]` brackets
(`inBrackets = Math.max(0, inBrackets - 1)` is truncated subtraction). -/
def countUnbracketedPipes : Str → Nat → Nat
  | [], _ => 0
  | c :: cs, b =>
    if c = '[' then countUnbracketedPipes cs (b + 1)
    else if c = ']' then countUnbracketedPipes cs (b - 1)
    else if c = '|' ∧ b = 0 then 1 + countUnbracketedPipes cs b
    else countUnbracketedPipes cs b

/-- `isTableRow` from src/markdownRenderer.ts. -/
def isTableRow (line : Str) : Bool :=
  let trimmed := jsTrim line
  if isListLike trimmed then false
  else if sw ">".data trimmed then false
  else if sw "|".data trimmed then true
  else countUnbracketedPipes trimmed 0 ≥ 2

/-! ## _updateComment (src/markdownPreview.ts lines 1765-1840), pure core.
The VS Code effects are modelled by the result: `warn`/`errMsg` show a
message and apply no edit; `applyEdit` replaces the document text. -/

inductive UpdResult where
  | warn (msg : Str)
  | errMsg (msg : Str)
  | applyEdit (newText : Str)

/-- JS truthiness of a JSON number lexeme: falsy iff the numeric value is 0,
i.e. every mantissa digit is `0`. -/
def jsonNumZero (lex : Str) : Bool :=
  (lex.takeWhile (fun c => c ≠ 'e' ∧ c ≠ 'E')).all
    (fun c => !isDigitCh c || c = '0')

/-- JS truthiness of a JSON value (`undefined` is modelled by the caller via
`Option.getD JVal.jnull`, which is equally falsy). -/
def jTruthy : JVal → Bool
  | JVal.jnull => false
  | JVal.jbool b => b
  | JVal.jnum lex => !jsonNumZero lex
  | JVal.jstr s => s ≠ []
  | JVal.jarr _ => true
  | JVal.jobj _ => true

/-- Indentation used by `JSON.stringify(_, null, 2)`. -/
def jIndent (n : Nat) : Str := List.replicate n ' '

/-- String-literal escaping for `JSON.stringify`. -/
def jEscStr (s : Str) : Str :=
  s.flatMap (fun c =>
    if c = '"' then ['\\', '"']
    else if c = '\\' then ['\\', '\\']
    else if c = '\n' then ['\\', 'n']
    else if c = '\t' then ['\\', 't']
    else if c = '\r' then ['\\', 'r']
    else [c])

mutual

/-- `JSON.stringify(v, null, 2)` at indentation level `ind`. -/
def jStringifyV : Nat → JVal → Str
  | _, JVal.jnull => "null".data
  | _, JVal.jbool b => if b then "true".data else "false".data
  | _, JVal.jnum lex => lex
  | _, JVal.jstr s => '"' :: (jEscStr s ++ ['"'])
  | _, JVal.jarr [] => "[]".data
  | ind, JVal.jarr (x :: xs) =>
    "[\n".data ++ jStringifyItems (ind + 2) (x :: xs) ++
      '\n' :: (jIndent ind ++ "]".data)
  | _, JVal.jobj [] => "\x7b\x7d".data
  | ind, JVal.jobj (f :: fs) =>
    "\x7b\n".data ++ jStringifyFields (ind + 2) (f :: fs) ++
      '\n' :: (jIndent ind ++ "\x7d".data)

def jStringifyItems : Nat → List JVal → Str
  | _, [] => []
  | ind, [x] => jIndent ind ++ jStringifyV ind x
  | ind, x :: y :: xs =>
    jIndent ind ++ jStringifyV ind x ++ ",\n".data ++
      jStringifyItems ind (y :: xs)

def jStringifyFields : Nat → List (Str × JVal) → Str
  | _, [] => []
  | ind, [(k, v)] =>
    jIndent ind ++ '"' :: (jEscStr k ++ "\": ".data) ++ jStringifyV ind v
  | ind, (k, v) :: g :: fs =>
    jIndent ind ++ '"' :: (jEscStr k ++ "\": ".data) ++ jStringifyV ind v ++
      ",\n".data ++ jStringifyFields ind (g :: fs)

end

/-- The `comment.plan` / `comment.response` update: creates the sub-object
with default status and `editable: true` when absent or falsy, else sets its
`content`; a truthy primitive cannot take a property (strict-mode TypeError,
`none`). -/
def updateField (cf : List (Str × JVal)) (fieldName defStatus content : Str) :
    Option (List (Str × JVal)) :=
  let vOpt := jGet cf fieldName
  if jTruthy (vOpt.getD JVal.jnull) = false then
    some (jSet cf fieldName (JVal.jobj
      [("content".data, JVal.jstr content),
       ("status".data, JVal.jstr defStatus),
       ("editable".data, JVal.jbool true)]))
  else
    match vOpt with
    | some (JVal.jobj pf) =>
      some (jSet cf fieldName
        (JVal.jobj (jSet pf "content".data (JVal.jstr content))))
    | _ => none

/-- `_updateComment` from src/markdownPreview.ts, as a pure text transform. -/
def updateComment (doc : Str) (commentId : Nat) (ty content : Str) :
    UpdResult :=
  match parseCommentsData doc with
  | none =>
    UpdResult.warn ("Comment ".data ++ natToStr commentId ++ " not found".data)
  | some commentsData =>
    match jGet commentsData (natToStr commentId) with
    | none =>
      UpdResult.warn ("Comment ".data ++ natToStr commentId ++
        " not found".data)
    | some cv =>
      if jTruthy cv = false then
        UpdResult.warn ("Comment ".data ++ natToStr commentId ++
          " not found".data)
      else
        match findCD doc with
        | none =>
          UpdResult.warn ("COMMENTS-DATA block not found. Please add a COMMENTS-DATA block to your markdown file.".data)
        | some (idx, mlen, _) =>
          match cv with
          | JVal.jobj cf =>
            let upd :=
              if ty = "plan".data then
                some (updateField cf "plan".data "pending".data content)
              else if ty = "response".data then
                some (updateField cf "response".data "draft".data content)
              else none
            match upd with
            | none =>
              UpdResult.warn ("Invalid comment type: ".data ++ ty)
            | some none =>
              UpdResult.errMsg ("Failed to update comment: ".data)
            | some (some cf') =>
              let updated := jSet commentsData (natToStr commentId)
                (JVal.jobj cf')
              UpdResult.applyEdit (doc.take idx ++
                ("<!--\nCOMMENTS-DATA\n".data ++
                  (jStringifyV 0 (JVal.jobj updated) ++
                    ("\n-->".data ++ doc.drop (idx + mlen)))))
          | _ => UpdResult.errMsg ("Failed to update comment: ".data)

/-- The early-exit condition of `_updateComment`:
`!commentsData || !commentsData[commentId.toString()]`. -/
def commentMissing (doc : Str) (commentId : Nat) : Bool :=
  match parseCommentsData doc with
  | none => true
  | some cd =>
    match jGet cd (natToStr commentId) with
    | none => true
    | some cv => !jTruthy cv

/-! ## renderMarkdownWithDiff (third document of src/core/diffParser.ts,
lines 327-1201): inline grammar -/

/-- One chained global single-character replace step of `escapeHtml`. -/
def replAll (target : Char) (repl : Str) (s : Str) : Str :=
  s.flatMap (fun c => if c = target then repl else [c])

/-- `escapeHtml`: the five chained global replaces, in source order. -/
def escapeHtml (text : Str) : Str :=
  replAll '\'' "&#039;".data
    (replAll '"' "&quot;".data
      (replAll '>' "&gt;".data
        (replAll '<' "&lt;".data
          (replAll '&' "&amp;".data text))))

/-- Lazy body match for `(.+?)` up to the first occurrence of `close`:
minimal non-empty run of non-newline characters followed by `close`. -/
def lazyBody (close : Str) : Str → Option (Str × Str)
  | [] => none
  | c :: cs =>
    if c = '\n' then none
    else if sw close cs then some ([c], cs.drop close.length)
    else (lazyBody close cs).map (fun (p, r) => (c :: p, r))

/-- Global replace of a delimited span `open (.+?) close` by
`tagO $1 tagC` (the bold/italic/strikethrough regexes). -/
def delimRep (dOpen dClose tagO tagC : Str) : Nat → Str → Str
  | 0, s => s
  | _ + 1, [] => []
  | fuel + 1, c :: cs =>
    if sw dOpen (c :: cs) then
      match lazyBody dClose ((c :: cs).drop dOpen.length) with
      | some (body, rest) =>
        tagO ++ body ++ tagC ++ delimRep dOpen dClose tagO tagC fuel rest
      | none => c :: delimRep dOpen dClose tagO tagC fuel cs
    else c :: delimRep dOpen dClose tagO tagC fuel cs

/-- A non-empty run of characters other than `stop`, terminated by `stop`
(greedy `[^x]+` followed by the literal `x`). -/
def runUntil (stop : Char) (l : Str) : Option (Str × Str) :=
  let p := l.takeWhile (fun c => c ≠ stop)
  if p ≠ [] ∧ (l.drop p.length).head? = some stop then
    some (p, l.drop (p.length + 1))
  else none

/-- Global replace of `` `([^`]+)` `` by `<code>$1</code>`. -/
def codeRep : Nat → Str → Str
  | 0, s => s
  | _ + 1, [] => []
  | fuel + 1, c :: cs =>
    if c = '`' then
      match runUntil '`' cs with
      | some (body, rest) =>
        "<code>".data ++ body ++ "</code>".data ++ codeRep fuel rest
      | none => c :: codeRep fuel cs
    else c :: codeRep fuel cs

/-- `\[([^\]]+)\]\(([^)]+)\)` starting right after a `[`. -/
def matchLink (cs : Str) : Option (Str × Str × Str) :=
  let t := cs.takeWhile (fun c => c ≠ ']')
  if t = [] then none
  else
    match cs.drop t.length with
    | ']' :: '(' :: r2 =>
      let u := r2.takeWhile (fun c => c ≠ ')')
      if u = [] then none
      else
        match r2.drop u.length with
        | ')' :: rest => some (t, u, rest)
        | _ => none
    | _ => none

/-- Global replace of links by `<a href="$2">$1</a>`. -/
def linkRep : Nat → Str → Str
  | 0, s => s
  | _ + 1, [] => []
  | fuel + 1, c :: cs =>
    if c = '[' then
      match matchLink cs with
      | some (t, u, rest) =>
        "<a href=\"".data ++ u ++ "\">".data ++ t ++ "</a>".data ++
          linkRep fuel rest
      | none => c :: linkRep fuel cs
    else c :: linkRep fuel cs

/-- `!\[([^\]]*)\]\(([^)]+)\)` starting right after a `![`. -/
def matchImage (cs : Str) : Option (Str × Str × Str) :=
  let t := cs.takeWhile (fun c => c ≠ ']')
  match cs.drop t.length with
  | ']' :: '(' :: r2 =>
    let u := r2.takeWhile (fun c => c ≠ ')')
    if u = [] then none
    else
      match r2.drop u.length with
      | ')' :: rest => some (t, u, rest)
      | _ => none
  | _ => none

/-- Global replace of images by `<img src="$2" alt="$1" />` (the pattern
fires at `!` immediately followed by `[`). -/
def imageRep : Nat → Str → Str
  | 0, s => s
  | _ + 1, [] => []
  | fuel + 1, c :: cs =>
    if c = '!' ∧ cs.head? = some '[' then
      match matchImage (cs.drop 1) with
      | some (t, u, rest) =>
        "<img src=\"".data ++ u ++ "\" alt=\"".data ++ t ++ "\" />".data ++
          imageRep fuel rest
      | none => c :: imageRep fuel cs
    else c :: imageRep fuel cs

/-- Whether the tag regex `<[^>]+>` matches anywhere. -/
def hasTagScan : Str → Bool
  | [] => false
  | c :: cs => (c = '<' && (runUntil '>' cs).isSome) || hasTagScan cs

/-- Wrap a text piece in the plain-text span when its trim is non-empty. -/
def wrapPiece (t : Str) : Str :=
  if jsTrim t ≠ [] then
    "<span class=\"plain-text\">".data ++ t ++ "</span>".data
  else t

/-- The splitting loop of `wrapPlainTextSegments`: text accumulated in `acc`,
tags (matches of `<[^>]+>`) copied verbatim. -/
def wrapSegsF : Nat → Str → Str → Str
  | 0, acc, s => wrapPiece (acc ++ s)
  | _ + 1, acc, [] => wrapPiece acc
  | fuel + 1, acc, c :: cs =>
    if c = '<' then
      match runUntil '>' cs with
      | some (tag, rest) =>
        wrapPiece acc ++ ('<' :: (tag ++ ['>'])) ++ wrapSegsF fuel [] rest
      | none => wrapSegsF fuel (acc ++ [c]) cs
    else wrapSegsF fuel (acc ++ [c]) cs

/-- `wrapPlainTextSegments` from the renderer. -/
def wrapPlainTextSegments (html : Str) : Str :=
  if hasTagScan html = false then
    if jsTrim html ≠ [] then
      "<span class=\"plain-text\">".data ++ html ++ "</span>".data
    else html
  else wrapSegsF (html.length + 1) [] html

/-- The comment-free part of `parseInline`: strip markers, escape, then the
six formatting replaces in source order, then plain-text wrapping. -/
def parseInlineCore (text : Str) : Str :=
  let s0 := escapeHtml (deleteMarkers text)
  let s1 := delimRep "**".data "**".data "<strong>".data "</strong>".data
    s0.length s0
  let s2 := delimRep "__".data "__".data "<strong>".data "</strong>".data
    s1.length s1
  let s3 := delimRep "*".data "*".data "<em>".data "</em>".data s2.length s2
  let s4 := delimRep "_".data "_".data "<em>".data "</em>".data s3.length s3
  let s5 := delimRep "~~".data "~~".data "<del>".data "</del>".data
    s4.length s4
  let s6 := codeRep s5.length s5
  let s7 := linkRep s6.length s6
  let s8 := imageRep s7.length s7
  wrapPlainTextSegments s8

/-! ### Comment badges and thread panels -/

/-- Mutable render context threaded through the renderer: the collected
thread panels (`commentThreadsHtml`) and the `processedComments` set,
modelled as an insertion-ordered duplicate-free list. -/
structure RCtx where
  threads : List Str
  processed : List Nat
deriving DecidableEq, Repr

/-- `Set.prototype.add` on the processed-comments set. -/
def setAdd (s : List Nat) (x : Nat) : List Nat :=
  if x ∈ s then s else s ++ [x]

/-- Parameters fixed for one `renderMarkdownWithDiff` call: the resolved
comments object, the per-line marker map, and the diff data. -/
structure RParams where
  comments : Option CommentsData
  commentMarkers : List (Nat × List Nat)
  addedLines : Finset Nat
  removedLines : List (Nat × Str)
  showLineNumbers : Bool

/-- Modelled from the spec: `new Date(ts).toLocaleString()` is
host-locale date formatting outside the repository; it is modelled as the
identity on the timestamp string (an injective stand-in is all the
rendered output depends on). -/
def dateToLocaleString (ts : Str) : Str := ts

/-- `PlanStatus` as it appears in the JSON ledger. -/
def planStatusStr : PlanStatus → Str
  | .pending => "pending".data
  | .approved => "approved".data
  | .rejected => "rejected".data

/-- `ResponseStatus` as it appears in the JSON ledger. -/
def responseStatusStr : ResponseStatus → Str
  | .draft => "draft".data
  | .final => "final".data

/-- `renderCommentBadge` from the renderer. -/
def renderCommentBadge (c : Comment) : Str :=
  "<span class=\"comment-badge comment-status-".data ++ getCommentStatus c ++
    "\" data-comment-id=\"".data ++ natToStr c.id ++
    "\" onclick=\"toggleCommentThread(".data ++ natToStr c.id ++
    "); event.stopPropagation();\">[".data ++ natToStr c.id ++ "]</span>".data

/-- One item of the thread panel (the `comment.thread.map` template). -/
def threadItemHtml (item : CommentThreadItem) : Str :=
  let authorClass := if item.author = .ai then "comment-author-ai".data
    else "comment-author-user".data
  let timestamp := dateToLocaleString item.timestamp
  let content := escapeHtml (jsTrim item.content)
  let authorLabel : Str := if item.author = .ai then "AI".data else []
  "\n                <div class=\"comment-thread-item ".data ++ authorClass ++
    "\">\n                    <div class=\"comment-thread-header\">\n                        ".data ++
    (if authorLabel ≠ [] then
      "<span class=\"comment-author\">".data ++ authorLabel ++ "</span>".data
    else []) ++
    "\n                        <span class=\"comment-timestamp\">".data ++
    timestamp ++
    "</span>\n                    </div>\n                    <div class=\"comment-thread-content\">".data ++
    content ++ "</div>\n                </div>\n            ".data

/-- `renderCommentThread` from the renderer. -/
def renderCommentThread (c : Comment) : Str :=
  let threadItems := (c.thread.map threadItemHtml).foldl (· ++ ·) []
  let planHtml : Str :=
    match c.plan with
    | some p =>
      "\n                <div class=\"comment-plan\">\n                    <h4 class=\"comment-section-title\">Plan</h4>\n                    <div class=\"comment-editable\" contenteditable=\"true\" data-comment-id=\"".data ++
        natToStr c.id ++ "\" data-type=\"plan\">".data ++
        escapeHtml (jsTrim p.content) ++
        "</div>\n                    <div class=\"comment-status-badge status-".data ++
        planStatusStr p.status ++ "\">".data ++ planStatusStr p.status ++
        "</div>\n                </div>\n            ".data
    | none => []
  let responseHtml : Str :=
    match c.response with
    | some r =>
      "\n                <div class=\"comment-response\">\n                    <h4 class=\"comment-section-title\">Response</h4>\n                    <div class=\"comment-editable\" contenteditable=\"true\" data-comment-id=\"".data ++
        natToStr c.id ++ "\" data-type=\"response\">".data ++
        escapeHtml (jsTrim r.content) ++
        "</div>\n                    <div class=\"comment-status-badge status-".data ++
        responseStatusStr r.status ++ "\">".data ++ responseStatusStr r.status ++
        "</div>\n                </div>\n            ".data
    | none => []
  "\n            <div class=\"comment-thread\" id=\"comment-thread-".data ++
    natToStr c.id ++
    "\" style=\"display: none;\">\n                <div class=\"comment-thread-header-bar\">\n                    <span class=\"comment-thread-title\">Comment ".data ++
    natToStr c.id ++
    "</span>\n                    <button class=\"comment-close-btn\" onclick=\"toggleCommentThread(".data ++
    natToStr c.id ++
    "); event.stopPropagation();\" aria-label=\"Close\">×</button>\n                </div>\n                <div class=\"comment-thread-items\">\n                    ".data ++
    (if threadItems ≠ [] then threadItems
     else "<div class=\"comment-thread-item\">No comments yet</div>".data) ++
    "\n                </div>\n                ".data ++ planHtml ++
    "\n                ".data ++ responseHtml ++
    "\n            </div>\n        ".data

/-- Push a thread panel unless one whose text contains
`comment-thread-<id>` is already collected (the dedup guard used at every
push site). -/
def pushThread (threads : List Str) (c : Comment) : List Str :=
  if threads.any (fun h => containsSub h ("comment-thread-".data ++ natToStr c.id))
  then threads
  else threads ++ [renderCommentThread c]

/-- The `hasResponse ? ... : hasPlan ? ... : ...` highlight class computed
from a list of comments (`c.plan !== null` on the declared type
`plan: CommentPlan | null`). -/
def statusClassOf (cs : List Comment) : Str :=
  if cs.any (fun c => c.response.isSome) then "comment-has-response".data
  else if cs.any (fun c => c.plan.isSome) then "comment-has-plan".data
  else "comment-active".data

/-- `wrapWithComments` from the renderer: block-comment badges are
prepended inside a highlight span; the context collects threads and marks
ids processed.  The `isBlock` flag is accepted and ignored exactly as in
the source. -/
def wrapWithComments (P : RParams) (content : Str) (lineNumber : Nat)
    (isBlock : Bool) (ctx : RCtx) : Str × RCtx :=
  match P.comments with
  | none => (content, ctx)
  | some _ =>
    let lineComments := getCommentsForLine lineNumber P.comments P.commentMarkers
    if lineComments = [] then (content, ctx)
    else
      let blockComments := lineComments.filter
        (fun c => c.target.type = .block ∧ c.id ∉ ctx.processed)
      if blockComments = [] then (content, ctx)
      else
        let processed2 := blockComments.foldl (fun p c => setAdd p c.id) ctx.processed
        let (threads2, badges) := blockComments.foldl
          (fun (acc : List Str × Str) c =>
            (pushThread acc.1 c, acc.2 ++ renderCommentBadge c))
          (ctx.threads, [])
        ("<span class=\"comment-highlight-block ".data ++ statusClassOf lineComments ++
          "\">".data ++ badges ++ "</span>".data ++ content,
          ⟨threads2, processed2⟩)

/-- The per-marker badge-insertion step of `processInlineComments`
(source lines 524-540): a truthy `target.text` is located, HTML-escaped,
in the rendered HTML; the badge goes right after the first occurrence,
or at the end when the text is not found.  A falsy `target.text`
(absent or empty) skips the comment entirely. -/
def insertInlineBadge (c : Comment) (res : Str) : Str :=
  match c.target.text with
  | some t =>
    if t ≠ [] then
      let escapedText := escapeHtml t
      match idxOf res escapedText with
      | some i =>
        res.take (i + escapedText.length) ++ (' ' :: renderCommentBadge c) ++
          res.drop (i + escapedText.length)
      | none => res ++ (' ' :: renderCommentBadge c)
    else res
  | none => res

/-- `processInlineComments` from the renderer. -/
def processInlineComments (P : RParams) (html : Str) (originalLine : Str)
    (lineNumber : Nat) (ctx : RCtx) : Str × RCtx :=
  match P.comments with
  | none => (html, ctx)
  | some cd =>
    let lineComments := getCommentsForLine lineNumber P.comments P.commentMarkers
    let inlineComments := lineComments.filter (fun c => c.target.type = .inline)
    if inlineComments = [] then (html, ctx)
    else
      let markers := (inlineMarkersF originalLine.length originalLine).filterMap
        (fun mid =>
          match objGet cd (natToStr mid) with
          | some c =>
            if c.target.type = .inline ∧ c.id ∉ ctx.processed then some c
            else none
          | none => none)
      if markers = [] then (html, ctx)
      else
        let ctx2 : RCtx :=
          markers.foldl (fun (a : RCtx) c =>
            ⟨pushThread a.threads c, setAdd a.processed c.id⟩) ctx
        let result := markers.foldl (fun r c => insertInlineBadge c r) html
        let result2 :=
          if markers ≠ [] ∧ containsSub result "comment-highlight".data = false then
            "<span class=\"comment-highlight ".data ++
              statusClassOf inlineComments ++ "\">".data ++ result ++ "</span>".data
          else result
        (result2, ctx2)

/-- `parseInline`: the pure pipeline, then inline-comment processing when
the original line and line number are supplied. -/
def parseInline (P : RParams) (text : Str) (orig : Option (Str × Nat))
    (ctx : RCtx) : Str × RCtx :=
  match orig with
  | none => (parseInlineCore text, ctx)
  | some (line, n) => processInlineComments P (parseInlineCore text) line n ctx

/-! ### Line classifiers (the block-level regexes) -/

/-- `^(#{1,6})\s+(.+)$`: level and the `(.+)` capture.  `\s+` is greedy
but gives one whitespace character back to `(.+)` when nothing else is
left, hence the `min` in the drop. -/
def headerMatchLine (l : Str) : Option (Nat × Str) :=
  let n := (l.takeWhile (fun c => c = '#')).length
  if 1 ≤ n ∧ n ≤ 6 then
    let rest := l.drop n
    let sp := rest.takeWhile isWs
    if sp.length ≥ 1 ∧ rest.length ≥ 2 then
      some (n, rest.drop (min sp.length (rest.length - 1)))
    else none
  else none

/-- `^(-{3,}|\*{3,}|_{3,})$` applied to the trimmed line. -/
def hrTest (t : Str) : Bool :=
  t.length ≥ 3 &&
    (t.all (fun c => c = '-') || t.all (fun c => c = '*') ||
      t.all (fun c => c = '_'))

/-- `^(\s*)[-*+]\s+(.+)$`: indent width and the `(.+)` capture (same
backtracking note as in `headerMatchLine`). -/
def ulMatchLine (l : Str) : Option (Nat × Str) :=
  let ws := l.takeWhile isWs
  match l.drop ws.length with
  | c :: r2 =>
    if c = '-' ∨ c = '*' ∨ c = '+' then
      let sp := r2.takeWhile isWs
      if sp.length ≥ 1 ∧ r2.length ≥ 2 then
        some (ws.length, r2.drop (min sp.length (r2.length - 1)))
      else none
    else none
  | [] => none

/-- `^(\s*)\d+\.\s+(.+)$`. -/
def olMatchLine (l : Str) : Option (Nat × Str) :=
  let ws := l.takeWhile isWs
  let (d, r1) := takeDigits (l.drop ws.length)
  if d ≠ [] then
    match r1 with
    | c :: r2 =>
      if c = '.' then
        let sp := r2.takeWhile isWs
        if sp.length ≥ 1 ∧ r2.length ≥ 2 then
          some (ws.length, r2.drop (min sp.length (r2.length - 1)))
        else none
      else none
    | [] => none
  else none

/-- `^[-*+]\s+(.+)$` on an already-trimmed line (removed-content lists). -/
def ulTextMatch (t : Str) : Option Str :=
  (ulMatchLine t).bind (fun p => if p.1 = 0 then some p.2 else none)

/-- `^\d+\.\s+(.+)$` on an already-trimmed line. -/
def olTextMatch (t : Str) : Option Str :=
  (olMatchLine t).bind (fun p => if p.1 = 0 then some p.2 else none)

/-- The table separator-row regex `^\|?\s*[-:]+[-|\s:]*\|?\s*$`: after an
optional `|` and whitespace, at least one `-`/`:` and then only
characters from `-`, `|`, `:`, whitespace (the trailing `\|?\s*` is
subsumed by the greedy character class). -/
def sepTest (l : Str) : Bool :=
  let l1 := match l with
    | '|' :: r => r
    | _ => l
  let l2 := l1.dropWhile isWs
  let core := l2.takeWhile (fun c => c = '-' || c = ':')
  core ≠ [] &&
    (l2.drop core.length).all (fun c => c = '-' || c = '|' || c = ':' || isWs c)

/-- `^<!--comment:(\d+)-->$` as a full match (used on trimmed lines). -/
def fullMarker (t : Str) : Option Nat :=
  match markerAt t with
  | some (v, rest) => if rest = [] then some v else none
  | none => none

/-- `replace(/^<!--comment:\d+-->\s*/, '')`. -/
def stripLeadingMarker (l : Str) : Str :=
  match markerAt l with
  | some (_, rest) => rest.dropWhile isWs
  | none => l

/-! ### Removed-content renderers -/

/-- A single line of removed content rendered as markdown
(`renderRemovedLine`). -/
def renderRemovedLine (line : Str) : Str :=
  let trimmed := jsTrim line
  match headerMatchLine trimmed with
  | some (level, content) =>
    "<h".data ++ natToStr level ++ " class=\"removed-content\">".data ++
      parseInlineCore content ++ "</h".data ++ natToStr level ++ ">".data
  | none =>
    if trimmed.head? = some '>' then
      "<blockquote class=\"removed-content\"><p>".data ++
        parseInlineCore (jsTrim (trimmed.drop 1)) ++ "</p></blockquote>".data
    else if trimmed ≠ [] then
      "<p class=\"removed-content\">".data ++ parseInlineCore trimmed ++
        "</p>".data
    else []

/-- List tag kind. -/
inductive LTag | ul | ol
deriving DecidableEq, Repr

/-- The tag name of a list kind. -/
def tagStr : LTag → Str
  | .ul => "ul".data
  | .ol => "ol".data

/-- The `forEach` body of `renderRemovedBlock`, with the
`inRemovedList`/`removedListType` state explicit; the trailing flush of
the source is the `[]` case. -/
def removedBlockGo : List Str → Bool → LTag → Str
  | [], inL, ty => if inL then "</".data ++ tagStr ty ++ ">".data else []
  | l :: ls, inL, ty =>
    let trimmed := jsTrim l
    let flushed : Str := if inL then "</".data ++ tagStr ty ++ ">".data else []
    if trimmed = [] then flushed ++ removedBlockGo ls false ty
    else
      match ulTextMatch trimmed, olTextMatch trimmed with
      | some txt, _ =>
        let li := "<li class=\"removed-content\">".data ++ parseInlineCore txt ++
          "</li>".data
        if inL = false ∨ ty ≠ LTag.ul then
          flushed ++ "<ul class=\"removed-content-list\">".data ++ li ++
            removedBlockGo ls true .ul
        else li ++ removedBlockGo ls true .ul
      | none, some txt =>
        let li := "<li class=\"removed-content\">".data ++ parseInlineCore txt ++
          "</li>".data
        if inL = false ∨ ty ≠ LTag.ol then
          flushed ++ "<ol class=\"removed-content-list\">".data ++ li ++
            removedBlockGo ls true .ol
        else li ++ removedBlockGo ls true .ol
      | none, none => flushed ++ renderRemovedLine l ++ removedBlockGo ls false ty

/-- `renderRemovedBlock`. -/
def renderRemovedBlock (removedContent : Str) : Str :=
  "<div class=\"diff-removed-block\"><span class=\"diff-removed-label\">removed</span>".data ++
    removedBlockGo (splitNl removedContent) false .ul ++ "</div>".data

/-- `renderRemovedListItems`: removed lines rendered as inline `<li>`
items within an existing list (the `parentTag` argument is unused by the
source body and kept for fidelity). -/
def renderRemovedListItems (removedContent : Str) (parentTag : LTag) : Str :=
  (splitNl removedContent).foldl
    (fun acc l =>
      let trimmed := jsTrim l
      if trimmed = [] then acc
      else
        match ulTextMatch trimmed, olTextMatch trimmed with
        | some txt, _ =>
          acc ++ "<li class=\"diff-line removed\">".data ++
            parseInlineCore txt ++ "</li>".data
        | none, some txt =>
          acc ++ "<li class=\"diff-line removed\">".data ++
            parseInlineCore txt ++ "</li>".data
        | none, none =>
          acc ++ "<li class=\"diff-line removed\">".data ++
            parseInlineCore trimmed ++ "</li>".data)
    []

/-! ### Diff wrapping -/

/-- `\w` of the data-line injection regex. -/
def isWordCh (c : Char) : Bool :=
  ('a' ≤ c && c ≤ 'z') || ('A' ≤ c && c ≤ 'Z') || isDigitCh c || c = '_'

/-- `content.replace(/^<(\w+)/, '<$1 data-line="N"')`: the regex fires
only when the content starts with `<` followed by at least one word
character. -/
def injectDataLine (content : Str) (n : Nat) : Str :=
  match content with
  | c :: rest =>
    if c = '<' then
      let w := rest.takeWhile isWordCh
      if w ≠ [] then
        '<' :: (w ++ " data-line=\"".data ++ natToStr n ++ "\"".data ++
          rest.drop w.length)
      else content
    else content
  | [] => content

/-- `wrapWithDiff` from the renderer. -/
def wrapWithDiff (P : RParams) (content : Str) (lineNumber : Nat)
    (isBlock : Bool) (ctx : RCtx) : Str × RCtx :=
  let isAdded := lineNumber ∈ P.addedLines
  let wrapped : Str := match mapGet lineNumber P.removedLines with
    | some rc => renderRemovedBlock rc
    | none => []
  let (cwc, ctx2) := wrapWithComments P content lineNumber isBlock ctx
  let out : Str :=
    if isAdded then
      let lineNumHtml : Str := if P.showLineNumbers then
          "<span class=\"line-number\">".data ++ natToStr lineNumber ++
            "</span>".data
        else []
      if isBlock then
        wrapped ++ "<div class=\"diff-line added clickable\" data-line=\"".data ++
          natToStr lineNumber ++ "\">".data ++ lineNumHtml ++ cwc ++ "</div>".data
      else
        wrapped ++ "<span class=\"diff-line added clickable\" data-line=\"".data ++
          natToStr lineNumber ++ "\">".data ++ lineNumHtml ++ cwc ++ "</span>".data
    else if isBlock then wrapped ++ injectDataLine cwc lineNumber
    else wrapped ++ cwc
  (out, ctx2)

/-! ### Lists -/

/-- An accumulated list item (`listItems` entries). -/
structure LItem where
  content : Str
  indent : Nat
  lineNumber : Nat
  type : LTag
deriving DecidableEq, Repr

/-! `buildNestedList` and its inner `while` loop, as mutual fuel
recursion.  Every loop iteration and every nested descent consumes at
least one item, so any call path is shorter than `3 * items.length + 4`,
the fuel supplied by `flushList`. -/
mutual

/-- `buildNestedList`: open the tag of the first item, run the item loop,
close the tag. -/
def buildNested (P : RParams) (items : List LItem) :
    Nat → Nat → Nat → Str × Nat
  | 0, startIdx, _ => ([], startIdx)
  | fuel + 1, startIdx, currentIndent =>
    if startIdx < items.length then
      let tag := (items.getD startIdx ⟨[], 0, 0, .ul⟩).type
      let (inner, endIdx) := buildLoop P items fuel startIdx currentIndent tag
      ('<' :: (tagStr tag ++ ">".data) ++ inner ++ "</".data ++ tagStr tag ++
        ">".data, endIdx)
    else ([], startIdx)

/-- The inner `while` of `buildNestedList`: items at the current indent
become `<li>`s (with removed items and nesting lookahead), deeper items
recurse, shallower items end the level. -/
def buildLoop (P : RParams) (items : List LItem) :
    Nat → Nat → Nat → LTag → Str × Nat
  | 0, i, _, _ => ([], i)
  | fuel + 1, i, currentIndent, tag =>
    if i < items.length then
      let item := items.getD i ⟨[], 0, 0, .ul⟩
      if item.indent < currentIndent then ([], i)
      else if item.indent = currentIndent then
        let before : Str := match mapGet item.lineNumber P.removedLines with
          | some rc => renderRemovedListItems rc tag
          | none => []
        let liClass : Str := if item.lineNumber ∈ P.addedLines then
            " class=\"diff-line added\"".data
          else []
        let liOpen := "<li".data ++ liClass ++ " data-line=\"".data ++
          natToStr item.lineNumber ++ "\">".data ++ item.content
        let (nestedHtml, i2) :=
          if i + 1 < items.length ∧
              (items.getD (i + 1) ⟨[], 0, 0, .ul⟩).indent > currentIndent then
            buildNested P items fuel (i + 1)
              (items.getD (i + 1) ⟨[], 0, 0, .ul⟩).indent
          else ([], i + 1)
        let (restHtml, endIdx) := buildLoop P items fuel i2 currentIndent tag
        (before ++ liOpen ++ nestedHtml ++ "</li>".data ++ restHtml, endIdx)
      else
        let (nestedHtml, i2) := buildNested P items fuel i item.indent
        let (restHtml, endIdx) := buildLoop P items fuel i2 currentIndent tag
        (nestedHtml ++ restHtml, endIdx)
    else ([], i)

end

/-! ### Tables -/

/-- Split a string on a separator character (`String.prototype.split`). -/
def splitOn (sep : Char) : Str → List Str
  | [] => [[]]
  | c :: cs =>
    if c = sep then [] :: splitOn sep cs
    else
      match splitOn sep cs with
      | [] => [[c]]
      | p :: ps => (c :: p) :: ps

/-- `parseTableCells`: split on `|`, trim each cell, drop an empty first
cell and an empty last cell. -/
def parseTableCells (line : Str) : List Str :=
  let cells := (splitOn '|' line).map jsTrim
  let c1 := match cells with
    | c :: rest => if c = [] then rest else cells
    | [] => []
  if c1 ≠ [] ∧ c1.getLast! = [] then c1.dropLast else c1

/-- `renderRemovedTableRows`. -/
def renderRemovedTableRows (removedContent : Str) (columnCount : Nat) : Str :=
  (splitNl removedContent).foldl
    (fun acc removedLine =>
      let trimmed := jsTrim removedLine
      if trimmed = [] then acc
      else if sepTest trimmed then acc
      else if isTableRow removedLine then
        acc ++ "<tr class=\"diff-row-removed\">".data ++
          (parseTableCells removedLine).foldl
            (fun a cell => a ++ "<td>".data ++ parseInlineCore cell ++
              "</td>".data) [] ++ "</tr>".data
      else
        acc ++ "<tr class=\"diff-row-removed\"><td colspan=\"".data ++
          natToStr (max columnCount 1) ++ "\">".data ++
          parseInlineCore removedLine ++ "</td></tr>".data)
    []

/-- The row loop of `flushTable`, with the `isHeader`/`skipNext` flags
explicit; `rest` is peeked for the header/separator lookahead. -/
def tableLoop (P : RParams) (allRowsAdded : Bool) (columnCount : Nat) :
    List (Str × Nat) → Bool → Bool → Str
  | [], _, _ => []
  | (line, lineNumber) :: rest, isHeader, skipNext =>
    if skipNext then tableLoop P allRowsAdded columnCount rest isHeader false
    else if sepTest line then
      tableLoop P allRowsAdded columnCount rest isHeader skipNext
    else
      let removedHtml : Str := match mapGet lineNumber P.removedLines with
        | some rc => renderRemovedTableRows rc columnCount
        | none => []
      let cells := parseTableCells line
      let rowClass : Str :=
        if lineNumber ∈ P.addedLines ∧ allRowsAdded = false then
          " class=\"diff-row-added\" data-line=\"".data ++ natToStr lineNumber ++
            "\"".data
        else " data-line=\"".data ++ natToStr lineNumber ++ "\"".data
      let cellTag : Str := if isHeader then "th".data else "td".data
      let rowHtml := removedHtml ++ "<tr".data ++ rowClass ++ ">".data ++
        cells.foldl (fun a cell =>
          a ++ '<' :: (cellTag ++ ">".data) ++ parseInlineCore cell ++
            "</".data ++ cellTag ++ ">".data) [] ++ "</tr>".data
      let next : Bool × Bool :=
        if isHeader then
          match rest with
          | (nextLine, _) :: _ =>
            if sepTest nextLine then (false, true) else (false, false)
          | [] => (false, false)
        else (false, false)
      rowHtml ++ tableLoop P allRowsAdded columnCount rest next.1 next.2

/-! ### Main render loop -/

/-- The mutable state of the `renderMarkdownWithDiff` line loop. -/
structure RState where
  html : Str
  ctx : RCtx
  inCodeBlock : Bool
  codeBlockContent : Str
  codeBlockLang : Str
  codeBlockStartLine : Nat
  inList : Bool
  listItems : List LItem
  inTable : Bool
  tableRows : List (Str × Nat)
  tableStartLine : Nat
  inCDB : Bool
deriving DecidableEq, Repr

/-- The initial render state. -/
def initRState : RState :=
  { html := [], ctx := ⟨[], []⟩, inCodeBlock := false, codeBlockContent := []
    codeBlockLang := [], codeBlockStartLine := 0, inList := false
    listItems := [], inTable := false, tableRows := [], tableStartLine := 0
    inCDB := false }

/-- `flushList`. -/
def flushList (P : RParams) (st : RState) : RState :=
  if st.inList ∧ st.listItems ≠ [] then
    let items := st.listItems
    let (lhtml, _) := buildNested P items (3 * items.length + 4) 0
      (items.headD ⟨[], 0, 0, .ul⟩).indent
    { st with html := st.html ++ lhtml, listItems := [], inList := false }
  else st

/-- `flushTable`. -/
def flushTable (P : RParams) (st : RState) : RState :=
  if st.inTable ∧ st.tableRows ≠ [] then
    let contentRows := st.tableRows.filter (fun r => sepTest r.1 = false)
    let allRowsAdded : Bool := contentRows ≠ [] ∧
      contentRows.all (fun r => r.2 ∈ P.addedLines)
    let columnCount := contentRows.foldl
      (fun m r => max m (parseTableCells r.1).length) 1
    let tableHtml := "<table>".data ++
      tableLoop P allRowsAdded columnCount st.tableRows true false ++
      "</table>".data
    let piece : Str :=
      if allRowsAdded then
        "<div class=\"diff-table-wrapper added\" data-line=\"".data ++
          natToStr st.tableStartLine ++ "\">".data ++ tableHtml ++ "</div>".data
      else tableHtml
    { st with html := st.html ++ piece, tableRows := [], inTable := false }
  else st

/-- The `codeLines.forEach` of the code-block close branch: one
`data-line`d span per code line, newline-terminated. -/
def codeLinesHtml (P : RParams) (startLine : Nat) : Nat → List Str → Str
  | _, [] => []
  | idx, l :: ls =>
    let n := startLine + 1 + idx
    let esc := escapeHtml l
    (if n ∈ P.addedLines then
      "<span class=\"diff-line added\" data-line=\"".data ++ natToStr n ++
        "\">".data ++ esc ++ "</span>\n".data
    else
      "<span data-line=\"".data ++ natToStr n ++ "\">".data ++ esc ++
        "</span>\n".data) ++ codeLinesHtml P startLine (idx + 1) ls

/-- One iteration of the `for (let i = 0; ...)` body of
`renderMarkdownWithDiff`, in source order: COMMENTS-DATA skipping, block
marker skipping, code fences, blank lines, table rows, headers (with the
previous-line block-comment badge), horizontal rules, blockquotes, list
items, paragraphs. -/
def renderStep (P : RParams) (lines : List Str) (i : Nat) (st : RState) :
    RState :=
  let line := lines.getD i []
  let lineNumber := i + 1
  let inCDB1 : Bool :=
    if containsSub line "COMMENTS-DATA".data ||
        (sw "<!--".data (jsTrim line) &&
          (containsSub line "COMMENTS".data || st.inCDB)) then true
    else st.inCDB
  if inCDB1 then
    { st with inCDB := if containsSub line "-->".data then false else inCDB1 }
  else if jsTrim line = "<!--".data ∧ i + 1 < lines.length ∧
      containsSub (lines.getD (i + 1) []) "COMMENTS-DATA".data then
    { st with inCDB := true }
  else if (fullMarker (jsTrim line)).isSome then st
  else if sw "```".data line then
    if st.inCodeBlock = false then
      let st1 := flushTable P (flushList P st)
      { st1 with inCodeBlock := true, codeBlockLang := jsTrim (line.drop 3)
                 codeBlockContent := [], codeBlockStartLine := lineNumber }
    else
      let codeHtml := "<pre><code>".data ++
        codeLinesHtml P st.codeBlockStartLine 0 (splitNl st.codeBlockContent) ++
        "</code></pre>".data
      if st.codeBlockStartLine ∈ P.addedLines then
        let (w, ctx2) := wrapWithDiff P codeHtml st.codeBlockStartLine true st.ctx
        { st with html := st.html ++ w, ctx := ctx2, inCodeBlock := false }
      else { st with html := st.html ++ codeHtml, inCodeBlock := false }
  else if st.inCodeBlock then
    { st with codeBlockContent :=
        if st.codeBlockContent ≠ [] then st.codeBlockContent ++ '\n' :: line
        else line }
  else if jsTrim line = [] then
    let st1 := flushTable P (flushList P st)
    match mapGet lineNumber P.removedLines with
    | some rc => { st1 with html := st1.html ++ renderRemovedBlock rc }
    | none => st1
  else if isTableRow line then
    let st1 := if st.inTable = false then
        let s := flushList P st
        { s with inTable := true, tableStartLine := lineNumber }
      else st
    { st1 with tableRows := st1.tableRows ++ [(line, lineNumber)] }
  else
    let st := if st.inTable then flushTable P st else st
    match headerMatchLine line with
    | some (level, rawContent) =>
      let st1 := flushTable P (flushList P st)
      let prevLine := if i > 0 then lines.getD (i - 1) [] else []
      let (content, ctx2) := parseInline P (jsTrim rawContent)
        (some (line, lineNumber)) st1.ctx
      let headerHtml0 := "<h".data ++ natToStr level ++ ">".data ++ content ++
        "</h".data ++ natToStr level ++ ">".data
      let withBadge : Str × RCtx :=
        match fullMarker (jsTrim prevLine) with
        | some cid =>
          match P.comments with
          | some cd =>
            match objGet cd (natToStr cid) with
            | some c =>
              if c.target.type = .block ∧ c.id ∉ ctx2.processed then
                ("<span class=\"comment-highlight-block ".data ++
                  statusClassOf [c] ++ "\">".data ++ renderCommentBadge c ++
                  "</span>".data ++ headerHtml0,
                  ⟨pushThread ctx2.threads c, setAdd ctx2.processed c.id⟩)
              else (headerHtml0, ctx2)
            | none => (headerHtml0, ctx2)
          | none => (headerHtml0, ctx2)
        | none => (headerHtml0, ctx2)
      let (w, ctx4) := wrapWithDiff P withBadge.1 lineNumber true withBadge.2
      { st1 with html := st1.html ++ w, ctx := ctx4 }
    | none =>
      if hrTest (jsTrim line) then
        let st1 := flushTable P (flushList P st)
        { st1 with html := st1.html ++ "<hr>".data }
      else if line.head? = some '>' then
        let st1 := flushTable P (flushList P st)
        let quoteContent := stripLeadingMarker (jsTrim (line.drop 1))
        let (content, ctx2) := parseInline P quoteContent
          (some (line, lineNumber)) st1.ctx
        let quoteHtml := "<blockquote><p>".data ++ content ++
          "</p></blockquote>".data
        let (w, ctx3) := wrapWithDiff P quoteHtml lineNumber true ctx2
        { st1 with html := st1.html ++ w, ctx := ctx3 }
      else
        match ulMatchLine line with
        | some (indent, txt) =>
          let st1 := if st.inList = false then
              let s := flushList P st
              { s with inList := true }
            else st
          let (content, ctx2) := parseInline P txt (some (line, lineNumber))
            st1.ctx
          { st1 with ctx := ctx2,
                     listItems := st1.listItems ++
                       [⟨content, indent, lineNumber, .ul⟩] }
        | none =>
          match olMatchLine line with
          | some (indent, txt) =>
            let st1 := if st.inList = false then
                let s := flushList P st
                { s with inList := true }
              else st
            let (content, ctx2) := parseInline P txt (some (line, lineNumber))
              st1.ctx
            { st1 with ctx := ctx2,
                       listItems := st1.listItems ++
                         [⟨content, indent, lineNumber, .ol⟩] }
          | none =>
            let st1 := flushTable P (flushList P st)
            let paragraphLine := jsTrim (stripLeadingMarker line)
            let (content, ctx2) := parseInline P paragraphLine
              (some (line, lineNumber)) st1.ctx
            let pHtml := "<p>".data ++ content ++ "</p>".data
            let (w, ctx3) := wrapWithDiff P pHtml lineNumber true ctx2
            { st1 with html := st1.html ++ w, ctx := ctx3 }

/-- The line loop, fuel-indexed (fuel `lines.length` with `i = 0` covers
the whole loop since each step advances `i` by one). -/
def renderLoop (P : RParams) (lines : List Str) : Nat → Nat → RState → RState
  | 0, _, st => st
  | fuel + 1, i, st =>
    if i < lines.length then
      renderLoop P lines fuel (i + 1) (renderStep P lines i st)
    else st

/-! ### Decoding the parsed ledger

The TS renderer consumes `parseCommentsData`'s result through the
unchecked cast `as CommentsData`; the decoders below realise that cast
for exactly the fields the renderer reads, mapping JSON `null` and
malformed shapes to the declared-type defaults. -/

/-- A string field of a JSON object. -/
def jStrOf : Option JVal → Option Str
  | some (.jstr s) => some s
  | _ => none

/-- A numeric field of a JSON object (the renderer only ever reads
non-negative integers). -/
def jNatOf : Option JVal → Option Nat
  | some (.jnum lex) => some (digitsToNat (lex.takeWhile isDigitCh))
  | _ => none

/-- Decode a `target` object. -/
def decodeTarget : Option JVal → CommentTarget
  | some (.jobj f) =>
    { type := match jGet f "type".data with
        | some (.jstr s) => if s = "block".data then .block else .inline
        | _ => .inline
      line := (jNatOf (jGet f "line".data)).getD 0
      text := jStrOf (jGet f "text".data)
      position := jNatOf (jGet f "position".data)
      element := jStrOf (jGet f "element".data) }
  | _ => ⟨.inline, 0, none, none, none⟩

/-- Decode one thread item. -/
def decodeThreadItem : JVal → CommentThreadItem
  | .jobj f =>
    { id := (jStrOf (jGet f "id".data)).getD []
      author := match jGet f "author".data with
        | some (.jstr s) => if s = "ai".data then .ai else .user
        | _ => .user
      content := (jStrOf (jGet f "content".data)).getD []
      timestamp := (jStrOf (jGet f "timestamp".data)).getD [] }
  | _ => ⟨[], .user, [], []⟩

/-- Decode a `plan` field (`null` or absent becomes `none`). -/
def decodePlan : Option JVal → Option CommentPlan
  | some (.jobj f) =>
    some { content := (jStrOf (jGet f "content".data)).getD []
           status := match jGet f "status".data with
             | some (.jstr s) =>
               if s = "approved".data then .approved
               else if s = "rejected".data then .rejected
               else .pending
             | _ => .pending
           editable := match jGet f "editable".data with
             | some v => jTruthy v
             | none => false }
  | _ => none

/-- Decode a `response` field (`null` or absent becomes `none`). -/
def decodeResponse : Option JVal → Option CommentResponse
  | some (.jobj f) =>
    some { content := (jStrOf (jGet f "content".data)).getD []
           status := match jGet f "status".data with
             | some (.jstr s) => if s = "final".data then .final else .draft
             | _ => .draft
           editable := match jGet f "editable".data with
             | some v => jTruthy v
             | none => false }
  | _ => none

/-- Decode one comment. -/
def decodeComment : JVal → Comment
  | .jobj f =>
    { id := (jNatOf (jGet f "id".data)).getD 0
      target := decodeTarget (jGet f "target".data)
      thread := match jGet f "thread".data with
        | some (.jarr items) => items.map decodeThreadItem
        | _ => []
      plan := decodePlan (jGet f "plan".data)
      response := decodeResponse (jGet f "response".data) }
  | _ => ⟨0, ⟨.inline, 0, none, none, none⟩, [], none, none⟩

/-- Decode a whole parsed ledger object. -/
def decodeCommentsData (fields : List (Str × JVal)) : CommentsData :=
  fields.map (fun kv => (kv.1, decodeComment kv.2))

/-- `renderMarkdownWithDiff`: split into lines, resolve the comments
object (the supplied one, or the ledger parsed from the document), run
the line loop, flush, append trailing removed content and the collected
thread panels, and fall back to the empty-state markup. -/
def renderMarkdownWithDiff (markdown : Str) (diff : Option FileDiff)
    (showLineNumbers : Bool) (commentsData : Option CommentsData) : Str :=
  let lines := splitNl markdown
  let P : RParams :=
    { comments := match commentsData with
        | some cd => some cd
        | none => (parseCommentsData markdown).map decodeCommentsData
      commentMarkers := extractCommentMarkersByLine markdown
      addedLines := match diff with
        | some d => d.addedLines
        | none => ∅
      removedLines := match diff with
        | some d => d.removedLines
        | none => []
      showLineNumbers := showLineNumbers }
  let st1 := renderLoop P lines lines.length 0 initRState
  let st2 := flushTable P (flushList P st1)
  let html2 := match mapGet (lines.length + 1) P.removedLines with
    | some rc => st2.html ++ renderRemovedBlock rc
    | none => st2.html
  let html3 :=
    if st2.ctx.threads ≠ [] then
      html2 ++ "<div class=\"comment-threads-container\">".data ++
        st2.ctx.threads.foldl (· ++ ·) [] ++ "</div>".data
    else html2
  if html3 ≠ [] then html3
  else "<div class=\"empty-state\"><div class=\"icon\">📄</div><p>Empty document</p></div>".data

end MDP

namespace MDP

/-! ## Helper lemmas -/

theorem sw_self_append (p r : Str) : sw p (p ++ r) = true := by
  induction p with
  | nil => simp [sw, List.isPrefixOf]
  | cons c cs ih => simp only [List.cons_append, sw, List.isPrefixOf, beq_self_eq_true, Bool.true_and]; exact ih

theorem takeDigits_exact {ds r : Str} (hds : ∀ c ∈ ds, isDigitCh c = true)
    (hr : ∀ c, r.head? = some c → isDigitCh c = false) :
    takeDigits (ds ++ r) = (ds, r) := by
  induction ds with
  | nil =>
    simp only [List.nil_append]
    cases r with
    | nil => rfl
    | cons c cs =>
      have := hr c rfl
      simp [takeDigits, this]
  | cons c cs ih =>
    have hc := hds c (by simp)
    have ih' := ih (fun x hx => hds x (by simp [hx]))
    simp [takeDigits, hc, ih']

theorem drop_length_append (p r : Str) : (p ++ r).drop p.length = r := by
  simp

/-! `idxOf` correctness. -/

theorem idxOf_cons_pos {c p : Char} {cs ps : Str}
    (hpre : (p :: ps).isPrefixOf (c :: cs) = true) :
    idxOf (c :: cs) (p :: ps) = some 0 := by
  simp [idxOf, hpre]

theorem idxOf_cons_neg {c p : Char} {cs ps : Str}
    (hpre : ¬ (p :: ps).isPrefixOf (c :: cs) = true) :
    idxOf (c :: cs) (p :: ps) = (idxOf cs (p :: ps)).map (· + 1) := by
  simp [idxOf, hpre]

theorem idxOf_some {s pat : Str} {i : Nat} (h : idxOf s pat = some i) :
    pat <+: s.drop i ∧ ∀ k, k < i → ¬ pat <+: s.drop k := by
  induction s generalizing i with
  | nil =>
    cases pat with
    | nil =>
      simp only [idxOf, Option.some.injEq] at h
      subst h
      exact ⟨by simp, by omega⟩
    | cons p ps => simp [idxOf] at h
  | cons c cs ih =>
    cases pat with
    | nil =>
      simp only [idxOf, Option.some.injEq] at h
      subst h
      exact ⟨by simp, by omega⟩
    | cons p ps =>
      by_cases hpre : (p :: ps).isPrefixOf (c :: cs) = true
      · rw [idxOf_cons_pos hpre] at h
        cases h
        refine ⟨by simpa using List.isPrefixOf_iff_prefix.mp hpre, by omega⟩
      · rw [idxOf_cons_neg hpre] at h
        rcases hrec : idxOf cs (p :: ps) with _ | j
        · rw [hrec] at h
          cases h
        · rw [hrec] at h
          simp only [Option.map_some', Option.some.injEq] at h
          subst h
          obtain ⟨h1, h2⟩ := ih hrec
          refine ⟨by simpa using h1, ?_⟩
          intro k hk
          cases k with
          | zero =>
            simp only [List.drop_zero]
            intro hcon
            exact hpre (List.isPrefixOf_iff_prefix.mpr hcon)
          | succ k' =>
            have := h2 k' (by omega)
            simpa using this

theorem idxOf_none {s pat : Str} (h : idxOf s pat = none) :
    ∀ k, ¬ pat <+: s.drop k := by
  induction s generalizing pat with
  | nil =>
    cases pat with
    | nil => simp [idxOf] at h
    | cons p ps =>
      intro k
      simp
  | cons c cs ih =>
    cases pat with
    | nil => simp [idxOf] at h
    | cons p ps =>
      by_cases hpre : (p :: ps).isPrefixOf (c :: cs) = true
      · rw [idxOf_cons_pos hpre] at h
        cases h
      · rw [idxOf_cons_neg hpre] at h
        rcases hrec : idxOf cs (p :: ps) with _ | j
        · intro k
          cases k with
          | zero =>
            simp only [List.drop_zero]
            intro hcon
            exact hpre (List.isPrefixOf_iff_prefix.mpr hcon)
          | succ k' => simpa using ih hrec k'
        · rw [hrec] at h
          cases h

theorem idxOf_of_first {a pat b : Str}
    (hfirst : ∀ k, k < a.length → ¬ pat <+: (a ++ pat ++ b).drop k) :
    idxOf (a ++ pat ++ b) pat = some a.length := by
  have hat : pat <+: (a ++ pat ++ b).drop a.length := by
    rw [List.append_assoc, drop_length_append]
    exact List.prefix_append pat b
  rcases h : idxOf (a ++ pat ++ b) pat with _ | i
  · exact absurd hat (idxOf_none h a.length)
  · obtain ⟨h1, h2⟩ := idxOf_some h
    rcases Nat.lt_trichotomy i a.length with hlt | heq | hgt
    · exact absurd h1 (hfirst i hlt)
    · rw [heq]
    · exact absurd hat (h2 a.length hgt)

theorem splitNl_no_nl {a : Str} (ha : '\n' ∉ a) : splitNl a = [a] := by
  induction a with
  | nil => rfl
  | cons c cs ih =>
    simp only [List.mem_cons, not_or] at ha
    have hc : ¬ c = '\n' := fun h => ha.1 h.symm
    simp [splitNl, hc, ih ha.2]

theorem splitNl_append_cons {a : Str} (ha : '\n' ∉ a) (r : Str) :
    splitNl (a ++ '\n' :: r) = a :: splitNl r := by
  induction a with
  | nil => simp [splitNl]
  | cons c cs ih =>
    simp only [List.mem_cons, not_or] at ha
    have hc : ¬ c = '\n' := fun h => ha.1 h.symm
    have hrec := ih ha.2
    simp only [List.cons_append, splitNl, hc, if_false]
    rw [show cs.append ('\n' :: r) = cs ++ '\n' :: r from rfl, hrec]

theorem sw_head {p s : Str} {c : Char} (hp : p.head? = some c)
    (hs : s.head? ≠ some c) : sw p s = false := by
  cases p with
  | nil => simp at hp
  | cons a p' =>
    cases s with
    | nil => simp [sw, List.isPrefixOf]
    | cons b s' =>
      simp only [List.head?_cons, Option.some.injEq] at hp
      simp only [List.head?_cons] at hs
      have hbc : ¬ b = c := fun hb => hs (congrArg some hb)
      have hne : (a == b) = false := by
        rw [beq_eq_false_iff_ne]
        intro h
        exact hbc (h ▸ hp)
      simp [sw, List.isPrefixOf, hne]

theorem matchHunkHeader_not_at {l : Str} (h : l.head? ≠ some '@') :
    matchHunkHeader l = none := by
  have hsw : sw "@@ -".data l = false := sw_head (by decide) h
  unfold matchHunkHeader
  rw [hsw]
  simp

theorem hunksAdded_append (a b : List DiffHunk) :
    hunksAdded (a ++ b) = hunksAdded a ++ hunksAdded b := by
  simp [hunksAdded]

theorem hunksAdded_snoc_change (hs : List DiffHunk) (h : DiffHunk) (c : DiffChange) :
    hunksAdded (hs ++ [{ h with changes := h.changes ++ [c] }]) =
      hunksAdded (hs ++ [h]) ++
        (if c.type == ChangeType.added then [c.lineNumber] else []) := by
  simp only [hunksAdded_append, hunksAdded, List.map_cons, List.map_nil,
    List.flatten_cons, List.flatten_nil, List.filter_append, List.map_append,
    List.append_nil]
  rcases hb : (c.type == ChangeType.added) with _ | _ <;>
    simp [List.filter_cons, hb, List.append_assoc]

/-! Per-branch equations for `parseDiffStep`. -/

theorem parseDiffStep_header {line : Str} {os ol ns nl : Nat}
    (hm : matchHunkHeader line = some (os, ol, ns, nl)) (st : ParseState) :
    parseDiffStep st line =
      { hunksDone := st.hunksDone ++ st.currentHunk.toList
        currentHunk := some ⟨os, ol, ns, nl, []⟩
        newLineNumber := ns
        oldLineNumber := os
        pendingRemovals := []
        addedLines := st.addedLines
        removedLines :=
          if st.pendingRemovals ≠ [] ∧ st.removalInsertPoint > 0 then
            mapSet st.removalInsertPoint (joinSep ['\n'] st.pendingRemovals)
              st.removedLines
          else st.removedLines
        removalInsertPoint := ns } := by
  unfold parseDiffStep
  rw [hm]

theorem parseDiffStep_noHunk {line : Str}
    (hm : matchHunkHeader line = none) {st : ParseState}
    (hcur : st.currentHunk = none) : parseDiffStep st line = st := by
  unfold parseDiffStep
  rw [hm, hcur]

theorem parseDiffStep_commentOnly {line : Str}
    (hm : matchHunkHeader line = none) {st : ParseState} {h : DiffHunk}
    (hcur : st.currentHunk = some h)
    (hplus : sw "+".data line ∧ ¬ sw "+++".data line)
    (hco : st.pendingRemovals ≠ [] ∧
      isOnlyCommentMarkerDiff (st.pendingRemovals.getLast!) (line.drop 1)) :
    parseDiffStep st line =
      { st with
        currentHunk := some { h with changes := h.changes ++
          [⟨ChangeType.context, st.newLineNumber, some st.oldLineNumber,
            stripCommentMarkers (line.drop 1)⟩] }
        pendingRemovals := st.pendingRemovals.dropLast
        oldLineNumber := st.oldLineNumber + 1
        removalInsertPoint := st.newLineNumber + 1
        newLineNumber := st.newLineNumber + 1 } := by
  unfold parseDiffStep
  rw [hm, hcur]
  dsimp only
  rw [if_pos hplus, if_pos hco]

theorem parseDiffStep_added {line : Str}
    (hm : matchHunkHeader line = none) {st : ParseState} {h : DiffHunk}
    (hcur : st.currentHunk = some h)
    (hplus : sw "+".data line ∧ ¬ sw "+++".data line)
    (hco : ¬ (st.pendingRemovals ≠ [] ∧
      isOnlyCommentMarkerDiff (st.pendingRemovals.getLast!) (line.drop 1))) :
    parseDiffStep st line =
      { st with
        currentHunk := some { h with changes := h.changes ++
          [⟨ChangeType.added, st.newLineNumber, none, line.drop 1⟩] }
        addedLines := insert st.newLineNumber st.addedLines
        removedLines :=
          if st.pendingRemovals ≠ [] then
            mapSet st.removalInsertPoint (joinSep ['\n'] st.pendingRemovals)
              st.removedLines
          else st.removedLines
        pendingRemovals := []
        removalInsertPoint := st.newLineNumber + 1
        newLineNumber := st.newLineNumber + 1 } := by
  unfold parseDiffStep
  rw [hm, hcur]
  dsimp only
  rw [if_pos hplus, if_neg hco]

theorem parseDiffStep_removed {line : Str}
    (hm : matchHunkHeader line = none) {st : ParseState} {h : DiffHunk}
    (hcur : st.currentHunk = some h)
    (hplus : ¬ (sw "+".data line ∧ ¬ sw "+++".data line))
    (hminus : sw "-".data line ∧ ¬ sw "---".data line) :
    parseDiffStep st line =
      { st with
        currentHunk := some { h with changes := h.changes ++
          [⟨ChangeType.removed, st.newLineNumber, some st.oldLineNumber,
            line.drop 1⟩] }
        pendingRemovals := st.pendingRemovals ++ [line.drop 1]
        oldLineNumber := st.oldLineNumber + 1 } := by
  unfold parseDiffStep
  rw [hm, hcur]
  dsimp only
  rw [if_neg hplus, if_pos hminus]

theorem parseDiffStep_context {line : Str}
    (hm : matchHunkHeader line = none) {st : ParseState} {h : DiffHunk}
    (hcur : st.currentHunk = some h)
    (hplus : ¬ (sw "+".data line ∧ ¬ sw "+++".data line))
    (hminus : ¬ (sw "-".data line ∧ ¬ sw "---".data line))
    (hctx : sw " ".data line ∨ line = []) :
    parseDiffStep st line =
      { st with
        currentHunk := some { h with changes := h.changes ++
          [⟨ChangeType.context, st.newLineNumber, some st.oldLineNumber,
            if sw " ".data line then line.drop 1 else line⟩] }
        removedLines :=
          if st.pendingRemovals ≠ [] then
            mapSet st.removalInsertPoint (joinSep ['\n'] st.pendingRemovals)
              st.removedLines
          else st.removedLines
        pendingRemovals := []
        newLineNumber := st.newLineNumber + 1
        oldLineNumber := st.oldLineNumber + 1
        removalInsertPoint := st.newLineNumber + 1 } := by
  unfold parseDiffStep
  rw [hm, hcur]
  dsimp only
  rw [if_neg hplus, if_neg hminus, if_pos hctx]

theorem parseDiffStep_other {line : Str}
    (hm : matchHunkHeader line = none) {st : ParseState} {h : DiffHunk}
    (hcur : st.currentHunk = some h)
    (hplus : ¬ (sw "+".data line ∧ ¬ sw "+++".data line))
    (hminus : ¬ (sw "-".data line ∧ ¬ sw "---".data line))
    (hctx : ¬ (sw " ".data line ∨ line = [])) :
    parseDiffStep st line = st := by
  unfold parseDiffStep
  rw [hm, hcur]
  dsimp only
  rw [if_neg hplus, if_neg hminus, if_neg hctx]

/-- Invariant: the members of `addedLines` are exactly the line numbers of
`added`-typed changes across the accumulated hunks. -/
def AddedInv (st : ParseState) : Prop :=
  ∀ n, n ∈ st.addedLines ↔ n ∈ hunksAdded st.allHunks

theorem addedInv_step (st : ParseState) (line : Str) (hInv : AddedInv st) :
    AddedInv (parseDiffStep st line) := by
  intro n
  rcases hm : matchHunkHeader line with _ | ⟨os, ol, ns, nl⟩
  · rcases hcur : st.currentHunk with _ | h
    · rw [parseDiffStep_noHunk hm hcur]
      exact hInv n
    · by_cases hplus : (sw "+".data line ∧ ¬ sw "+++".data line)
      · by_cases hco : (st.pendingRemovals ≠ [] ∧
            isOnlyCommentMarkerDiff st.pendingRemovals.getLast! (line.drop 1) = true)
        · rw [parseDiffStep_commentOnly hm hcur hplus hco]
          have hthis := hInv n
          simp only [ParseState.allHunks, hcur, Option.toList_some] at hthis ⊢
          simpa [hunksAdded_snoc_change] using hthis
        · rw [parseDiffStep_added hm hcur hplus hco]
          have hthis := hInv n
          simp only [ParseState.allHunks, hcur, Option.toList_some] at hthis ⊢
          simp only [hunksAdded_snoc_change, List.mem_append, Finset.mem_insert]
          simp only [hthis]
          simp [or_comm]
      · by_cases hminus : (sw "-".data line ∧ ¬ sw "---".data line)
        · rw [parseDiffStep_removed hm hcur hplus hminus]
          have hthis := hInv n
          simp only [ParseState.allHunks, hcur, Option.toList_some] at hthis ⊢
          simpa [hunksAdded_snoc_change] using hthis
        · by_cases hctx : (sw " ".data line = true ∨ line = [])
          · rw [parseDiffStep_context hm hcur hplus hminus hctx]
            have hthis := hInv n
            simp only [ParseState.allHunks, hcur, Option.toList_some] at hthis ⊢
            simpa [hunksAdded_snoc_change] using hthis
          · rw [parseDiffStep_other hm hcur hplus hminus hctx]
            exact hInv n
  · rw [parseDiffStep_header hm]
    have := hInv n
    simp only [ParseState.allHunks] at this ⊢
    simp only [Option.toList_some, hunksAdded_append, hunksAdded, List.map_cons,
      List.map_nil, List.flatten_cons, List.flatten_nil, List.filter_nil,
      List.append_nil] at this ⊢
    simpa using this

theorem addedInv_foldl (lines : List Str) (st : ParseState) (hInv : AddedInv st) :
    AddedInv (lines.foldl parseDiffStep st) := by
  induction lines generalizing st with
  | nil => exact hInv
  | cons l ls ih => exact ih _ (addedInv_step st l hInv)

theorem head_of_sw {c : Char} {p s : Str} (hp : p.head? = some c) (h : sw p s = true) :
    s.head? = some c := by
  cases p with
  | nil => simp at hp
  | cons a p' =>
    cases s with
    | nil => simp [sw, List.isPrefixOf] at h
    | cons b s' =>
      simp only [List.head?_cons, Option.some.injEq] at hp ⊢
      simp only [sw, List.isPrefixOf, Bool.and_eq_true, beq_iff_eq] at h
      rw [← h.1, hp]

theorem mem_hunksAdded {hs : List DiffHunk} {n : Nat} :
    n ∈ hunksAdded hs ↔
      ∃ h ∈ hs, ∃ c ∈ h.changes, c.type = ChangeType.added ∧ c.lineNumber = n := by
  simp only [hunksAdded, List.mem_flatten, List.mem_map, List.mem_filter,
    beq_iff_eq]
  constructor
  · rintro ⟨l, ⟨h, hh, rfl⟩, hm⟩
    obtain ⟨c, hcf, rfl⟩ := List.mem_map.mp hm
    obtain ⟨hc, hct⟩ := List.mem_filter.mp hcf
    refine ⟨h, hh, c, hc, ?_, rfl⟩
    simpa using hct
  · rintro ⟨h, hh, c, hc, hct, rfl⟩
    exact ⟨_, ⟨h, hh, rfl⟩, List.mem_map.mpr ⟨c, List.mem_filter.mpr ⟨hc, by simp [hct]⟩, rfl⟩⟩

/-- **C3** (amended: "exactly one hunk" weakened to "some hunk", see the
counterexample with two overlapping hunks).  For every input diff text, a line
number is in `addedLines` iff it is the `lineNumber` of an `added`-typed
`DiffChange` inside some hunk of the returned `FileDiff`. -/
theorem C3_addedLines_iff_added_change (fp d : Str) (n : Nat) :
    n ∈ (parseDiff fp d).addedLines ↔
      ∃ h ∈ (parseDiff fp d).hunks, ∃ c ∈ h.changes,
        c.type = ChangeType.added ∧ c.lineNumber = n := by
  have hInv : AddedInv initParseState := by
    intro m
    simp [initParseState, ParseState.allHunks, hunksAdded]
  have h2 := addedInv_foldl (splitNl d) initParseState hInv n
  rw [← mem_hunksAdded]
  unfold parseDiff
  exact h2

/-- **C3 counterexample**: with two (overlapping) hunks `@@ -1 +1 @@`, line 1 is
in `addedLines` but appears as an `added` change in *two* hunks, not exactly
one. -/
theorem C3_counterexample :
    1 ∈ (parseDiff "f".data "@@ -1 +1 @@\n+a\n@@ -1 +1 @@\n+b".data).addedLines ∧
    ((parseDiff "f".data "@@ -1 +1 @@\n+a\n@@ -1 +1 @@\n+b".data).hunks.filter
      (fun h => h.changes.any
        (fun c => c.type == ChangeType.added && c.lineNumber == 1))).length = 2 := by
  constructor
  · decide
  · decide

/-- **C1** (amended: restricted to `+` lines that are not a comment-marker-only
rewrite of the most recent pending removal; see the counterexample).  When the
parser state has an open hunk and the line starts with `+` but not `+++`, and
the line is not a comment-marker-only change, the step records an `added`
`DiffChange` at the current new-file line counter, adds that counter to
`addedLines`, flushes a non-empty `pendingRemovals` into `removedLines` keyed
at the stored removal insertion point (the position where the run of deletions
began), clears `pendingRemovals`, and advances the new-line counter. -/
theorem C1_plus_line_step (st : ParseState) (h : DiffHunk) (line : Str)
    (hcur : st.currentHunk = some h)
    (hplus : sw "+".data line = true) (hnot : ¬ sw "+++".data line = true)
    (hco : ¬ (st.pendingRemovals ≠ [] ∧
      isOnlyCommentMarkerDiff (st.pendingRemovals.getLast!) (line.drop 1) = true)) :
    (parseDiffStep st line).currentHunk = some { h with changes := h.changes ++
        [⟨ChangeType.added, st.newLineNumber, none, line.drop 1⟩] } ∧
    (parseDiffStep st line).addedLines = insert st.newLineNumber st.addedLines ∧
    (st.pendingRemovals ≠ [] →
      (parseDiffStep st line).removedLines =
        mapSet st.removalInsertPoint (joinSep ['\n'] st.pendingRemovals)
          st.removedLines) ∧
    (st.pendingRemovals = [] →
      (parseDiffStep st line).removedLines = st.removedLines) ∧
    (parseDiffStep st line).pendingRemovals = [] ∧
    (parseDiffStep st line).newLineNumber = st.newLineNumber + 1 := by
  have hm : matchHunkHeader line = none := by
    refine matchHunkHeader_not_at ?_
    rw [head_of_sw (c := '+') (by decide) hplus]
    decide
  rw [parseDiffStep_added hm hcur ⟨hplus, hnot⟩ hco]
  refine ⟨rfl, rfl, ?_, ?_, rfl, rfl⟩
  · intro hp
    simp [hp]
  · intro hp
    simp [hp]

/-- Witness for C1: a concrete step with one pending removal `"old"` and line
`"+new"` (a real content change). -/
theorem C1_plus_line_step_witness :
    (parseDiffStep ⟨[], some ⟨1, 1, 1, 1, []⟩, 5, 7, ["old".data], ∅, [], 3⟩
        "+new".data).addedLines = insert 5 (∅ : Finset Nat) ∧
    (parseDiffStep ⟨[], some ⟨1, 1, 1, 1, []⟩, 5, 7, ["old".data], ∅, [], 3⟩
        "+new".data).removedLines = [(3, "old".data)] := by
  have H := C1_plus_line_step
    ⟨[], some ⟨1, 1, 1, 1, []⟩, 5, 7, ["old".data], ∅, [], 3⟩
    ⟨1, 1, 1, 1, []⟩ "+new".data rfl (by decide) (by decide) (by decide)
  refine ⟨H.2.1, ?_⟩
  rw [H.2.2.1 (by decide)]
  decide

/-- **C1 counterexample**: the claim as stated fails.  In the diff
`@@ -1,1 +1,1 @@` / `-hello<!--comment:1-->` / `+hello`, the `+` line is a
comment-marker-only change: `parseDiff` records it as a `context` change,
leaves `addedLines` empty, and never flushes the pending removal into
`removedLines`. -/
theorem C1_counterexample :
    (parseDiff "f".data
        "@@ -1,1 +1,1 @@\n-hello<!--comment:1-->\n+hello".data).addedLines = ∅ ∧
    (parseDiff "f".data
        "@@ -1,1 +1,1 @@\n-hello<!--comment:1-->\n+hello".data).hunks.map
      (fun h => h.changes.map (·.type)) =
        [[ChangeType.removed, ChangeType.context]] ∧
    (parseDiff "f".data
        "@@ -1,1 +1,1 @@\n-hello<!--comment:1-->\n+hello".data).removedLines = [] := by
  refine ⟨by decide, by decide, by decide⟩

/-- **C4**: a hunk whose body is a `-` removal line immediately followed by a
context line (and no `+` line) yields exactly one `removedLines` entry, keyed
at the context line's new-file line number (here 1), whose value is the
removed line's content without its `-` prefix. -/
theorem C4_removal_then_context (fp s t : Str)
    (hs : ('\n' : Char) ∉ s) (ht : ('\n' : Char) ∉ t)
    (hpre : ¬ sw "--".data s = true) :
    (parseDiff fp ("@@ -1,2 +1,1 @@".data ++ '\n' :: '-' ::
        (s ++ '\n' :: ' ' :: t))).removedLines = [(1, s)] ∧
    (parseDiff fp ("@@ -1,2 +1,1 @@".data ++ '\n' :: '-' ::
        (s ++ '\n' :: ' ' :: t))).hunks =
      [⟨1, 2, 1, 1, [⟨ChangeType.removed, 1, some 1, s⟩,
        ⟨ChangeType.context, 1, some 2, t⟩]⟩] := by
  have h1 : ('\n' : Char) ∉ ('-' :: s) := by
    intro hmem
    rcases List.mem_cons.mp hmem with h | h
    · exact absurd h (by decide)
    · exact hs h
  have h2 : ('\n' : Char) ∉ (' ' :: t) := by
    intro hmem
    rcases List.mem_cons.mp hmem with h | h
    · exact absurd h (by decide)
    · exact ht h
  have hsplit : splitNl ("@@ -1,2 +1,1 @@".data ++ '\n' :: '-' ::
      (s ++ '\n' :: ' ' :: t)) =
      ["@@ -1,2 +1,1 @@".data, '-' :: s, ' ' :: t] := by
    rw [splitNl_append_cons (by decide),
      show ('-' :: (s ++ '\n' :: ' ' :: t)) = ('-' :: s) ++ '\n' :: (' ' :: t) by
        simp,
      splitNl_append_cons h1, splitNl_no_nl h2]
  have e1 : parseDiffStep initParseState "@@ -1,2 +1,1 @@".data =
      ⟨[], some ⟨1, 2, 1, 1, []⟩, 1, 1, [], ∅, [], 1⟩ := by decide
  have hm2 : matchHunkHeader ('-' :: s) = none :=
    matchHunkHeader_not_at (by simp)
  have hplus2 : ¬ (sw "+".data ('-' :: s) = true ∧
      ¬ sw "+++".data ('-' :: s) = true) := by
    rintro ⟨hp, -⟩
    rw [sw_head (c := '+') (by decide) (by simp)] at hp
    cases hp
  have hminus2 : sw "-".data ('-' :: s) = true ∧
      ¬ sw "---".data ('-' :: s) = true := by
    constructor
    · simp [sw, List.isPrefixOf]
    · intro hp
      refine hpre ?_
      simpa [sw, List.isPrefixOf] using hp
  have hm3 : matchHunkHeader (' ' :: t) = none :=
    matchHunkHeader_not_at (by simp)
  have hplus3 : ¬ (sw "+".data (' ' :: t) = true ∧
      ¬ sw "+++".data (' ' :: t) = true) := by
    rintro ⟨hp, -⟩
    rw [sw_head (c := '+') (by decide) (by simp)] at hp
    cases hp
  have hminus3 : ¬ (sw "-".data (' ' :: t) = true ∧
      ¬ sw "---".data (' ' :: t) = true) := by
    rintro ⟨hp, -⟩
    rw [sw_head (c := '-') (by decide) (by simp)] at hp
    cases hp
  have hsw3 : sw " ".data (' ' :: t) = true := by
    simp [sw, List.isPrefixOf]
  have hctx3 : sw " ".data (' ' :: t) = true ∨ (' ' :: t) = ([] : Str) :=
    Or.inl hsw3
  unfold parseDiff
  rw [hsplit]
  simp only [List.foldl_cons, List.foldl_nil]
  rw [e1, parseDiffStep_removed hm2 rfl hplus2 hminus2]
  rw [parseDiffStep_context hm3 rfl hplus3 hminus3 hctx3]
  simp [hsw3, mapSet, joinSep]

/-- Witness for C4 at `s = "oldtext"`, `t = "context"`. -/
theorem C4_removal_then_context_witness :
    (parseDiff "f".data ("@@ -1,2 +1,1 @@".data ++ '\n' :: '-' ::
        ("oldtext".data ++ '\n' :: ' ' :: "context".data))).removedLines
      = [(1, "oldtext".data)] :=
  (C4_removal_then_context "f".data "oldtext".data "context".data
    (by decide) (by decide) (by decide)).1

/-- **C9**: the table-row classifier accepts `a | b | c` (two unbracketed
pipes, not a list item or blockquote) and rejects `[x|y](url)` (its only pipe
is inside `[...]` brackets). -/
theorem C9_isTableRow_cases :
    isTableRow "a | b | c".data = true ∧ isTableRow "[x|y](url)".data = false := by
  constructor
  · decide
  · decide

theorem markerAt_marker {ds rest : Str} (hne : ds ≠ [])
    (hall : ∀ c ∈ ds, isDigitCh c = true) :
    markerAt ("<!--comment:".data ++ (ds ++ ("-->".data ++ rest))) =
      some (digitsToNat ds, rest) := by
  have htd : takeDigits (ds ++ ("-->".data ++ rest)) = (ds, "-->".data ++ rest) :=
    takeDigits_exact hall (by
      intro c hc
      simp only [List.cons_append, List.head?_cons, Option.some.injEq] at hc
      rw [← hc]
      decide)
  unfold markerAt
  rw [if_pos (sw_self_append _ _), show
    ("<!--comment:".data ++ (ds ++ ("-->".data ++ rest))).drop 12 =
      ds ++ ("-->".data ++ rest) from drop_length_append "<!--comment:".data _]
  rw [htd]
  dsimp only
  rw [if_pos ⟨hne, sw_self_append _ _⟩, show ("-->".data ++ rest).drop 3 = rest
    from drop_length_append "-->".data rest]

theorem inlineMarkersF_cons (k : Nat) (c : Char) (cs : Str) :
    inlineMarkersF (k + 1) (c :: cs) =
      match markerAt (c :: cs) with
      | some (v, rest) => v :: inlineMarkersF k rest
      | none => inlineMarkersF k cs := rfl

/-- **C10**: a line that *begins* with a comment-marker token yields that
comment id twice from `extractCommentMarkers` — once as the first global
inline match and once (appended last) from the start-of-line block match. -/
theorem C10_block_marker_duplicated (ds rest : Str) (hne : ds ≠ [])
    (hall : ∀ c ∈ ds, isDigitCh c = true) :
    ∃ l : List Nat,
      extractCommentMarkers ("<!--comment:".data ++ (ds ++ ("-->".data ++ rest)))
        = (digitsToNat ds :: l) ++ [digitsToNat ds] := by
  have hm := @markerAt_marker ds rest hne hall
  have hstep : inlineMarkersF
      ("<!--comment:".data ++ (ds ++ ("-->".data ++ rest))).length
      ("<!--comment:".data ++ (ds ++ ("-->".data ++ rest))) =
      digitsToNat ds :: inlineMarkersF
        ("!--comment:".data ++ (ds ++ ("-->".data ++ rest))).length rest := by
    rw [show ("<!--comment:".data ++ (ds ++ ("-->".data ++ rest))) =
      '<' :: ("!--comment:".data ++ (ds ++ ("-->".data ++ rest))) from rfl,
      List.length_cons, inlineMarkersF_cons]
    rw [show markerAt ('<' :: ("!--comment:".data ++ (ds ++ ("-->".data ++ rest))))
      = some (digitsToNat ds, rest) from hm]
  refine ⟨inlineMarkersF
    ("!--comment:".data ++ (ds ++ ("-->".data ++ rest))).length rest, ?_⟩
  unfold extractCommentMarkers
  rw [hm]
  dsimp only
  rw [hstep]

/-- Witness for C10 at the concrete block-marker line `<!--comment:5-->`. -/
theorem C10_block_marker_duplicated_witness :
    ∃ l : List Nat,
      extractCommentMarkers ("<!--comment:".data ++ ("5".data ++ ("-->".data ++ [])))
        = (digitsToNat "5".data :: l) ++ [digitsToNat "5".data] :=
  C10_block_marker_duplicated "5".data [] (by decide) (by decide)

theorem prefix_append_cases {α : Type} {pat x y : List α} (h : pat <+: x ++ y) :
    pat <+: x ∨ (x <+: pat ∧ pat.drop x.length <+: y) := by
  obtain ⟨t, ht⟩ := h
  rcases Nat.le_total pat.length x.length with hle | hle
  · left
    have hpat : pat = (x ++ y).take pat.length := by
      rw [← ht]
      simp
    rw [hpat, List.take_append_of_le_length hle]
    exact List.take_prefix _ _
  · right
    constructor
    · have hx : pat.take x.length = x := by
        have h1 : (pat ++ t).take x.length = (x ++ y).take x.length := by rw [ht]
        rwa [List.take_append_of_le_length hle, List.take_left] at h1
      exact hx ▸ List.take_prefix x.length pat
    · have hdrop : pat.drop x.length ++ t = y := by
        have : (pat ++ t).drop x.length = (x ++ y).drop x.length := by rw [ht]
        rwa [List.drop_append_of_le_length hle, List.drop_left] at this
      exact ⟨t, hdrop⟩

theorem jsTrim_cons_ws {c : Char} (hc : isWs c = true) (s : Str) :
    jsTrim (c :: s) = jsTrim s := by
  simp [jsTrim, List.dropWhile_cons, hc]

theorem jsTrim_append_ws {c : Char} (hc : isWs c = true) (s : Str) :
    jsTrim (s ++ [c]) = jsTrim s := by
  unfold jsTrim
  rw [List.dropWhile_append]
  by_cases he : (s.dropWhile isWs).isEmpty
  · rw [List.isEmpty_iff] at he
    simp [he, List.dropWhile_cons, hc]
  · simp only [he, if_false, Bool.false_eq_true]
    rw [List.reverse_append]
    simp only [List.reverse_cons, List.reverse_nil, List.nil_append,
      List.singleton_append, List.dropWhile_cons, hc, if_pos]

theorem arrow_first {j post : Str} (hj : ¬ ("-->".data <:+: j)) :
    idxOf (('\n' :: (j ++ ['\n'])) ++ ("-->".data ++ post)) "-->".data
      = some (j.length + 2) := by
  have hlen : ('\n' :: (j ++ ['\n'])).length = j.length + 2 := by simp
  have hfirst : ∀ k, k < ('\n' :: (j ++ ['\n'])).length →
      ¬ "-->".data <+: ((('\n' :: (j ++ ['\n'])) ++ "-->".data ++ post).drop k) := by
    intro k hk hcon
    rw [List.append_assoc, List.drop_append_of_le_length (by
      simp only [hlen] at hk ⊢
      omega)] at hcon
    cases k with
    | zero =>
      simp only [List.drop_zero, List.cons_append] at hcon
      exact absurd (List.cons_prefix_cons.mp hcon).1 (by decide)
    | succ m =>
      have hm : m ≤ j.length := by
        simp only [hlen] at hk
        omega
      have hdm : ('\n' :: (j ++ ['\n'])).drop (m + 1) = j.drop m ++ ['\n'] := by
        simp only [List.drop_succ_cons]
        rw [List.drop_append_of_le_length hm]
      rw [hdm, List.append_assoc] at hcon
      rcases prefix_append_cases hcon with hin | ⟨hxp, hrest⟩
      · exact hj ((hin.isInfix).trans (List.drop_suffix m j).isInfix)
      · have hxeq : j.drop m = "-->".data.take (j.drop m).length := by
          rw [List.prefix_iff_eq_take] at hxp
          exact hxp
        have hd : "-->".data.drop (j.drop m).length <+:
            '\n' :: ("-->".data ++ post) := by
          rwa [List.singleton_append] at hrest
        rcases hn : (j.drop m).length with _ | n1
        · rw [hn] at hd
          rw [show "-->".data.drop 0 = '-' :: "->".data from rfl] at hd
          exact absurd (List.cons_prefix_cons.mp hd).1 (by decide)
        · rcases hn1 : n1 with _ | n2
          · rw [hn, hn1] at hd
            rw [show "-->".data.drop 1 = '-' :: ">".data from rfl] at hd
            exact absurd (List.cons_prefix_cons.mp hd).1 (by decide)
          · rcases hn2 : n2 with _ | n3
            · rw [hn, hn1, hn2] at hd
              rw [show "-->".data.drop 2 = '>' :: [] from rfl] at hd
              exact absurd (List.cons_prefix_cons.mp hd).1 (by decide)
            · have h3 : (j.drop m).length = 3 := by
                have hle3 : (j.drop m).length ≤ 3 := by
                  have := hxp.length_le
                  simpa using this
                omega
              have hjm : j.drop m = "-->".data := by
                rw [hxeq, h3]
                rfl
              exact hj (hjm ▸ (List.drop_suffix m j).isInfix)
  rw [← hlen, ← List.append_assoc]
  exact idxOf_of_first hfirst

theorem cdMatchAt_none_of_head {l : Str} (h : l.head? ≠ some '<') :
    cdMatchAt l = none := by
  have hsw : sw "<!--".data l = false := sw_head (by decide) h
  unfold cdMatchAt
  rw [hsw]
  simp

theorem cdMatchAt_some_sub {l : Str} {r : Nat × Str}
    (h : cdMatchAt l = some r) : "COMMENTS-DATA".data <:+: l := by
  unfold cdMatchAt at h
  split at h
  · dsimp only at h
    split at h
    · rename_i hsw2
      have hpre : "COMMENTS-DATA".data <+: (l.drop 4).dropWhile isWs :=
        List.isPrefixOf_iff_prefix.mp hsw2
      have hsuf : (l.drop 4).dropWhile isWs <:+ l :=
        (List.dropWhile_suffix isWs).trans (List.drop_suffix 4 l)
      exact hpre.isInfix.trans hsuf.isInfix
    · exact absurd h (by simp)
  · exact absurd h (by simp)

theorem findCDAux_cons (f : Nat) (c : Char) (cs : Str) (pos : Nat) :
    findCDAux (f + 1) (c :: cs) pos =
      match cdMatchAt (c :: cs) with
      | some (len, cap) => some (pos, len, cap)
      | none => findCDAux f cs (pos + 1) := rfl

theorem findCDAux_mem {fuel : Nat} {l : Str} {pos : Nat} {r : Nat × Nat × Str}
    (h : findCDAux fuel l pos = some r) : "COMMENTS-DATA".data <:+: l := by
  induction fuel generalizing l pos with
  | zero => simp [findCDAux] at h
  | succ f ih =>
    cases l with
    | nil => simp [findCDAux] at h
    | cons c cs =>
      rw [findCDAux_cons] at h
      rcases hm : cdMatchAt (c :: cs) with _ | v
      · rw [hm] at h
        dsimp only at h
        exact (ih h).trans (List.infix_cons List.infix_rfl)
      · exact cdMatchAt_some_sub hm

theorem findCD_some_sub {md : Str} {r : Nat × Nat × Str}
    (h : findCD md = some r) : "COMMENTS-DATA".data <:+: md :=
  findCDAux_mem h

theorem findCDAux_skip {x l0 : Str} (hx : ('<' : Char) ∉ x) {len : Nat}
    {cap : Str} (h0 : cdMatchAt l0 = some (len, cap)) :
    ∀ fuel pos, x.length + 1 ≤ fuel →
      findCDAux fuel (x ++ l0) pos = some (pos + x.length, len, cap) := by
  induction x with
  | nil =>
    intro fuel pos hf
    obtain ⟨f', rfl⟩ : ∃ f', fuel = f' + 1 := ⟨fuel - 1, by omega⟩
    cases l0 with
    | nil =>
      rw [show cdMatchAt [] = none from rfl] at h0
      cases h0
    | cons c cs =>
      rw [List.nil_append, findCDAux_cons, h0]
      simp
  | cons c cs ih =>
    intro fuel pos hf
    obtain ⟨f', rfl⟩ : ∃ f', fuel = f' + 1 := ⟨fuel - 1, by omega⟩
    have hc : c ≠ '<' := fun hcc => hx (by simp [hcc])
    have hnone : cdMatchAt (c :: (cs ++ l0)) = none :=
      cdMatchAt_none_of_head (by simpa using fun hcc => hc hcc)
    have hcs : ('<' : Char) ∉ cs := fun hm => hx (by simp [hm])
    have := ih hcs f' (pos + 1) (by simp at hf ⊢; omega)
    calc findCDAux (f' + 1) ((c :: cs) ++ l0) pos
        = findCDAux f' (cs ++ l0) (pos + 1) := by
          simp only [List.cons_append]
          rw [findCDAux_cons, hnone]
      _ = some (pos + 1 + cs.length, len, cap) := this
      _ = some (pos + (c :: cs).length, len, cap) := by
          simp
          omega

theorem cdMatchAt_std {j post : Str} (hj : ¬ "-->".data <:+: j) :
    cdMatchAt ("<!--\nCOMMENTS-DATA\n".data ++ (j ++ ("\n-->".data ++ post))) =
      some (4 + 1 + 13 + (j.length + 2) + 3, '\n' :: (j ++ ['\n'])) := by
  have hshape : "<!--\nCOMMENTS-DATA\n".data ++ (j ++ ("\n-->".data ++ post)) =
      "<!--".data ++ ('\n' :: ("COMMENTS-DATA".data ++
        ('\n' :: (j ++ ('\n' :: ("-->".data ++ post)))))) := by
    rw [show "<!--\nCOMMENTS-DATA\n".data =
      "<!--".data ++ ('\n' :: ("COMMENTS-DATA".data ++ ['\n'])) from rfl,
      show "\n-->".data = '\n' :: "-->".data from rfl]
    simp [List.append_assoc]
  rw [hshape]
  unfold cdMatchAt
  rw [if_pos (sw_self_append _ _)]
  have hd4 : ("<!--".data ++ ('\n' :: ("COMMENTS-DATA".data ++
      ('\n' :: (j ++ ('\n' :: ("-->".data ++ post))))))).drop 4 =
      '\n' :: ("COMMENTS-DATA".data ++ ('\n' :: (j ++ ('\n' ::
        ("-->".data ++ post))))) :=
    drop_length_append "<!--".data _
  have hdw : List.dropWhile isWs ('\n' :: ("COMMENTS-DATA".data ++
      ('\n' :: (j ++ ('\n' :: ("-->".data ++ post)))))) =
      "COMMENTS-DATA".data ++ ('\n' :: (j ++ ('\n' :: ("-->".data ++ post)))) := by
    rw [List.dropWhile_cons_of_pos (by decide)]
    rw [show "COMMENTS-DATA".data ++ ('\n' :: (j ++ ('\n' ::
      ("-->".data ++ post)))) = 'C' :: ("OMMENTS-DATA".data ++ ('\n' :: (j ++
        ('\n' :: ("-->".data ++ post))))) from rfl]
    rw [List.dropWhile_cons_of_neg (by decide)]
  have hd13 : ("COMMENTS-DATA".data ++ ('\n' :: (j ++ ('\n' ::
      ("-->".data ++ post))))).drop 13 =
      '\n' :: (j ++ ('\n' :: ("-->".data ++ post))) :=
    drop_length_append "COMMENTS-DATA".data _
  have hbody : '\n' :: (j ++ ('\n' :: ("-->".data ++ post))) =
      ('\n' :: (j ++ ['\n'])) ++ ("-->".data ++ post) := by
    simp
  dsimp only
  rw [hd4, hdw]
  rw [if_pos (sw_self_append _ _)]
  dsimp only
  rw [hd13, hbody, arrow_first hj]
  dsimp only
  congr 1
  have htk := @List.take_append Char j ('\n' :: '-' :: '-' :: '>' :: post) 1
  simpa using htk

theorem findCD_std {pre j post : Str} (hpre : ('<' : Char) ∉ pre)
    (hj : ¬ "-->".data <:+: j) :
    findCD (pre ++ ("<!--\nCOMMENTS-DATA\n".data ++ (j ++ ("\n-->".data ++ post))))
      = some (pre.length, 4 + 1 + 13 + (j.length + 2) + 3,
          '\n' :: (j ++ ['\n'])) := by
  unfold findCD
  have := findCDAux_skip hpre (@cdMatchAt_std j post hj)
    ((pre ++ ("<!--\nCOMMENTS-DATA\n".data ++
      (j ++ ("\n-->".data ++ post)))).length + 1) 0
    (by simp)
  simpa using this

/-- **C7**: `parseCommentsData` is total and returns `none` — never an
error — when the COMMENTS-DATA block is absent, when the embedded JSON body
fails to parse, or when the parsed value is not a plain object; a well-formed
block yields the parsed object. -/
theorem C7_parseCommentsData_spec :
    (∀ md : Str, ¬ "COMMENTS-DATA".data <:+: md → parseCommentsData md = none) ∧
    (∀ md : Str, ∀ r : Nat × Nat × Str, findCD md = some r →
      jsonParse (jsTrim r.2.2) = none → parseCommentsData md = none) ∧
    (∀ md : Str, ∀ r : Nat × Nat × Str, ∀ v : JVal, findCD md = some r →
      jsonParse (jsTrim r.2.2) = some v → (∀ fields, v ≠ JVal.jobj fields) →
      parseCommentsData md = none) ∧
    (∀ pre j post : Str, ∀ fields : List (Str × JVal),
      ('<' : Char) ∉ pre → ¬ "-->".data <:+: j →
      jsonParse (jsTrim j) = some (JVal.jobj fields) →
      parseCommentsData (pre ++ ("<!--\nCOMMENTS-DATA\n".data ++
        (j ++ ("\n-->".data ++ post)))) = some fields) := by
  refine ⟨?_, ?_, ?_, ?_⟩
  · intro md h
    unfold parseCommentsData
    rcases hf : findCD md with _ | r
    · rfl
    · exact absurd (findCD_some_sub hf) h
  · rintro md ⟨i, len, cap⟩ hf hjp
    unfold parseCommentsData
    rw [hf]
    dsimp only at hjp ⊢
    by_cases he : jsTrim cap = []
    · rw [if_pos he]
    · rw [if_neg he, hjp]
  · rintro md ⟨i, len, cap⟩ v hf hjp hnv
    unfold parseCommentsData
    rw [hf]
    dsimp only at hjp ⊢
    by_cases he : jsTrim cap = []
    · rw [if_pos he]
    · rw [if_neg he, hjp]
      cases v with
      | jobj fields => exact absurd rfl (hnv fields)
      | jnull => rfl
      | jbool b => rfl
      | jnum lex => rfl
      | jstr s => rfl
      | jarr items => rfl
  · intro pre j post fields hpre hj hjp
    have hfind := @findCD_std pre j post hpre hj
    unfold parseCommentsData
    rw [hfind]
    dsimp only
    have hcap : jsTrim ('\n' :: (j ++ ['\n'])) = jsTrim j := by
      rw [jsTrim_cons_ws (by decide), jsTrim_append_ws (by decide)]
    rw [hcap]
    have hne : jsTrim j ≠ [] := by
      intro h0
      rw [h0, show jsonParse [] = none from rfl] at hjp
      cases hjp
    rw [if_neg hne, hjp]

/-- Witness for C7 at the concrete document `<!--\nCOMMENTS-DATA\n{}\n-->`
(braces escaped): the empty-object ledger parses to the empty mapping. -/
theorem C7_parseCommentsData_spec_witness :
    parseCommentsData (([] : Str) ++ ("<!--\nCOMMENTS-DATA\n".data ++
      ("\x7b\x7d".data ++ ("\n-->".data ++ ([] : Str))))) = some [] :=
  C7_parseCommentsData_spec.2.2.2 [] "\x7b\x7d".data [] []
    (by decide) (by decide) (by rfl)

/-- **C8**: a plan/response update for a comment id that is missing from the
parsed ledger (ledger absent, id absent, or bound to a falsy value) reports
the named `Comment N not found` warning and applies no edit: the document
text is left unchanged. -/
theorem C8_update_missing_comment_warns (doc : Str) (commentId : Nat)
    (ty content : Str) (h : commentMissing doc commentId = true) :
    updateComment doc commentId ty content =
      UpdResult.warn ("Comment ".data ++ natToStr commentId ++
        " not found".data) ∧
    ∀ s : Str, updateComment doc commentId ty content ≠
      UpdResult.applyEdit s := by
  have hmain : updateComment doc commentId ty content =
      UpdResult.warn ("Comment ".data ++ natToStr commentId ++
        " not found".data) := by
    unfold commentMissing at h
    unfold updateComment
    rcases hp : parseCommentsData doc with _ | cd
    · rfl
    · rw [hp] at h
      dsimp only at h ⊢
      rcases hg : jGet cd (natToStr commentId) with _ | cv
      · rfl
      · rw [hg] at h
        dsimp only at h ⊢
        rw [if_pos (by simpa using h)]
  refine ⟨hmain, ?_⟩
  intro s hcon
  rw [hmain] at hcon
  cases hcon

/-- Witness for C8: a document with no ledger at all and comment id 7. -/
theorem C8_update_missing_comment_warns_witness :
    updateComment "hello world".data 7 "plan".data "p".data =
      UpdResult.warn ("Comment ".data ++ natToStr 7 ++ " not found".data) :=
  (C8_update_missing_comment_warns "hello world".data 7 "plan".data "p".data
    (by decide)).1

/-! ## C5: duplicate badges within one render pass -/

set_option maxRecDepth 400000

/-- **C5**: evaluation of the full renderer on the failing input.  The
document is the single line `<!--comment:1-->hello` and the ledger holds
one block-targeted comment with id 1.  `extractCommentMarkers` reports id
1 twice for the line (inline scan plus block-start match), so
`getCommentsForLine` returns the comment twice, the
`processedComments`-filter in `wrapWithComments` passes both copies (the
set is only updated afterwards), and the rendered output carries TWO
`data-comment-id="1"` badges — not at most one as the spec states.  The
thread panel, guarded by a membership test on the collected thread list,
does appear exactly once. -/
theorem C5_duplicate_badge_rendered :
    countOccur "data-comment-id=\"1\"".data
      (renderMarkdownWithDiff "<!--comment:1-->hello".data none false
        (some [("1".data,
          ⟨1, ⟨TargetType.block, 1, none, none, none⟩, [], none, none⟩)])) = 2 ∧
    countOccur "id=\"comment-thread-1\"".data
      (renderMarkdownWithDiff "<!--comment:1-->hello".data none false
        (some [("1".data,
          ⟨1, ⟨TargetType.block, 1, none, none, none⟩, [], none, none⟩)])) = 1 := by
  constructor
  · decide
  · decide

/-! ## C6: inline badge anchoring -/

/-- A `replAll` step keeps a non-empty string non-empty whenever the
replacement is non-empty. -/
theorem replAll_ne_nil {target : Char} {repl : Str} (hr : repl ≠ []) {s : Str}
    (hs : s ≠ []) : replAll target repl s ≠ [] := by
  cases s with
  | nil => exact absurd rfl hs
  | cons c cs =>
    simp only [replAll, List.flatMap_cons]
    by_cases hc : c = target
    · simp only [hc, if_pos rfl]
      intro hcon
      exact hr (List.append_eq_nil.mp hcon).1
    · rw [if_neg hc]
      intro hcon
      cases List.append_eq_nil.mp hcon with
      | intro h1 _ => cases h1

/-- `escapeHtml` of a non-empty string is non-empty. -/
theorem escapeHtml_ne_nil {t : Str} (hne : t ≠ []) : escapeHtml t ≠ [] := by
  unfold escapeHtml
  apply replAll_ne_nil (by decide)
  apply replAll_ne_nil (by decide)
  apply replAll_ne_nil (by decide)
  apply replAll_ne_nil (by decide)
  exact replAll_ne_nil (by decide) hne

/-- **C6 counterexample**: an inline comment whose `target.text` is the
empty string.  `processInlineComments` resolves its marker on the line,
but the truthiness test `if (comment.target.text)` skips the
badge-insertion branch entirely, so the returned HTML contains no
`comment-badge` at all — the badge IS dropped, contradicting the claim
that it is never dropped (it is neither inserted after the occurrence of
the escaped empty text, which trivially occurs, nor appended at the
end). -/
theorem C6_counterexample :
    containsSub
      (processInlineComments
        ⟨some [("2".data,
          ⟨2, ⟨TargetType.inline, 1, some [], none, none⟩, [], none, none⟩)],
          [(1, [2])], ∅, [], false⟩
        "<p>x</p>".data "x<!--comment:2-->".data 1 ⟨[], []⟩).1
      "comment-badge".data = false := by
  decide

/-- **C6** (amended: for inline comments whose `target.text` is present
and non-empty): the badge-insertion step never drops the badge; when the
HTML-escaped target text occurs in the rendered HTML the badge is placed
immediately after the occurrence with the shortest prefix (the first
occurrence), and when it does not occur the badge is appended at the
end. -/
theorem C6_badge_insertion (c : Comment) (res t : Str)
    (ht : c.target.text = some t) (hne : t ≠ []) :
    (∃ u v : Str,
      insertInlineBadge c res = u ++ (' ' :: renderCommentBadge c) ++ v) ∧
    ((∀ u v : Str, res ≠ u ++ escapeHtml t ++ v) →
      insertInlineBadge c res = res ++ (' ' :: renderCommentBadge c)) ∧
    (∀ u v : Str, res = u ++ escapeHtml t ++ v →
      ∃ u2 v2 : Str, res = u2 ++ escapeHtml t ++ v2 ∧
        insertInlineBadge c res =
          u2 ++ escapeHtml t ++ (' ' :: renderCommentBadge c) ++ v2 ∧
        ∀ u3 v3 : Str, res = u3 ++ escapeHtml t ++ v3 →
          u2.length ≤ u3.length) := by
  have hesc : escapeHtml t ≠ [] := escapeHtml_ne_nil hne
  unfold insertInlineBadge
  rw [ht]
  dsimp only
  rw [if_pos hne]
  rcases hidx : idxOf res (escapeHtml t) with _ | i
  · have hnone := idxOf_none hidx
    refine ⟨⟨res, [], by simp⟩, fun _ => rfl, ?_⟩
    intro u v huv
    exfalso
    apply hnone u.length
    rw [huv, List.append_assoc, drop_length_append]
    exact List.prefix_append _ _
  · obtain ⟨h1, h2⟩ := idxOf_some hidx
    have hlen : i ≤ res.length := by
      by_contra hgt
      push_neg at hgt
      rw [List.drop_eq_nil_of_le (le_of_lt hgt)] at h1
      exact hesc (List.prefix_nil.mp h1)
    obtain ⟨w, hw⟩ := h1
    have hdrop : res.drop (i + (escapeHtml t).length) = w := by
      rw [← List.drop_drop, ← hw, drop_length_append]
    have htake : res.take (i + (escapeHtml t).length) =
        res.take i ++ escapeHtml t := by
      rw [List.take_add, ← hw, List.take_left]
    have hdecomp : res = res.take i ++ escapeHtml t ++
        res.drop (i + (escapeHtml t).length) := by
      rw [hdrop, List.append_assoc, hw]
      exact (List.take_append_drop i res).symm
    refine ⟨⟨res.take (i + (escapeHtml t).length),
      res.drop (i + (escapeHtml t).length), rfl⟩, ?_, ?_⟩
    · intro hforall
      exact absurd hdecomp (hforall _ _)
    · intro u v huv
      refine ⟨res.take i, res.drop (i + (escapeHtml t).length), hdecomp, ?_, ?_⟩
      · dsimp only
        rw [htake]
      · intro u3 v3 h3
        have hocc : escapeHtml t <+: res.drop u3.length := by
          rw [h3, List.append_assoc, drop_length_append]
          exact List.prefix_append _ _
        have hge : i ≤ u3.length := by
          by_contra hlt2
          push_neg at hlt2
          exact h2 u3.length hlt2 hocc
        calc (res.take i).length = i := List.length_take_of_le hlen
          _ ≤ u3.length := hge

/-- Witness for C6: comment 4 targets the text `x`, rendered HTML `ax`;
the theorem applies and produces the badge. -/
theorem C6_badge_insertion_witness :
    ∃ u v : Str,
      insertInlineBadge
        (⟨4, ⟨TargetType.inline, 1, some ['x'], none, none⟩, [], none, none⟩ :
          Comment) ['a', 'x'] =
      u ++ (' ' :: renderCommentBadge
        (⟨4, ⟨TargetType.inline, 1, some ['x'], none, none⟩, [], none,
          none⟩ : Comment)) ++ v :=
  (C6_badge_insertion _ ['a', 'x'] ['x'] rfl (by decide)).1

/-! ## C2: data-line round trip

Infrastructure for the amended C2 theorem.  `GoodP s` says the rendered
string `s` contains no `"d`/`"r` two-character substring and does not end
in a quote; since every diff/removed decoration class emitted by the
renderer contains `"d` or `"r` (`class="diff…`, `class="removed…`), and
quotes in clean output are always followed by a tag continuation, `GoodP`
is preserved by every append the renderer performs on the restricted
document class. -/

/-- No quote-then-`d` and no quote-then-`r` substring, and no trailing
quote. -/
def GoodP (s : Str) : Prop :=
  ¬ (['"', 'd'] <:+: s) ∧ ¬ (['"', 'r'] <:+: s) ∧ s.getLast? ≠ some '"'

instance (s : Str) : Decidable (GoodP s) := by
  unfold GoodP
  infer_instance

theorem infix_pair_cons {q x c : Char} {s : Str} (h : [q, x] <:+: c :: s) :
    (c = q ∧ s.head? = some x) ∨ [q, x] <:+: s := by
  rcases List.infix_cons_iff.mp h with hpre | hinf
  · obtain ⟨hc, hrest⟩ := List.cons_prefix_cons.mp hpre
    cases s with
    | nil => simp at hrest
    | cons d t =>
      obtain ⟨hd, _⟩ := List.cons_prefix_cons.mp hrest
      exact Or.inl ⟨hc.symm, by rw [← hd]; rfl⟩
  · exact Or.inr hinf

theorem infix_pair_append {q x : Char} {a b : Str} (h : [q, x] <:+: a ++ b) :
    [q, x] <:+: a ∨ [q, x] <:+: b ∨
      (a.getLast? = some q ∧ b.head? = some x) := by
  induction a with
  | nil => exact Or.inr (Or.inl (by simpa using h))
  | cons c a' ih =>
    rcases infix_pair_cons (by simpa using h) with ⟨hc, hh⟩ | hinf
    · cases a' with
      | nil =>
        subst hc
        exact Or.inr (Or.inr ⟨rfl, by simpa using hh⟩)
      | cons d t =>
        subst hc
        refine Or.inl ?_
        apply List.IsPrefix.isInfix
        refine List.cons_prefix_cons.mpr ⟨rfl, ?_⟩
        have : d = x := by simpa using hh
        subst this
        exact ⟨t, rfl⟩
    · rcases ih hinf with h1 | h2 | ⟨h3, h4⟩
      · exact Or.inl (h1.trans (List.suffix_cons c a').isInfix)
      · exact Or.inr (Or.inl h2)
      · refine Or.inr (Or.inr ⟨?_, h4⟩)
        cases a' with
        | nil => simp at h3
        | cons d t => simpa using h3

theorem getLast?_ne_nil_append {a b : Str} (hb : b ≠ []) :
    (a ++ b).getLast? = b.getLast? := by
  induction a with
  | nil => rfl
  | cons c a' ih =>
    cases hab : a' ++ b with
    | nil =>
      exact absurd (List.append_eq_nil.mp hab).2 hb
    | cons d t =>
      simp only [List.cons_append, hab, List.getLast?_cons_cons]
      rw [← hab, ih]

theorem GoodP_nil : GoodP [] := by
  refine ⟨?_, ?_, ?_⟩ <;> decide

theorem GoodP_append {a b : Str} (ha : GoodP a) (hb : GoodP b) :
    GoodP (a ++ b) := by
  refine ⟨?_, ?_, ?_⟩
  · intro h
    rcases infix_pair_append h with h1 | h2 | ⟨h3, _⟩
    · exact ha.1 h1
    · exact hb.1 h2
    · exact ha.2.2 h3
  · intro h
    rcases infix_pair_append h with h1 | h2 | ⟨h3, _⟩
    · exact ha.2.1 h1
    · exact hb.2.1 h2
    · exact ha.2.2 h3
  · cases hbe : b with
    | nil => subst hbe; simpa using ha.2.2
    | cons d t =>
      subst hbe
      rw [getLast?_ne_nil_append (a := a) (b := d :: t) (by simp)]
      exact hb.2.2

theorem GoodP_cons {c : Char} {s : Str} (hc : c ≠ '"') (hs : GoodP s) :
    GoodP (c :: s) := by
  refine ⟨?_, ?_, ?_⟩
  · intro h
    rcases infix_pair_cons h with ⟨h1, _⟩ | h2
    · exact hc h1
    · exact hs.1 h2
  · intro h
    rcases infix_pair_cons h with ⟨h1, _⟩ | h2
    · exact hc h1
    · exact hs.2.1 h2
  · cases hse : s with
    | nil => simpa using hc
    | cons d t =>
      rw [List.getLast?_cons_cons]
      rw [← hse]
      exact hs.2.2

theorem GoodP_of_cons {c : Char} {s : Str} (h : GoodP (c :: s)) : GoodP s := by
  refine ⟨?_, ?_, ?_⟩
  · intro hcon
    exact h.1 (hcon.trans (List.suffix_cons c s).isInfix)
  · intro hcon
    exact h.2.1 (hcon.trans (List.suffix_cons c s).isInfix)
  · cases hse : s with
    | nil => simp
    | cons d t =>
      subst hse
      have := h.2.2
      rw [List.getLast?_cons_cons] at this
      exact this

theorem GoodP_quote_cons {b : Str} {d : Char} (hh : b.head? = some d)
    (hd : d ≠ 'd') (hr : d ≠ 'r') (hb : GoodP b) : GoodP ('"' :: b) := by
  refine ⟨?_, ?_, ?_⟩
  · intro h
    rcases infix_pair_cons h with ⟨_, h1⟩ | h2
    · rw [hh] at h1
      exact hd (Option.some.inj h1)
    · exact hb.1 h2
  · intro h
    rcases infix_pair_cons h with ⟨_, h1⟩ | h2
    · rw [hh] at h1
      exact hr (Option.some.inj h1)
    · exact hb.2.1 h2
  · cases hse : b with
    | nil => rw [hse] at hh; cases hh
    | cons e t =>
      rw [List.getLast?_cons_cons]
      rw [← hse]
      exact hb.2.2

theorem mem_getLast? {s : Str} {c : Char} (h : s.getLast? = some c) :
    c ∈ s := by
  induction s with
  | nil => cases h
  | cons d t ih =>
    cases hte : t with
    | nil =>
      subst hte
      simp only [List.getLast?_singleton, Option.some.injEq] at h
      simp [h]
    | cons e u =>
      subst hte
      rw [List.getLast?_cons_cons] at h
      exact List.mem_cons_of_mem _ (ih h)

/-- A quote-free string is `GoodP`. -/
theorem GoodP_of_no_quote {s : Str} (h : '"' ∉ s) : GoodP s := by
  refine ⟨?_, ?_, ?_⟩
  · intro hcon
    exact h (hcon.subset (by simp))
  · intro hcon
    exact h (hcon.subset (by simp))
  · intro hcon
    exact h (mem_getLast? hcon)

/-! Character-membership lemmas for the inline pipeline: each stage only
emits characters of its input or of its fixed templates. -/

theorem replAll_mem {t : Char} {r s : Str} {c : Char}
    (h : c ∈ replAll t r s) : c ∈ r ∨ (c ∈ s ∧ c ≠ t) := by
  induction s with
  | nil => cases h
  | cons a as ih =>
    simp only [replAll, List.flatMap_cons] at h
    rcases List.mem_append.mp h with h1 | h2
    · by_cases hat : a = t
      · rw [if_pos hat] at h1
        exact Or.inl h1
      · rw [if_neg hat] at h1
        have : c = a := by simpa using h1
        subst this
        exact Or.inr ⟨List.mem_cons_self _ _, hat⟩
    · rcases ih h2 with h3 | ⟨h4, h5⟩
      · exact Or.inl h3
      · exact Or.inr ⟨List.mem_cons_of_mem _ h4, h5⟩

theorem escapeHtml_no_quote {s : Str} : '"' ∉ escapeHtml s := by
  intro h
  unfold escapeHtml at h
  rcases replAll_mem h with h1 | ⟨h2, _⟩
  · revert h1; decide
  · rcases replAll_mem h2 with h3 | ⟨_, h4⟩
    · revert h3; decide
    · exact h4 rfl

theorem escapeHtml_mem {s : Str} {c : Char} (h : c ∈ escapeHtml s) :
    c ∈ s ∨ c ∈ "&#039;&quot;&gt;&lt;&amp;".data := by
  unfold escapeHtml at h
  rcases replAll_mem h with h1 | ⟨h2, _⟩
  · exact Or.inr (List.Sublist.subset (by decide) h1)
  rcases replAll_mem h2 with h1 | ⟨h3, _⟩
  · exact Or.inr (List.Sublist.subset (by decide) h1)
  rcases replAll_mem h3 with h1 | ⟨h4, _⟩
  · exact Or.inr (List.Sublist.subset (by decide) h1)
  rcases replAll_mem h4 with h1 | ⟨h5, _⟩
  · exact Or.inr (List.Sublist.subset (by decide) h1)
  rcases replAll_mem h5 with h1 | ⟨h6, _⟩
  · exact Or.inr (List.Sublist.subset (by decide) h1)
  · exact Or.inl h6

theorem deleteMarkersF_mem {fuel : Nat} {s : Str} {c : Char}
    (h : c ∈ deleteMarkersF fuel s) : c ∈ s := by
  induction fuel generalizing s with
  | zero => simpa [deleteMarkersF] using h
  | succ f ih =>
    cases s with
    | nil => cases h
    | cons a as =>
      simp only [deleteMarkersF] at h
      cases hml : markerLen (a :: as) with
      | some k =>
        rw [hml] at h
        exact List.drop_subset _ _ (ih h)
      | none =>
        rw [hml] at h
        rcases List.mem_cons.mp h with h1 | h2
        · simp [h1]
        · exact List.mem_cons_of_mem _ (ih h2)

theorem lazyBody_mem {close l p r : Str} (h : lazyBody close l = some (p, r)) :
    (∀ c ∈ p, c ∈ l) ∧ (∀ c ∈ r, c ∈ l) := by
  induction l generalizing p r with
  | nil => cases h
  | cons a as ih =>
    simp only [lazyBody] at h
    by_cases han : a = '\n'
    · rw [if_pos han] at h
      cases h
    rw [if_neg han] at h
    by_cases hsw : sw close as = true
    · rw [if_pos hsw] at h
      simp only [Option.some.injEq, Prod.mk.injEq] at h
      obtain ⟨hp, hr⟩ := h
      subst hp
      subst hr
      refine ⟨?_, ?_⟩
      · intro c hc
        have hca : c = a := by simpa using hc
        simp [hca]
      · intro c hc
        exact List.mem_cons_of_mem _ (List.drop_subset _ _ hc)
    · rw [if_neg hsw] at h
      cases hrec : lazyBody close as with
      | none => rw [hrec] at h; cases h
      | some pr =>
        rw [hrec] at h
        simp only [Option.map_some', Option.some.injEq] at h
        obtain ⟨hp, hr⟩ := Prod.mk.injEq .. ▸ h
        obtain ⟨h1, h2⟩ := ih (p := pr.1) (r := pr.2) (by rw [hrec])
        subst hp
        refine ⟨?_, ?_⟩
        · intro c hc
          rcases List.mem_cons.mp hc with hc1 | hc2
          · simp [hc1]
          · exact List.mem_cons_of_mem _ (h1 c hc2)
        · intro c hc
          rw [← hr] at hc
          exact List.mem_cons_of_mem _ (h2 c hc)

theorem delimRep_mem {dO dC tO tC : Str} {fuel : Nat} {s : Str} {c : Char}
    (h : c ∈ delimRep dO dC tO tC fuel s) : c ∈ tO ∨ c ∈ tC ∨ c ∈ s := by
  induction fuel generalizing s with
  | zero => simp only [delimRep] at h; exact Or.inr (Or.inr h)
  | succ f ih =>
    cases s with
    | nil => cases h
    | cons a as =>
      simp only [delimRep] at h
      by_cases hsw : sw dO (a :: as) = true
      · rw [if_pos hsw] at h
        cases hlb : lazyBody dC ((a :: as).drop dO.length) with
        | some pr =>
          rw [hlb] at h
          obtain ⟨hb, hr⟩ := lazyBody_mem (p := pr.1) (r := pr.2)
            (by rw [hlb])
          simp only [List.append_assoc, List.mem_append] at h
          rcases h with h1 | h2 | h3 | h4
          · exact Or.inl h1
          · exact Or.inr (Or.inr (List.drop_subset _ _ (hb c h2)))
          · exact Or.inr (Or.inl h3)
          · rcases ih h4 with g1 | g2 | g3
            · exact Or.inl g1
            · exact Or.inr (Or.inl g2)
            · exact Or.inr (Or.inr (List.drop_subset _ _ (hr c g3)))
        | none =>
          rw [hlb] at h
          rcases List.mem_cons.mp h with h1 | h2
          · exact Or.inr (Or.inr (by simp [h1]))
          · rcases ih h2 with g1 | g2 | g3
            · exact Or.inl g1
            · exact Or.inr (Or.inl g2)
            · exact Or.inr (Or.inr (List.mem_cons_of_mem _ g3))
      · rw [if_neg hsw] at h
        rcases List.mem_cons.mp h with h1 | h2
        · exact Or.inr (Or.inr (by simp [h1]))
        · rcases ih h2 with g1 | g2 | g3
          · exact Or.inl g1
          · exact Or.inr (Or.inl g2)
          · exact Or.inr (Or.inr (List.mem_cons_of_mem _ g3))

theorem runUntil_mem {stop : Char} {l p r : Str}
    (h : runUntil stop l = some (p, r)) :
    (∀ c ∈ p, c ∈ l) ∧ (∀ c ∈ r, c ∈ l) := by
  unfold runUntil at h
  by_cases hc : l.takeWhile (fun c => c ≠ stop) ≠ [] ∧
      (l.drop (l.takeWhile (fun c => c ≠ stop)).length).head? = some stop
  · rw [if_pos hc] at h
    simp only [Option.some.injEq, Prod.mk.injEq] at h
    obtain ⟨hp, hr⟩ := h
    refine ⟨?_, ?_⟩
    · intro c hcm
      rw [← hp] at hcm
      exact (List.takeWhile_sublist _).subset hcm
    · intro c hcm
      rw [← hr] at hcm
      exact List.drop_subset _ _ hcm
  · rw [if_neg hc] at h
    cases h

theorem codeRep_mem {fuel : Nat} {s : Str} {c : Char}
    (h : c ∈ codeRep fuel s) : c ∈ s ∨ c ∈ "<code></code>".data := by
  induction fuel generalizing s with
  | zero => simp only [codeRep] at h; exact Or.inl h
  | succ f ih =>
    cases s with
    | nil => cases h
    | cons a as =>
      simp only [codeRep] at h
      by_cases ha : a = '`'
      · rw [if_pos ha] at h
        cases hru : runUntil '`' as with
        | some pr =>
          rw [hru] at h
          obtain ⟨hb, hr⟩ := runUntil_mem (p := pr.1) (r := pr.2) (by rw [hru])
          simp only [List.append_assoc, List.mem_append] at h
          rcases h with h1 | h2 | h3 | h4
          · exact Or.inr (List.Sublist.subset (by decide) h1)
          · exact Or.inl (List.mem_cons_of_mem _ (hb c h2))
          · exact Or.inr (List.Sublist.subset (by decide) h3)
          · rcases ih h4 with g1 | g2
            · exact Or.inl (List.mem_cons_of_mem _ (hr c g1))
            · exact Or.inr g2
        | none =>
          rw [hru] at h
          rcases List.mem_cons.mp h with h1 | h2
          · exact Or.inl (by simp [h1])
          · rcases ih h2 with g1 | g2
            · exact Or.inl (List.mem_cons_of_mem _ g1)
            · exact Or.inr g2
      · rw [if_neg ha] at h
        rcases List.mem_cons.mp h with h1 | h2
        · exact Or.inl (by simp [h1])
        · rcases ih h2 with g1 | g2
          · exact Or.inl (List.mem_cons_of_mem _ g1)
          · exact Or.inr g2

theorem linkRep_id {fuel : Nat} {s : Str} (h : '[' ∉ s) :
    linkRep fuel s = s := by
  induction fuel generalizing s with
  | zero => simp [linkRep]
  | succ f ih =>
    cases s with
    | nil => rfl
    | cons a as =>
      have ha : ¬ a = '[' := fun hc => h (by simp [hc])
      have has : '[' ∉ as := fun hc => h (List.mem_cons_of_mem _ hc)
      simp only [linkRep, if_neg ha]
      rw [ih has]

theorem mem_head? {s : Str} {c : Char} (h : s.head? = some c) : c ∈ s := by
  cases s with
  | nil => cases h
  | cons a as =>
    have : a = c := by simpa using h
    simp [this]

theorem imageRep_id {fuel : Nat} {s : Str} (h : '[' ∉ s) :
    imageRep fuel s = s := by
  induction fuel generalizing s with
  | zero => simp [imageRep]
  | succ f ih =>
    cases s with
    | nil => rfl
    | cons a as =>
      have has : '[' ∉ as := fun hc => h (List.mem_cons_of_mem _ hc)
      have hcond : ¬ (a = '!' ∧ as.head? = some '[') := by
        rintro ⟨_, hh⟩
        exact has (mem_head? hh)
      simp only [imageRep, if_neg hcond]
      rw [ih has]

theorem delimRep_not_mem {dO dC tO tC : Str} {fuel : Nat} {s : Str} {x : Char}
    (h1 : x ∉ tO) (h2 : x ∉ tC) (h3 : x ∉ s) :
    x ∉ delimRep dO dC tO tC fuel s := by
  intro h
  rcases delimRep_mem h with a | b | c
  exacts [h1 a, h2 b, h3 c]

theorem codeRep_not_mem {fuel : Nat} {s : Str} {x : Char}
    (h1 : x ∉ "<code></code>".data) (h2 : x ∉ s) : x ∉ codeRep fuel s := by
  intro h
  rcases codeRep_mem h with a | b
  exacts [h2 a, h1 b]

theorem GoodP_wrapPiece {t : Str} (h : '"' ∉ t) : GoodP (wrapPiece t) := by
  unfold wrapPiece
  by_cases ht : jsTrim t ≠ []
  · rw [if_pos ht]
    exact GoodP_append (GoodP_append (by decide) (GoodP_of_no_quote h))
      (by decide)
  · rw [if_neg ht]
    exact GoodP_of_no_quote h

theorem GoodP_wrapSegsF {fuel : Nat} {acc s : Str} (hacc : '"' ∉ acc)
    (hs : '"' ∉ s) : GoodP (wrapSegsF fuel acc s) := by
  induction fuel generalizing acc s with
  | zero =>
    simp only [wrapSegsF]
    exact GoodP_wrapPiece (by
      intro h
      rcases List.mem_append.mp h with h1 | h2
      exacts [hacc h1, hs h2])
  | succ f ih =>
    cases s with
    | nil => exact GoodP_wrapPiece hacc
    | cons c cs =>
      have hc : c ≠ '"' := fun hcq => hs (by simp [hcq])
      have hcs : '"' ∉ cs := fun hcq => hs (List.mem_cons_of_mem _ hcq)
      simp only [wrapSegsF]
      by_cases hlt : c = '<'
      · rw [if_pos hlt]
        cases hru : runUntil '>' cs with
        | some pr =>
          obtain ⟨hb, hr⟩ := runUntil_mem (p := pr.1) (r := pr.2) (by rw [hru])
          refine GoodP_append (GoodP_append (GoodP_wrapPiece hacc) ?_)
            (ih (by simp) (fun hq => hcs (hr _ hq)))
          refine GoodP_of_no_quote ?_
          intro hq
          rcases List.mem_cons.mp hq with h1 | h2
          · cases h1
          rcases List.mem_append.mp h2 with h3 | h4
          · exact hcs (hb _ h3)
          · simpa using h4
        | none =>
          refine ih ?_ hcs
          intro hq
          rcases List.mem_append.mp hq with h1 | h2
          · exact hacc h1
          · have hqc : '"' = c := by simpa using h2
            exact hc hqc.symm
      · rw [if_neg hlt]
        refine ih ?_ hcs
        intro hq
        rcases List.mem_append.mp hq with h1 | h2
        · exact hacc h1
        · have hqc : '"' = c := by simpa using h2
          exact hc hqc.symm

theorem GoodP_wrapPlain {h : Str} (hq : '"' ∉ h) :
    GoodP (wrapPlainTextSegments h) := by
  unfold wrapPlainTextSegments
  by_cases ht : hasTagScan h = false
  · rw [if_pos ht]
    by_cases htr : jsTrim h ≠ []
    · rw [if_pos htr]
      exact GoodP_append (GoodP_append (by decide) (GoodP_of_no_quote hq))
        (by decide)
    · rw [if_neg htr]
      exact GoodP_of_no_quote hq
  · rw [if_neg ht]
    exact GoodP_wrapSegsF (by simp) hq

/-- `parseInlineCore` output on bracket-free input is `GoodP`: the only
quotes it emits are those of `class="plain-text"` spans. -/
theorem parseInlineCore_good (text : Str) (hbr : '[' ∉ text) :
    GoodP (parseInlineCore text) := by
  unfold parseInlineCore
  have p0 : '"' ∉ escapeHtml (deleteMarkers text) ∧
      '[' ∉ escapeHtml (deleteMarkers text) := by
    refine ⟨escapeHtml_no_quote, ?_⟩
    intro hc
    rcases escapeHtml_mem hc with h1 | h2
    · exact hbr (deleteMarkersF_mem h1)
    · revert h2; decide
  dsimp only
  refine GoodP_wrapPlain ?_
  set s0 := escapeHtml (deleteMarkers text) with hs0
  set s1 := delimRep "**".data "**".data "<strong>".data "</strong>".data
    s0.length s0 with hs1
  set s2 := delimRep "__".data "__".data "<strong>".data "</strong>".data
    s1.length s1 with hs2
  set s3 := delimRep "*".data "*".data "<em>".data "</em>".data s2.length s2
    with hs3
  set s4 := delimRep "_".data "_".data "<em>".data "</em>".data s3.length s3
    with hs4
  set s5 := delimRep "~~".data "~~".data "<del>".data "</del>".data s4.length
    s4 with hs5
  set s6 := codeRep s5.length s5 with hs6
  set s7 := linkRep s6.length s6 with hs7
  set s8 := imageRep s7.length s7 with hs8
  have p1 : '"' ∉ s1 ∧ '[' ∉ s1 := by
    rw [hs1]
    exact ⟨delimRep_not_mem (by decide) (by decide) p0.1,
      delimRep_not_mem (by decide) (by decide) p0.2⟩
  have p2 : '"' ∉ s2 ∧ '[' ∉ s2 := by
    rw [hs2]
    exact ⟨delimRep_not_mem (by decide) (by decide) p1.1,
      delimRep_not_mem (by decide) (by decide) p1.2⟩
  have p3 : '"' ∉ s3 ∧ '[' ∉ s3 := by
    rw [hs3]
    exact ⟨delimRep_not_mem (by decide) (by decide) p2.1,
      delimRep_not_mem (by decide) (by decide) p2.2⟩
  have p4 : '"' ∉ s4 ∧ '[' ∉ s4 := by
    rw [hs4]
    exact ⟨delimRep_not_mem (by decide) (by decide) p3.1,
      delimRep_not_mem (by decide) (by decide) p3.2⟩
  have p5 : '"' ∉ s5 ∧ '[' ∉ s5 := by
    rw [hs5]
    exact ⟨delimRep_not_mem (by decide) (by decide) p4.1,
      delimRep_not_mem (by decide) (by decide) p4.2⟩
  have p6 : '"' ∉ s6 ∧ '[' ∉ s6 := by
    rw [hs6]
    exact ⟨codeRep_not_mem (by decide) p5.1, codeRep_not_mem (by decide) p5.2⟩
  have h7 : s7 = s6 := by rw [hs7, linkRep_id p6.2]
  have h8 : s8 = s6 := by rw [hs8, h7, imageRep_id p6.2]
  rw [h8]
  exact p6.1

theorem natToStrAux_mem_digits {fuel n : Nat} :
    ∀ c ∈ natToStrAux fuel n, c ∈ "0123456789".data := by
  induction fuel generalizing n with
  | zero => intro c hc; cases hc
  | succ f ih =>
    intro c hc
    simp only [natToStrAux] at hc
    by_cases hn : n < 10
    · rw [if_pos hn] at hc
      have : c = Char.ofNat (48 + n) := by simpa using hc
      subst this
      interval_cases n <;> decide
    · rw [if_neg hn] at hc
      rcases List.mem_append.mp hc with h1 | h2
      · exact ih _ h1
      · have : c = Char.ofNat (48 + n % 10) := by simpa using h2
        subst this
        have h10 : n % 10 < 10 := Nat.mod_lt _ (by omega)
        interval_cases h : n % 10 <;> decide

theorem natToStr_mem_digits {n : Nat} :
    ∀ c ∈ natToStr n, c ∈ "0123456789".data :=
  natToStrAux_mem_digits

theorem natToStr_no_quote {n : Nat} : '"' ∉ natToStr n := by
  intro h
  have := natToStr_mem_digits _ h
  revert this
  decide

theorem natToStr_ne_nil (n : Nat) : natToStr n ≠ [] := by
  unfold natToStr natToStrAux
  by_cases hn : n < 10
  · simp [hn]
  · simp [hn]

theorem head?_append_of_ne_nil {a b : Str} (ha : a ≠ []) :
    (a ++ b).head? = a.head? := by
  cases a with
  | nil => exact absurd rfl ha
  | cons c cs => rfl

/-- The `data-line` pattern the C2 claim asks for. -/
def dlPat (n : Nat) : Str :=
  "data-line=\"".data ++ natToStr n ++ "\"".data

/-- A ` data-line="N"` insertion followed by a `>`-headed good tail is
good. -/
theorem GoodP_dl_piece (n : Nat) (tail : Str) (htail : GoodP tail)
    (hh : tail.head? = some '>') :
    GoodP (" data-line=\"".data ++ natToStr n ++ "\"".data ++ tail) := by
  obtain ⟨d, td, hd⟩ : ∃ d t, natToStr n = d :: t := by
    cases hne : natToStr n with
    | nil => exact absurd hne (natToStr_ne_nil n)
    | cons d t => exact ⟨d, t, rfl⟩
  have hdmem : d ∈ "0123456789".data :=
    natToStr_mem_digits d (by rw [hd]; exact List.mem_cons_self _ _)
  have hQT : GoodP ('"' :: tail) :=
    GoodP_quote_cons hh (by decide) (by decide) htail
  have hNum : GoodP (natToStr n ++ '"' :: tail) :=
    GoodP_append (GoodP_of_no_quote natToStr_no_quote) hQT
  have hheadN : (natToStr n ++ '"' :: tail).head? = some d := by
    rw [head?_append_of_ne_nil (natToStr_ne_nil n), hd]
    rfl
  have hQN : GoodP ('"' :: (natToStr n ++ '"' :: tail)) :=
    GoodP_quote_cons hheadN
      (ne_of_mem_of_not_mem hdmem (by decide))
      (ne_of_mem_of_not_mem hdmem (by decide)) hNum
  have hAll : GoodP (" data-line=".data ++ '"' :: (natToStr n ++ '"' :: tail)) :=
    GoodP_append (by decide) hQN
  have heq : " data-line=\"".data ++ natToStr n ++ "\"".data ++ tail =
      " data-line=".data ++ '"' :: (natToStr n ++ '"' :: tail) := by
    simp only [show (" data-line=\"".data : Str) =
        " data-line=".data ++ ['"'] from by decide,
      show ("\"".data : Str) = ['"'] from by decide, List.append_assoc,
      List.singleton_append]
    rfl
  rw [heq]
  exact hAll

/-- The pattern sits inside the insertion. -/
theorem dlPat_infix_dl (n : Nat) {a tail : Str} :
    dlPat n <:+: a ++ (" data-line=\"".data ++ natToStr n ++ "\"".data ++
      tail) := by
  refine ⟨a ++ [' '], tail, ?_⟩
  simp [dlPat]

theorem takeWhile_all_append {p : Char → Bool} {a l : Str}
    (h : ∀ c ∈ a, p c = true) :
    (a ++ l).takeWhile p = a ++ l.takeWhile p := by
  induction a with
  | nil => rfl
  | cons c cs ih =>
    have hc : p c = true := h c (by simp)
    simp only [List.cons_append, List.takeWhile_cons, hc, if_true]
    rw [ih (fun x hx => h x (List.mem_cons_of_mem _ hx))]

/-- `injectDataLine` on a well-formed opening tag. -/
theorem injectDataLine_spec (tagw rest : Str) (n : Nat) (hne : tagw ≠ [])
    (hw : ∀ c ∈ tagw, isWordCh c = true) :
    injectDataLine ('<' :: (tagw ++ '>' :: rest)) n =
      '<' :: (tagw ++ (" data-line=\"".data ++ natToStr n ++ "\"".data ++
        '>' :: rest)) := by
  unfold injectDataLine
  dsimp only
  rw [if_pos rfl]
  have htw : (tagw ++ '>' :: rest).takeWhile isWordCh = tagw := by
    rw [takeWhile_all_append hw]
    simp [List.takeWhile_cons, show isWordCh '>' = false from rfl]
  rw [htw, if_pos hne, drop_length_append]
  simp

/-- A standard block chunk `<tag>inner</…>` after data-line injection is
good and carries the pattern. -/
theorem block_chunk_facts (tagw inner close : Str) (n : Nat)
    (hne : tagw ≠ []) (hw : ∀ c ∈ tagw, isWordCh c = true)
    (htq : '"' ∉ tagw) (hinner : GoodP inner) (hclose : GoodP close)
    (hclose_ne : close ≠ []) (hclose_h : close.head? ≠ some '"') :
    GoodP (injectDataLine ('<' :: (tagw ++ '>' :: (inner ++ close))) n) ∧
    dlPat n <:+: injectDataLine ('<' :: (tagw ++ '>' :: (inner ++ close))) n := by
  rw [injectDataLine_spec tagw (inner ++ close) n hne hw]
  constructor
  · refine GoodP_cons (by decide) ?_
    refine GoodP_append (GoodP_of_no_quote htq) ?_
    refine GoodP_dl_piece n _ ?_ rfl
    exact GoodP_cons (by decide) (GoodP_append hinner hclose)
  · refine ⟨'<' :: tagw ++ [' '], '>' :: (inner ++ close), ?_⟩
    simp only [dlPat, List.append_assoc, List.cons_append]
    rfl

theorem infix_append_l {l b : Str} (a : Str) (h : l <:+: b) : l <:+: a ++ b := by
  obtain ⟨u, v, huv⟩ := h
  exact ⟨a ++ u, v, by rw [← huv]; simp [List.append_assoc]⟩

theorem infix_append_r {l a : Str} (b : Str) (h : l <:+: a) : l <:+: a ++ b := by
  obtain ⟨u, v, huv⟩ := h
  exact ⟨u, v ++ b, by rw [← huv]; simp [List.append_assoc]⟩

theorem jsTrim_sub {s : Str} : ∀ c ∈ jsTrim s, c ∈ s := by
  intro c hc
  unfold jsTrim at hc
  rw [List.mem_reverse] at hc
  have h1 := (List.dropWhile_sublist (l := (s.dropWhile isWs).reverse)
    (p := isWs)).subset hc
  rw [List.mem_reverse] at h1
  exact (List.dropWhile_sublist (l := s) (p := isWs)).subset h1

theorem takeDigits_append (l : Str) :
    (takeDigits l).1 ++ (takeDigits l).2 = l := by
  induction l with
  | nil => rfl
  | cons c cs ih =>
    simp only [takeDigits]
    by_cases hc : isDigitCh c = true
    · rw [if_pos hc]
      simpa using ih
    · rw [if_neg hc]
      rfl

theorem takeDigits_snd_sub {l : Str} : ∀ c ∈ (takeDigits l).2, c ∈ l := by
  intro c hc
  rw [← takeDigits_append l]
  exact List.mem_append_right _ hc

theorem markerAt_rest_sub {l : Str} {v : Nat} {r : Str}
    (h : markerAt l = some (v, r)) : ∀ c ∈ r, c ∈ l := by
  unfold markerAt at h
  by_cases hsw : sw "<!--comment:".data l = true
  · rw [if_pos hsw] at h
    rcases htd : takeDigits (l.drop 12) with ⟨d0, r0⟩
    rw [htd] at h
    dsimp only at h
    by_cases hcond : d0 ≠ [] ∧ sw "-->".data r0 = true
    · rw [if_pos hcond] at h
      simp only [Option.some.injEq, Prod.mk.injEq] at h
      intro c hc
      rw [← h.2] at hc
      have hr0 : c ∈ r0 := List.drop_subset _ _ hc
      have : c ∈ (takeDigits (l.drop 12)).2 := by rw [htd]; exact hr0
      exact List.drop_subset _ _ (takeDigits_snd_sub _ this)
    · rw [if_neg hcond] at h
      cases h
  · rw [if_neg hsw] at h
    cases h

theorem stripLeadingMarker_sub {l : Str} :
    ∀ c ∈ stripLeadingMarker l, c ∈ l := by
  intro c hc
  unfold stripLeadingMarker at hc
  cases hma : markerAt l with
  | none => rw [hma] at hc; exact hc
  | some vr =>
    rw [hma] at hc
    exact markerAt_rest_sub (v := vr.1) (r := vr.2) (by rw [hma]) c
      ((List.dropWhile_sublist _).subset hc)

theorem headerMatchLine_sub {l : Str} {lv : Nat} {c : Str}
    (h : headerMatchLine l = some (lv, c)) : ∀ x ∈ c, x ∈ l := by
  unfold headerMatchLine at h
  by_cases h1 : 1 ≤ (l.takeWhile (fun c => c = '#')).length ∧
      (l.takeWhile (fun c => c = '#')).length ≤ 6
  · rw [if_pos h1] at h
    dsimp only at h
    by_cases h2 : ((l.drop (l.takeWhile (fun c => c = '#')).length).takeWhile
        isWs).length ≥ 1 ∧
        (l.drop (l.takeWhile (fun c => c = '#')).length).length ≥ 2
    · rw [if_pos h2] at h
      simp only [Option.some.injEq, Prod.mk.injEq] at h
      intro x hx
      rw [← h.2] at hx
      exact List.drop_subset _ _ (List.drop_subset _ _ hx)
    · rw [if_neg h2] at h
      cases h
  · rw [if_neg h1] at h
    cases h

theorem ulMatchLine_sub {l : Str} {ind : Nat} {c : Str}
    (h : ulMatchLine l = some (ind, c)) : ∀ x ∈ c, x ∈ l := by
  unfold ulMatchLine at h
  dsimp only at h
  cases hdr : l.drop (l.takeWhile isWs).length with
  | nil => rw [hdr] at h; cases h
  | cons a r2 =>
    rw [hdr] at h
    dsimp only at h
    by_cases h1 : a = '-' ∨ a = '*' ∨ a = '+'
    · rw [if_pos h1] at h
      by_cases h2 : (r2.takeWhile isWs).length ≥ 1 ∧ r2.length ≥ 2
      · rw [if_pos h2] at h
        simp only [Option.some.injEq, Prod.mk.injEq] at h
        intro x hx
        rw [← h.2] at hx
        have hx2 : x ∈ a :: r2 :=
          List.mem_cons_of_mem _ (List.drop_subset _ _ hx)
        rw [← hdr] at hx2
        exact List.drop_subset _ _ hx2
      · rw [if_neg h2] at h; cases h
    · rw [if_neg h1] at h; cases h

theorem olMatchLine_sub {l : Str} {ind : Nat} {c : Str}
    (h : olMatchLine l = some (ind, c)) : ∀ x ∈ c, x ∈ l := by
  unfold olMatchLine at h
  dsimp only at h
  rcases htd : takeDigits (l.drop (l.takeWhile isWs).length) with ⟨d0, r1⟩
  rw [htd] at h
  dsimp only at h
  by_cases hd : d0 ≠ []
  · rw [if_pos hd] at h
    cases hr1 : r1 with
    | nil => rw [hr1] at h; cases h
    | cons a r2 =>
      rw [hr1] at h
      dsimp only at h
      by_cases ha : a = '.'
      · rw [if_pos ha] at h
        by_cases h2 : (r2.takeWhile isWs).length ≥ 1 ∧ r2.length ≥ 2
        · rw [if_pos h2] at h
          simp only [Option.some.injEq, Prod.mk.injEq] at h
          intro x hx
          rw [← h.2] at hx
          have hx2 : x ∈ a :: r2 :=
            List.mem_cons_of_mem _ (List.drop_subset _ _ hx)
          rw [← hr1] at hx2
          have hx3 : x ∈ (takeDigits (l.drop (l.takeWhile isWs).length)).2 := by
            rw [htd]; exact hx2
          exact List.drop_subset _ _ (takeDigits_snd_sub _ hx3)
        · rw [if_neg h2] at h; cases h
      · rw [if_neg ha] at h; cases h
  · rw [if_neg hd] at h; cases h

/-! Restricted-mode reductions: with no comments object, an empty added
set and an empty removed map, the diff/comment wrappers are inert. -/

theorem wrapWithComments_none {P : RParams} (hPc : P.comments = none)
    (content : Str) (n : Nat) (b : Bool) (ctx : RCtx) :
    wrapWithComments P content n b ctx = (content, ctx) := by
  unfold wrapWithComments
  rw [hPc]

theorem processInlineComments_none {P : RParams} (hPc : P.comments = none)
    (html line : Str) (n : Nat) (ctx : RCtx) :
    processInlineComments P html line n ctx = (html, ctx) := by
  unfold processInlineComments
  rw [hPc]

theorem parseInline_none {P : RParams} (hPc : P.comments = none)
    (text : Str) (orig : Option (Str × Nat)) (ctx : RCtx) :
    parseInline P text orig ctx = (parseInlineCore text, ctx) := by
  unfold parseInline
  cases orig with
  | none => rfl
  | some p =>
    obtain ⟨line, n⟩ := p
    dsimp only
    rw [processInlineComments_none hPc]

theorem wrapWithDiff_plain {P : RParams} (hPc : P.comments = none)
    (hPa : P.addedLines = ∅) (hPr : P.removedLines = [])
    (content : Str) (n : Nat) (ctx : RCtx) :
    wrapWithDiff P content n true ctx = (injectDataLine content n, ctx) := by
  unfold wrapWithDiff
  rw [wrapWithComments_none hPc, hPa, hPr]
  simp [mapGet]

theorem flushTable_noop {P : RParams} {st : RState}
    (h : st.tableRows = []) : flushTable P st = st := by
  unfold flushTable
  rw [if_neg]
  rintro ⟨_, hcon⟩
  exact hcon h

/-! The list flush on indent-0 items. -/

theorem buildLoop_zero {P : RParams} (hPa : P.addedLines = ∅)
    (hPr : P.removedLines = []) (items : List LItem)
    (hind : ∀ it ∈ items, it.indent = 0)
    (hgood : ∀ it ∈ items, GoodP it.content) :
    ∀ fuel i tag, items.length - i < fuel →
      GoodP (buildLoop P items fuel i 0 tag).1 ∧
      (∀ j, i ≤ j → j < items.length →
        dlPat (items.getD j ⟨[], 0, 0, .ul⟩).lineNumber <:+:
          (buildLoop P items fuel i 0 tag).1) := by
  intro fuel
  induction fuel with
  | zero => intro i tag hf; omega
  | succ f ih =>
    intro i tag hf
    by_cases hi : i < items.length
    · have hmem : items.getD i ⟨[], 0, 0, .ul⟩ ∈ items := by
        rw [List.getD_eq_getElem _ _ hi]
        exact List.getElem_mem _
      have hind_i : (items.getD i ⟨[], 0, 0, .ul⟩).indent = 0 := hind _ hmem
      have hgood_i : GoodP (items.getD i ⟨[], 0, 0, .ul⟩).content :=
        hgood _ hmem
      have hlook : ¬ (i + 1 < items.length ∧
          (items.getD (i + 1) ⟨[], 0, 0, .ul⟩).indent > 0) := by
        rintro ⟨hlt, hgt⟩
        have h0 : (items.getD (i + 1) ⟨[], 0, 0, .ul⟩).indent = 0 := by
          apply hind
          rw [List.getD_eq_getElem _ _ hlt]
          exact List.getElem_mem _
        omega
      have hstep : buildLoop P items (f + 1) i 0 tag =
          ("<li".data ++ [] ++ " data-line=\"".data ++
            natToStr (items.getD i ⟨[], 0, 0, .ul⟩).lineNumber ++
            "\">".data ++ (items.getD i ⟨[], 0, 0, .ul⟩).content ++
            "</li>".data ++ (buildLoop P items f (i + 1) 0 tag).1,
            (buildLoop P items f (i + 1) 0 tag).2) := by
        simp only [buildLoop]
        rw [if_pos hi, if_neg (by omega : ¬ (items.getD i ⟨[], 0, 0, .ul⟩).indent < 0)]
        rw [if_pos hind_i, if_neg hlook, hPr, hPa]
        simp [mapGet, List.append_assoc]
      obtain ⟨ihg, ihd⟩ := ih (i + 1) tag (by omega)
      rw [hstep]
      have heq : "<li".data ++ [] ++ " data-line=\"".data ++
          natToStr (items.getD i ⟨[], 0, 0, .ul⟩).lineNumber ++
          "\">".data ++ (items.getD i ⟨[], 0, 0, .ul⟩).content ++
          "</li>".data ++ (buildLoop P items f (i + 1) 0 tag).1 =
          "<li ".data ++ (dlPat (items.getD i ⟨[], 0, 0, .ul⟩).lineNumber ++
            '>' :: ((items.getD i ⟨[], 0, 0, .ul⟩).content ++
              ("</li>".data ++ (buildLoop P items f (i + 1) 0 tag).1))) := by
        simp only [dlPat,
          show ("<li".data : Str) = ['<', 'l', 'i'] from by decide,
          show ("<li ".data : Str) = ['<', 'l', 'i', ' '] from by decide,
          show (" data-line=\"".data : Str) =
            [' ', 'd', 'a', 't', 'a', '-', 'l', 'i', 'n', 'e', '=', '"']
            from by decide,
          show ("data-line=\"".data : Str) =
            ['d', 'a', 't', 'a', '-', 'l', 'i', 'n', 'e', '=', '"']
            from by decide,
          show ("\">".data : Str) = ['"', '>'] from by decide,
          show ("\"".data : Str) = ['"'] from by decide,
          List.append_assoc, List.append_nil, List.nil_append,
          List.cons_append, List.singleton_append]
      rw [heq]
      constructor
      · dsimp only
        refine GoodP_append (by decide) ?_
        have heq2 : dlPat (items.getD i ⟨[], 0, 0, .ul⟩).lineNumber ++
            '>' :: ((items.getD i ⟨[], 0, 0, .ul⟩).content ++
              ("</li>".data ++ (buildLoop P items f (i + 1) 0 tag).1)) =
            "data-line=\"".data ++
              natToStr (items.getD i ⟨[], 0, 0, .ul⟩).lineNumber ++
              "\"".data ++
              ('>' :: ((items.getD i ⟨[], 0, 0, .ul⟩).content ++
                ("</li>".data ++ (buildLoop P items f (i + 1) 0 tag).1))) := by
          simp only [dlPat, List.append_assoc]
        rw [heq2]
        have hg3 : GoodP ('>' :: ((items.getD i ⟨[], 0, 0, .ul⟩).content ++
            ("</li>".data ++ (buildLoop P items f (i + 1) 0 tag).1))) :=
          GoodP_cons (by decide)
            (GoodP_append hgood_i (GoodP_append (by decide) ihg))
        have := GoodP_dl_piece (items.getD i ⟨[], 0, 0, .ul⟩).lineNumber _
          hg3 rfl
        have heq3 : " data-line=\"".data ++
            natToStr (items.getD i ⟨[], 0, 0, .ul⟩).lineNumber ++
            "\"".data ++
            ('>' :: ((items.getD i ⟨[], 0, 0, .ul⟩).content ++
              ("</li>".data ++ (buildLoop P items f (i + 1) 0 tag).1))) =
            ' ' :: ("data-line=\"".data ++
              natToStr (items.getD i ⟨[], 0, 0, .ul⟩).lineNumber ++
              "\"".data ++
              ('>' :: ((items.getD i ⟨[], 0, 0, .ul⟩).content ++
                ("</li>".data ++ (buildLoop P items f (i + 1) 0 tag).1)))) := by
          simp only [show (" data-line=\"".data : Str) =
              ' ' :: "data-line=\"".data from by decide, List.cons_append,
            List.append_assoc]
        rw [heq3] at this
        exact GoodP_of_cons this
      · intro j hij hj
        by_cases hji : j = i
        · subst hji
          dsimp only
          exact ⟨"<li ".data,
            '>' :: ((items.getD j ⟨[], 0, 0, .ul⟩).content ++
              ("</li>".data ++ (buildLoop P items f (j + 1) 0 tag).1)), rfl⟩
        · have hold := ihd j (by omega) hj
          dsimp only
          exact infix_append_l _ (infix_append_l _ (infix_append_l ['>']
            (infix_append_l _ (infix_append_l _ hold))))
    · have hstep : buildLoop P items (f + 1) i 0 tag = ([], i) := by
        simp only [buildLoop]
        rw [if_neg hi]
      rw [hstep]
      exact ⟨GoodP_nil, fun j hij hj => absurd (by omega : i < items.length) hi⟩

theorem tagStr_no_quote (t : LTag) : '"' ∉ tagStr t := by
  cases t <;> decide

theorem flushList_spec (P : RParams) (st : RState)
    (hPa : P.addedLines = ∅) (hPr : P.removedLines = [])
    (hind : ∀ it ∈ st.listItems, it.indent = 0)
    (hgood : ∀ it ∈ st.listItems, GoodP it.content)
    (hIL : st.listItems ≠ [] → st.inList = true) :
    ∃ L b, flushList P st = { st with
        html := st.html ++ L
        listItems := []
        inList := b } ∧ GoodP L ∧
      ∀ it ∈ st.listItems, dlPat it.lineNumber <:+: L := by
  by_cases hcase : st.inList = true ∧ st.listItems ≠ []
  · have hlen : 0 < st.listItems.length := by
      cases hli : st.listItems with
      | nil => exact absurd hli hcase.2
      | cons a l => simp [hli]
    have hhead0 : (st.listItems.headD ⟨[], 0, 0, .ul⟩).indent = 0 := by
      apply hind
      cases hli : st.listItems with
      | nil => exact absurd hli hcase.2
      | cons a l => simp [hli]
    obtain ⟨hbg, hbd⟩ := buildLoop_zero hPa hPr st.listItems hind hgood
      (3 * st.listItems.length + 3) 0
      (st.listItems.getD 0 ⟨[], 0, 0, .ul⟩).type (by omega)
    have hfuel : 3 * st.listItems.length + 4 = (3 * st.listItems.length + 3) + 1 := rfl
    have hnested : buildNested P st.listItems (3 * st.listItems.length + 4) 0
        (st.listItems.headD ⟨[], 0, 0, .ul⟩).indent =
        ('<' :: (tagStr (st.listItems.getD 0 ⟨[], 0, 0, .ul⟩).type ++
          ">".data) ++
          (buildLoop P st.listItems (3 * st.listItems.length + 3) 0 0
            (st.listItems.getD 0 ⟨[], 0, 0, .ul⟩).type).1 ++
          "</".data ++ tagStr (st.listItems.getD 0 ⟨[], 0, 0, .ul⟩).type ++
          ">".data,
          (buildLoop P st.listItems (3 * st.listItems.length + 3) 0 0
            (st.listItems.getD 0 ⟨[], 0, 0, .ul⟩).type).2) := by
      rw [hfuel, hhead0]
      simp only [buildNested]
      rw [if_pos hlen]
    refine ⟨'<' :: (tagStr (st.listItems.getD 0 ⟨[], 0, 0, .ul⟩).type ++
        ">".data) ++
        (buildLoop P st.listItems (3 * st.listItems.length + 3) 0 0
          (st.listItems.getD 0 ⟨[], 0, 0, .ul⟩).type).1 ++
        "</".data ++ tagStr (st.listItems.getD 0 ⟨[], 0, 0, .ul⟩).type ++
        ">".data, false, ?_, ?_, ?_⟩
    · unfold flushList
      rw [if_pos hcase]
      dsimp only
      rw [hnested]
    · refine GoodP_cons (by decide) ?_
      have hA : GoodP (tagStr
          (st.listItems.getD 0 ⟨[], 0, 0, .ul⟩).type ++ ">".data) :=
        GoodP_append (GoodP_of_no_quote (tagStr_no_quote _)) (by decide)
      exact GoodP_append (GoodP_append (GoodP_append
        (GoodP_append hA hbg) (by decide))
        (GoodP_of_no_quote (tagStr_no_quote _))) (by decide)
    · intro it hit
      obtain ⟨j, hj, hjit⟩ := List.getElem_of_mem hit
      have hdl := hbd j (by omega) hj
      rw [List.getD_eq_getElem _ _ hj, hjit] at hdl
      exact infix_append_l ['<'] (infix_append_r _ (infix_append_r _
        (infix_append_r _ (infix_append_l _ hdl))))
  · refine ⟨[], st.inList, ?_, GoodP_nil, ?_⟩
    · have h0 : st.listItems = [] := by
        by_cases him : st.listItems = []
        · exact him
        · exact absurd ⟨hIL him, him⟩ hcase
      unfold flushList
      rw [if_neg hcase]
      cases st
      dsimp only at h0
      simp [h0]
    · intro it hit
      have h0 : st.listItems = [] := by
        by_cases him : st.listItems = []
        · exact him
        · exact absurd ⟨hIL him, him⟩ hcase
      rw [h0] at hit
      cases hit

/-- The restricted document class of the amended C2: no ledger text, no
HTML-comment lines, no code fences, no table rows, no link/image
brackets, and no leading whitespace on non-blank lines. -/
def DocLine (l : Str) : Prop :=
  containsSub l "COMMENTS-DATA".data = false ∧
  sw "<!--".data (jsTrim l) = false ∧
  sw "```".data l = false ∧
  isTableRow l = false ∧
  '[' ∉ l ∧
  (jsTrim l = [] ∨ l.takeWhile isWs = [])

/-- Non-blank, non-horizontal-rule line `j` (0-indexed). -/
def NB (lines : List Str) (j : Nat) : Prop :=
  jsTrim (lines.getD j []) ≠ [] ∧ hrTest (jsTrim (lines.getD j [])) = false

/-- The render-loop invariant for the restricted class: flags stay off,
the accumulated html is `GoodP`, pending list items are indent-0 with
good content, and every processed non-blank non-hr line has its
`data-line` pattern in the html or pending in the item list. -/
def RInv (lines : List Str) (i : Nat) (st : RState) : Prop :=
  st.inCDB = false ∧ st.inCodeBlock = false ∧ st.inTable = false ∧
  st.tableRows = [] ∧ st.ctx.threads = [] ∧ GoodP st.html ∧
  (st.listItems ≠ [] → st.inList = true) ∧
  (∀ it ∈ st.listItems, it.indent = 0 ∧ GoodP it.content) ∧
  (∀ j, j < i → NB lines j →
    dlPat (j + 1) <:+: st.html ∨ ∃ it ∈ st.listItems, it.lineNumber = j + 1)

theorem sw_mono {p q t : Str} (h : sw p t = true) (hq : q <+: p) :
    sw q t = true := by
  unfold sw at h ⊢
  exact List.isPrefixOf_iff_prefix.mpr
    (hq.trans (List.isPrefixOf_iff_prefix.mp h))

theorem fullMarker_none_of_not_sw {t : Str}
    (h : sw "<!--".data t = false) : fullMarker t = none := by
  unfold fullMarker markerAt
  rw [if_neg]
  intro hcon
  rw [sw_mono hcon (by decide)] at h
  cases h

theorem dropWhile_eq_self_of_head {p : Char → Bool} {l : Str}
    (h : ∀ c, l.head? = some c → p c = false) : l.dropWhile p = l := by
  cases l with
  | nil => rfl
  | cons c cs =>
    rw [List.dropWhile_cons, if_neg]
    rw [h c rfl]
    simp

theorem sw_trim_of_sw {p l : Str} (hws : l.takeWhile isWs = [])
    (hp : ∀ c ∈ p, isWs c = false) (h : sw p l = true) :
    sw p (jsTrim l) = true := by
  have hdw : l.dropWhile isWs = l := by
    apply dropWhile_eq_self_of_head
    intro c hc
    cases l with
    | nil => cases hc
    | cons a as =>
      have hca : a = c := by simpa using hc
      rw [← hca]
      by_cases hws2 : isWs a = true
      · rw [List.takeWhile_cons, if_pos hws2] at hws
        cases hws
      · simpa using hws2
  obtain ⟨rest, hrest⟩ := List.isPrefixOf_iff_prefix.mp h
  unfold jsTrim
  rw [hdw, ← hrest]
  rw [List.reverse_append]
  rw [List.dropWhile_append]
  by_cases hre : (rest.reverse.dropWhile isWs).isEmpty = true
  · rw [if_pos hre]
    have hpr : p.reverse.dropWhile isWs = p.reverse := by
      apply dropWhile_eq_self_of_head
      intro c hc
      apply hp
      rw [← List.mem_reverse]
      exact mem_head? hc
    rw [hpr]
    simp only [List.reverse_reverse]
    unfold sw
    exact List.isPrefixOf_iff_prefix.mpr List.prefix_rfl
  · rw [if_neg hre]
    rw [List.reverse_append, List.reverse_reverse]
    unfold sw
    exact List.isPrefixOf_iff_prefix.mpr (List.prefix_append _ _)

theorem markerAt_none_of_docline {l : Str} (hws : l.takeWhile isWs = [])
    (hsw : sw "<!--".data (jsTrim l) = false) : markerAt l = none := by
  unfold markerAt
  rw [if_neg]
  intro hcon
  have h2 : sw "<!--comment:".data (jsTrim l) = true :=
    sw_trim_of_sw hws (by decide) hcon
  rw [sw_mono h2 (by decide)] at hsw
  cases hsw

theorem digit_isWordCh {c : Char} (h : c ∈ "0123456789".data) :
    isWordCh c = true :=
  (List.all_eq_true.mp (by decide)) c h

theorem digit_not_quote {c : Char} (h : c ∈ "0123456789".data) :
    c ≠ '"' :=
  ne_of_mem_of_not_mem h (by decide)

theorem ulMatchLine_indent {l : Str} {ind : Nat} {t : Str}
    (h : ulMatchLine l = some (ind, t)) :
    ind = (l.takeWhile isWs).length := by
  unfold ulMatchLine at h
  dsimp only at h
  cases hdr : l.drop (l.takeWhile isWs).length with
  | nil => rw [hdr] at h; cases h
  | cons a r2 =>
    rw [hdr] at h
    dsimp only at h
    by_cases h1 : a = '-' ∨ a = '*' ∨ a = '+'
    · rw [if_pos h1] at h
      by_cases h2 : (r2.takeWhile isWs).length ≥ 1 ∧ r2.length ≥ 2
      · rw [if_pos h2] at h
        simp only [Option.some.injEq, Prod.mk.injEq] at h
        exact h.1.symm
      · rw [if_neg h2] at h; cases h
    · rw [if_neg h1] at h; cases h

theorem olMatchLine_indent {l : Str} {ind : Nat} {t : Str}
    (h : olMatchLine l = some (ind, t)) :
    ind = (l.takeWhile isWs).length := by
  unfold olMatchLine at h
  dsimp only at h
  rcases htd : takeDigits (l.drop (l.takeWhile isWs).length) with ⟨d0, r1⟩
  rw [htd] at h
  dsimp only at h
  by_cases hd : d0 ≠ []
  · rw [if_pos hd] at h
    cases hr1 : r1 with
    | nil => rw [hr1] at h; cases h
    | cons a r2 =>
      rw [hr1] at h
      dsimp only at h
      by_cases ha : a = '.'
      · rw [if_pos ha] at h
        by_cases h2 : (r2.takeWhile isWs).length ≥ 1 ∧ r2.length ≥ 2
        · rw [if_pos h2] at h
          simp only [Option.some.injEq, Prod.mk.injEq] at h
          exact h.1.symm
        · rw [if_neg h2] at h; cases h
      · rw [if_neg ha] at h; cases h
  · rw [if_neg hd] at h; cases h

theorem stripLeadingMarker_id {l : Str} (h : markerAt l = none) :
    stripLeadingMarker l = l := by
  unfold stripLeadingMarker
  rw [h]

section

attribute [local irreducible] parseInlineCore

set_option maxHeartbeats 2000000 in
theorem renderStep_inv (P : RParams) (hPc : P.comments = none)
    (hPa : P.addedLines = ∅) (hPr : P.removedLines = [])
    (lines : List Str) (hdoc : ∀ l ∈ lines, DocLine l)
    (i : Nat) (hi : i < lines.length) (st : RState)
    (hinv : RInv lines i st) : RInv lines (i + 1) (renderStep P lines i st) := by
  obtain ⟨hcdb, hcode, htab, hrows, hthr, hgood, hIL, hitems, hdl⟩ := hinv
  have hmem : lines.getD i [] ∈ lines := by
    rw [List.getD_eq_getElem _ _ hi]
    exact List.getElem_mem _
  obtain ⟨hCD, hSW, hFence, hTable, hBr, hWs⟩ := hdoc _ hmem
  have hnc2 : ¬ (jsTrim (lines.getD i []) = "<!--".data ∧
      i + 1 < lines.length ∧
      containsSub (lines.getD (i + 1) []) "COMMENTS-DATA".data = true) := by
    rintro ⟨h1, _⟩
    rw [h1] at hSW
    revert hSW
    decide
  have hfm : fullMarker (jsTrim (lines.getD i [])) = none :=
    fullMarker_none_of_not_sw hSW
  obtain ⟨L, b, hfl, hLg, hLd⟩ := flushList_spec P st hPa hPr
    (fun it h => (hitems it h).1) (fun it h => (hitems it h).2) hIL
  have hft : flushTable P (flushList P st) = flushList P st := by
    apply flushTable_noop
    rw [hfl]
    exact hrows
  -- facts about the flushed state R := {st with html := st.html ++ L, ...}
  have hRg : GoodP (st.html ++ L) := GoodP_append hgood hLg
  -- carrying the data-line facts past a flush and a new chunk
  have hcarry : ∀ (chunk : Str), ∀ j, j < i → NB lines j →
      dlPat (j + 1) <:+: (st.html ++ L) ++ chunk := by
    intro chunk j hj hnb
    rcases hdl j hj hnb with h1 | ⟨it, hit, hitn⟩
    · exact infix_append_r _ (infix_append_r _ h1)
    · rw [← hitn]
      exact infix_append_r _ (infix_append_l _ (hLd it hit))
  unfold renderStep
  dsimp only
  simp only [hCD, hSW, hcdb, Bool.false_or, Bool.false_and, Bool.or_false,
    Bool.false_eq_true, if_false, hnc2, hfm, Option.isSome_none, hFence,
    hcode, hTable, htab]
  by_cases hb : jsTrim (lines.getD i []) = []
  · -- blank line
    rw [if_pos hb, hPr]
    dsimp only [mapGet]
    rw [hft, hfl]
    refine ⟨hcdb, hcode, htab, hrows, hthr, hRg, ?_, ?_, ?_⟩
    · intro hcon
      exact absurd rfl hcon
    · intro it hit
      cases hit
    · intro j hj hnb
      have hji : j ≠ i := by
        intro hji
        subst hji
        exact hnb.1 hb
      rcases hdl j (by omega) hnb with h1 | ⟨it, hit, hitn⟩
      · exact Or.inl (infix_append_r _ h1)
      · rw [← hitn]
        exact Or.inl (infix_append_l _ (hLd it hit))
  · -- non-blank
    rw [if_neg hb]
    have hws0 : (lines.getD i []).takeWhile isWs = [] := hWs.resolve_left hb
    rcases hH : headerMatchLine (lines.getD i []) with _ | ⟨level, rawContent⟩
    · -- not a header
      dsimp only
      by_cases hhr : hrTest (jsTrim (lines.getD i [])) = true
      · -- horizontal rule
        rw [if_pos hhr, hft, hfl]
        refine ⟨hcdb, hcode, htab, hrows, hthr,
          GoodP_append hRg (by decide), ?_, ?_, ?_⟩
        · intro hcon
          exact absurd rfl hcon
        · intro it hit
          cases hit
        · intro j hj hnb
          have hji : j ≠ i := by
            intro hji
            subst hji
            exact absurd hhr (by rw [hnb.2]; decide)
          exact Or.inl (hcarry _ j (by omega) hnb)
      · rw [if_neg hhr]
        by_cases hq : (lines.getD i []).head? = some '>'
        · -- blockquote
          rw [if_pos hq, hft, hfl]
          rw [parseInline_none hPc]
          dsimp only
          rw [wrapWithDiff_plain hPc hPa hPr]
          dsimp only
          have hbrq : '[' ∉ stripLeadingMarker
              (jsTrim ((lines.getD i []).drop 1)) := by
            intro hc
            exact hBr (List.drop_subset _ _ (jsTrim_sub _
              (stripLeadingMarker_sub _ hc)))
          have hcg : GoodP (parseInlineCore (stripLeadingMarker
              (jsTrim ((lines.getD i []).drop 1)))) :=
            parseInlineCore_good _ hbrq
          have hchunk := block_chunk_facts "blockquote".data
            ("<p>".data ++ parseInlineCore (stripLeadingMarker
              (jsTrim ((lines.getD i []).drop 1))))
            "</p></blockquote>".data (i + 1) (by decide) (by decide)
            (by decide) (GoodP_append (by decide) hcg) (by decide)
            (by decide) (by decide)
          have heqB : "<blockquote><p>".data ++ parseInlineCore
              (stripLeadingMarker (jsTrim ((lines.getD i []).drop 1))) ++
              "</p></blockquote>".data =
              '<' :: ("blockquote".data ++ '>' :: (("<p>".data ++
                parseInlineCore (stripLeadingMarker (jsTrim
                  ((lines.getD i []).drop 1)))) ++
                "</p></blockquote>".data)) := by
            simp only [show ("<blockquote><p>".data : Str) =
                ['<', 'b', 'l', 'o', 'c', 'k', 'q', 'u', 'o', 't', 'e', '>',
                  '<', 'p', '>'] from by decide,
              show ("blockquote".data : Str) =
                ['b', 'l', 'o', 'c', 'k', 'q', 'u', 'o', 't', 'e'] from
                by decide,
              show ("<p>".data : Str) = ['<', 'p', '>'] from by decide,
              List.append_assoc, List.cons_append, List.singleton_append]
            rfl
          rw [heqB]
          refine ⟨hcdb, hcode, htab, hrows, hthr,
            GoodP_append hRg hchunk.1, ?_, ?_, ?_⟩
          · intro hcon
            exact absurd rfl hcon
          · intro it hit
            cases hit
          · intro j hj hnb
            by_cases hji : j = i
            · subst hji
              exact Or.inl (infix_append_l _ hchunk.2)
            · exact Or.inl (hcarry _ j (by omega) hnb)
        · rw [if_neg hq]
          rcases hul : ulMatchLine (lines.getD i []) with _ | ⟨indent, txt⟩
          · -- not ul
            dsimp only
            rcases hol : olMatchLine (lines.getD i []) with _ | ⟨indent, txt⟩
            · -- paragraph
              dsimp only
              rw [hft, hfl, parseInline_none hPc]
              dsimp only
              rw [wrapWithDiff_plain hPc hPa hPr]
              dsimp only
              have hsm : stripLeadingMarker (lines.getD i []) =
                  lines.getD i [] :=
                stripLeadingMarker_id (markerAt_none_of_docline hws0 hSW)
              have hbrp : '[' ∉ jsTrim (stripLeadingMarker
                  (lines.getD i [])) := by
                rw [hsm]
                intro hc
                exact hBr (jsTrim_sub _ hc)
              have hcg : GoodP (parseInlineCore (jsTrim (stripLeadingMarker
                  (lines.getD i [])))) := parseInlineCore_good _ hbrp
              have hchunk := block_chunk_facts "p".data
                (parseInlineCore (jsTrim (stripLeadingMarker
                  (lines.getD i [])))) "</p>".data (i + 1) (by decide)
                (by decide) (by decide) hcg (by decide) (by decide)
                (by decide)
              have heqP : "<p>".data ++ parseInlineCore (jsTrim
                  (stripLeadingMarker (lines.getD i []))) ++ "</p>".data =
                  '<' :: ("p".data ++ '>' :: (parseInlineCore (jsTrim
                    (stripLeadingMarker (lines.getD i []))) ++
                    "</p>".data)) := by
                simp only [show ("<p>".data : Str) = ['<', 'p', '>'] from
                    by decide,
                  show ("p".data : Str) = ['p'] from by decide,
                  List.append_assoc, List.cons_append, List.singleton_append]
                rfl
              rw [heqP]
              refine ⟨hcdb, hcode, htab, hrows, hthr,
                GoodP_append hRg hchunk.1, ?_, ?_, ?_⟩
              · intro hcon
                exact absurd rfl hcon
              · intro it hit
                cases hit
              · intro j hj hnb
                by_cases hji : j = i
                · subst hji
                  exact Or.inl (infix_append_l _ hchunk.2)
                · exact Or.inl (hcarry _ j (by omega) hnb)
            · -- ordered list item
              simp only [parseInline_none hPc]
              have hind0 : indent = 0 := by
                rw [olMatchLine_indent hol, hws0]
                rfl
              have htxt : '[' ∉ txt := fun hc =>
                hBr (olMatchLine_sub hol _ hc)
              have hcg : GoodP (parseInlineCore txt) :=
                parseInlineCore_good _ htxt
              by_cases hsl : st.inList = false
              · rw [if_pos hsl]
                have hflid : flushList P st = st := by
                  unfold flushList
                  rw [if_neg]
                  rintro ⟨h1, _⟩
                  rw [hsl] at h1
                  cases h1
                rw [hflid]
                dsimp only
                have hit0 : st.listItems = [] := by
                  by_cases him : st.listItems = []
                  · exact him
                  · rw [hIL him] at hsl
                    cases hsl
                refine ⟨hcdb, hcode, htab, hrows, hthr, hgood, ?_, ?_, ?_⟩
                · intro _
                  rfl
                · intro it hit
                  rw [hit0] at hit
                  rcases List.mem_append.mp hit with h1 | h2
                  · cases h1
                  · have hite : it = ⟨parseInlineCore txt, indent, i + 1,
                        .ol⟩ := List.mem_singleton.mp h2
                    rw [hite, hind0]
                    exact ⟨rfl, hcg⟩
                · intro j hj hnb
                  by_cases hji : j = i
                  · subst hji
                    exact Or.inr ⟨⟨parseInlineCore txt, indent, j + 1, .ol⟩,
                      by rw [hit0, List.nil_append]
                         exact List.mem_singleton_self _, rfl⟩
                  · rcases hdl j (by omega) hnb with h1 | ⟨it, hit, hitn⟩
                    · exact Or.inl h1
                    · rw [hit0] at hit
                      cases hit
              · rw [if_neg hsl]
                have hsl2 : st.inList = true := by
                  cases hslv : st.inList
                  · exact absurd hslv hsl
                  · rfl
                refine ⟨hcdb, hcode, htab, hrows, hthr, hgood, ?_, ?_, ?_⟩
                · intro _
                  exact hsl2
                · intro it hit
                  rcases List.mem_append.mp hit with h1 | h2
                  · exact hitems it h1
                  · have hite : it = ⟨parseInlineCore txt, indent, i + 1,
                        .ol⟩ := List.mem_singleton.mp h2
                    rw [hite, hind0]
                    exact ⟨rfl, hcg⟩
                · intro j hj hnb
                  by_cases hji : j = i
                  · subst hji
                    exact Or.inr ⟨⟨parseInlineCore txt, indent, j + 1, .ol⟩,
                      List.mem_append_right _ (List.mem_singleton_self _),
                      rfl⟩
                  · rcases hdl j (by omega) hnb with h1 | ⟨it, hit, hitn⟩
                    · exact Or.inl h1
                    · exact Or.inr ⟨it, List.mem_append_left _ hit, hitn⟩
          · -- unordered list item
            simp only [parseInline_none hPc]
            have hind0 : indent = 0 := by
              rw [ulMatchLine_indent hul, hws0]
              rfl
            have htxt : '[' ∉ txt := fun hc =>
              hBr (ulMatchLine_sub hul _ hc)
            have hcg : GoodP (parseInlineCore txt) :=
              parseInlineCore_good _ htxt
            by_cases hsl : st.inList = false
            · rw [if_pos hsl]
              have hflid : flushList P st = st := by
                unfold flushList
                rw [if_neg]
                rintro ⟨h1, _⟩
                rw [hsl] at h1
                cases h1
              rw [hflid]
              dsimp only
              have hit0 : st.listItems = [] := by
                by_cases him : st.listItems = []
                · exact him
                · rw [hIL him] at hsl
                  cases hsl
              refine ⟨hcdb, hcode, htab, hrows, hthr, hgood, ?_, ?_, ?_⟩
              · intro _
                rfl
              · intro it hit
                rw [hit0] at hit
                rcases List.mem_append.mp hit with h1 | h2
                · cases h1
                · have hite : it = ⟨parseInlineCore txt, indent, i + 1,
                      .ul⟩ := List.mem_singleton.mp h2
                  rw [hite, hind0]
                  exact ⟨rfl, hcg⟩
              · intro j hj hnb
                by_cases hji : j = i
                · subst hji
                  exact Or.inr ⟨⟨parseInlineCore txt, indent, j + 1, .ul⟩,
                    by rw [hit0, List.nil_append]
                       exact List.mem_singleton_self _, rfl⟩
                · rcases hdl j (by omega) hnb with h1 | ⟨it, hit, hitn⟩
                  · exact Or.inl h1
                  · rw [hit0] at hit
                    cases hit
            · rw [if_neg hsl]
              have hsl2 : st.inList = true := by
                cases hslv : st.inList
                · exact absurd hslv hsl
                · rfl
              refine ⟨hcdb, hcode, htab, hrows, hthr, hgood, ?_, ?_, ?_⟩
              · intro _
                exact hsl2
              · intro it hit
                rcases List.mem_append.mp hit with h1 | h2
                · exact hitems it h1
                · have hite : it = ⟨parseInlineCore txt, indent, i + 1,
                      .ul⟩ := List.mem_singleton.mp h2
                  rw [hite, hind0]
                  exact ⟨rfl, hcg⟩
              · intro j hj hnb
                by_cases hji : j = i
                · subst hji
                  exact Or.inr ⟨⟨parseInlineCore txt, indent, j + 1, .ul⟩,
                    List.mem_append_right _ (List.mem_singleton_self _),
                    rfl⟩
                · rcases hdl j (by omega) hnb with h1 | ⟨it, hit, hitn⟩
                  · exact Or.inl h1
                  · exact Or.inr ⟨it, List.mem_append_left _ hit, hitn⟩
    · -- header
      have hprev : fullMarker (jsTrim
          (if i > 0 then lines.getD (i - 1) [] else [])) = none := by
        by_cases hi0 : i > 0
        · rw [if_pos hi0]
          refine fullMarker_none_of_not_sw ?_
          have hm2 : lines.getD (i - 1) [] ∈ lines := by
            rw [List.getD_eq_getElem _ _ (by omega)]
            exact List.getElem_mem _
          exact (hdoc _ hm2).2.1
        · rw [if_neg hi0]
          decide
      simp only [hprev]
      rw [hft, hfl]
      simp only [parseInline_none hPc]
      rw [wrapWithDiff_plain hPc hPa hPr]
      dsimp only
      have hbrh : '[' ∉ jsTrim rawContent := by
        intro hc
        exact hBr (headerMatchLine_sub hH _ (jsTrim_sub _ hc))
      have hcg : GoodP (parseInlineCore (jsTrim rawContent)) :=
        parseInlineCore_good _ hbrh
      have hclg : GoodP ("</h".data ++ natToStr level ++ ">".data) := by
        refine GoodP_of_no_quote ?_
        intro hc
        rcases List.mem_append.mp hc with h1 | h2
        · rcases List.mem_append.mp h1 with h3 | h4
          · revert h3; decide
          · exact digit_not_quote (natToStr_mem_digits _ h4) rfl
        · revert h2; decide
      have hchunk := block_chunk_facts ('h' :: natToStr level)
        (parseInlineCore (jsTrim rawContent))
        ("</h".data ++ natToStr level ++ ">".data) (i + 1)
        (by simp) ?_ ?_ hcg hclg ?_ ?_
      rotate_left
      · intro c hc
        rcases List.mem_cons.mp hc with h1 | h2
        · rw [h1]; decide
        · exact digit_isWordCh (natToStr_mem_digits _ h2)
      · intro hc
        rcases List.mem_cons.mp hc with h1 | h2
        · cases h1
        · exact digit_not_quote (natToStr_mem_digits _ h2) rfl
      · intro hc
        have := List.append_eq_nil.mp hc
        cases this.1
      · rw [head?_append_of_ne_nil (by simp)]
        rw [head?_append_of_ne_nil (by decide)]
        decide
      have heqH : "<h".data ++ natToStr level ++ ">".data ++
          parseInlineCore (jsTrim rawContent) ++ "</h".data ++
          natToStr level ++ ">".data =
          '<' :: (('h' :: natToStr level) ++ '>' ::
            (parseInlineCore (jsTrim rawContent) ++
              ("</h".data ++ natToStr level ++ ">".data))) := by
        simp only [show ("<h".data : Str) = ['<', 'h'] from by decide,
          show (">".data : Str) = ['>'] from by decide,
          show ("</h".data : Str) = ['<', '/', 'h'] from by decide,
          List.append_assoc, List.cons_append, List.singleton_append]
        rfl
      rw [heqH]
      refine ⟨hcdb, hcode, htab, hrows, hthr,
        GoodP_append hRg hchunk.1, ?_, ?_, ?_⟩
      · intro hcon
        exact absurd rfl hcon
      · intro it hit
        cases hit
      · intro j hj hnb
        by_cases hji : j = i
        · subst hji
          exact Or.inl (infix_append_l _ hchunk.2)
        · exact Or.inl (hcarry _ j (by omega) hnb)


theorem renderLoop_inv (P : RParams) (hPc : P.comments = none)
    (hPa : P.addedLines = ∅) (hPr : P.removedLines = [])
    (lines : List Str) (hdoc : ∀ l ∈ lines, DocLine l) :
    ∀ fuel i st, i ≤ lines.length → lines.length - i ≤ fuel →
      RInv lines i st →
      RInv lines lines.length (renderLoop P lines fuel i st) := by
  intro fuel
  induction fuel with
  | zero =>
    intro i st hle hf hinv
    have hieq : i = lines.length := by omega
    subst hieq
    simpa only [renderLoop] using hinv
  | succ f ih =>
    intro i st hle hf hinv
    simp only [renderLoop]
    by_cases hi : i < lines.length
    · rw [if_pos hi]
      exact ih (i + 1) _ (by omega) (by omega)
        (renderStep_inv P hPc hPa hPr lines hdoc i hi st hinv)
    · rw [if_neg hi]
      have hieq : i = lines.length := by omega
      exact hieq ▸ hinv

theorem RInv_init (lines : List Str) : RInv lines 0 initRState := by
  refine ⟨rfl, rfl, rfl, rfl, rfl, GoodP_nil, ?_, ?_, ?_⟩
  · intro h
    exact absurd rfl h
  · intro it hit
    cases hit
  · intro j hj
    omega

theorem dlPat_ne_nil (n : Nat) : dlPat n ≠ [] := by
  simp [dlPat]

theorem GoodP_no_diff {s : Str} (h : GoodP s) :
    containsSub s "class=\"diff".data = false := by
  unfold containsSub
  refine decide_eq_false ?_
  intro hinf
  exact h.1 (List.IsInfix.trans (by decide) hinf)

theorem GoodP_no_removed {s : Str} (h : GoodP s) :
    containsSub s "class=\"removed".data = false := by
  unfold containsSub
  refine decide_eq_false ?_
  intro hinf
  exact h.2.1 (List.IsInfix.trans (by decide) hinf)

end

instance (l : Str) : Decidable (DocLine l) := by
  unfold DocLine
  infer_instance

